import Mathlib

/-!
# go-ujson: the decoder and its map pool

A shallow embedding of `decode.go` and `mappool.go`.

* A Go `byte` is a natural number (every byte is below 256; the scanners only
  compare bytes with constants, so nothing depends on the bound), a buffer
  or Go `string` a `List Nat`.
* The input buffer `data` is never assigned after `NewDecoder`; it is passed
  next to the mutable part of the `Decoder`.
* A Go function returning `(value, error)` yields `Outcome.ret value err j`
  with the decoder after the call. An index expression `j.data[j.idx]` with
  `j.idx` outside the buffer is a Go run-time panic: `Outcome.panic`.
* `decodeAny` and the two composite scanners recurse on a fuel argument;
  `Decode` supplies `len(data) + 1`, which is shown to be enough.
* The cursor `idx` is an `int64` that is only incremented after a successful
  read at `idx`, so it never exceeds `len(data)` and is a natural number here.

Byte codes used below: tab 9, LF 10, CR 13, space 32, double quote 34,
comma 44, minus 45, dot 46, slash 47, digits 48..57, colon 58, `A` 65, `E` 69,
`F` 70, `[` 91, backslash 92, `]` 93, `a` 97, `b` 98, `e` 101, `f` 102,
`l` 108, `n` 110, `r` 114, `s` 115, `t` 116, `u` 117, left brace 123,
right brace 125.
-/

namespace Ujson

/-! ## decode.go: constants -/

def JT_NULL : Nat := 0
def JT_TRUE : Nat := 1
def JT_FALSE : Nat := 2
def JT_NUMERIC : Nat := 3
def JT_UTF8 : Nat := 4
def JT_ARRAY : Nat := 5
def JT_OBJECT : Nat := 6
def JT_INVALID : Nat := 7

def SS_NORMAL : Nat := 0
def SS_ESC : Nat := 1

/-- A Go `interface{}` value as the decoder sees it: `nil`, a Go `string`,
the `map[string]interface{}` owned by the `MapItem` at address `p`, or any
other value made by the `ObjectStore`, known by a handle. -/
inductive Value where
  | nil
  | string (s : List Nat)
  | map (p : Nat)
  | iface (h : Nat)
  deriving DecidableEq, Repr

/-- The words matched by `decodeTrue`, `decodeFalse` and `decodeNull`. -/
inductive Literal where
  | true
  | false
  | null
  deriving DecidableEq, Repr

/-- The errors made by `decode.go`, one constructor for each message, and the
errors handed back by the `ObjectStore`. -/
inductive Err where
  /-- Message "Expected object or value" -/
  | expectedValue
  /-- Message "Key name of object must be 'string' when decoding 'object'" -/
  | keyMustBeString
  /-- Message "No ':' found when decoding object value" -/
  | missingColon
  /-- Message "Unexpected character in found when decoding object value" -/
  | unexpectedCharacterInObject
  /-- Message "Unexpected character found when decoding array value (%d)" -/
  | unexpectedCharacterInArray (len : Nat)
  /-- Message "Unexpected character %c in \\u hexadecimal character escape" -/
  | unexpectedCharacterInHexEscape (c : Nat)
  /-- Message "Unexpected character %c when decoding string value" -/
  | unexpectedCharacterInString (c : Nat)
  /-- Message "Unexpected character found when decoding 'true'" (or 'false', 'null') -/
  | invalidLiteral (word : Literal)
  /-- an error returned by an `ObjectStore` operation -/
  | store (msg : String)
  deriving DecidableEq, Repr

/-- The message (for `fmt.Sprintf`, the format) of each error: its kind. -/
def Err.format : Err → String
  | .expectedValue => "Expected object or value"
  | .keyMustBeString => "Key name of object must be 'string' when decoding 'object'"
  | .missingColon => "No ':' found when decoding object value"
  | .unexpectedCharacterInObject => "Unexpected character in found when decoding object value"
  | .unexpectedCharacterInArray _ => "Unexpected character found when decoding array value (%d)"
  | .unexpectedCharacterInHexEscape _ => "Unexpected character %c in \\u hexadecimal character escape"
  | .unexpectedCharacterInString _ => "Unexpected character %c when decoding string value"
  | .invalidLiteral .true => "Unexpected character found when decoding 'true'"
  | .invalidLiteral .false => "Unexpected character found when decoding 'false'"
  | .invalidLiteral .null => "Unexpected character found when decoding 'null'"
  | .store msg => msg

/-- The contents of a Go `map[string]interface{}`. -/
abbrev GoMap := List (List Nat × Value)

/-! ## mappool.go -/

/-- A `MapItem` object on the heap. `pool` tells whether its back-reference to
the pool is non-nil; `m` is the contents of its map. -/
structure MapItem where
  pool : Bool
  m : GoMap
  deriving DecidableEq, Repr

/-- A `MapPool`. `list` is the buffered channel of idle items (addresses,
oldest first) and `cap` its capacity; `misses` is the `int32` counter. `heap`
holds every `MapItem` allocated so far; the address of an item is its index. -/
structure MapPool where
  misses : Int
  cap : Nat
  list : List Nat
  heap : List MapItem
  deriving DecidableEq, Repr

/-- Two's complement wrap-around of `atomic.AddInt32`. -/
def wrapInt32 (x : Int) : Int := (x + 2147483648) % 4294967296 - 2147483648

/-- Go `newMapItem(p)`: allocates an item with an empty map that points back to
the pool; returns its address. -/
def newMapItem (p : MapPool) : Nat × MapPool :=
  (p.heap.length, { p with heap := p.heap ++ [{ pool := true, m := [] }] })

/-- The loop of `NewMapPool`: `count` times `p.list <- newMapItem(p)`. -/
def NewMapPool.fill : Nat → MapPool → MapPool
  | 0, p => p
  | n + 1, p =>
    let r := newMapItem p
    NewMapPool.fill n { r.2 with list := r.2.list ++ [r.1] }

/-- Go `NewMapPool(count)`. `make(chan *MapItem, count)` panics on a negative
count: `none`. -/
def NewMapPool (count : Int) : Option MapPool :=
  if count < 0 then none
  else some (NewMapPool.fill count.toNat { misses := 0, cap := count.toNat, list := [], heap := [] })

/-- Go `pool.Checkout()`: the non-blocking receive, or on an empty channel one
more miss and a fresh item. -/
def MapPool.Checkout (pool : MapPool) : Nat × MapPool :=
  match pool.list with
  | m :: rest => (m, { pool with list := rest })
  | [] => newMapItem { pool with misses := wrapInt32 (pool.misses + 1) }

/-- Go `pool.Len()`. -/
def MapPool.Len (pool : MapPool) : Nat := pool.list.length

/-- Go `pool.Misses()`. -/
def MapPool.Misses (pool : MapPool) : Int := pool.misses

/-- Go `item.Close()` for the item at address `item`: every key of its map is
deleted, then the item is sent on the channel of its pool. The send blocks for
ever when the channel is full (nothing receives in a sequential run): `none`.
An address outside the heap is a nil dereference, `none` as well. -/
def MapItem.Close (item : Nat) (pool : MapPool) : Option MapPool :=
  match pool.heap[item]? with
  | none => none
  | some it =>
    let heap := pool.heap.set item { it with m := [] }
    if it.pool then
      if pool.list.length < pool.cap then
        some { pool with heap := heap, list := pool.list ++ [item] }
      else none
    else some { pool with heap := heap }

/-! ## decode.go -/

/-- The `ObjectStore` interface, over a store with state `σ`. Each operation
gives its results and the store afterwards. `ObjectAddKey` and `ArrayAddItem`
return only an error in Go and change their first argument in place:
`ObjectAddKey` receives the contents of the map and gives the new contents,
an array lives in the state of the store. -/
structure ObjectStore (σ : Type) where
  NewObject : σ → Value × Option String × σ
  NewArray : σ → Value × Option String × σ
  ObjectAddKey : σ → GoMap → Value → Value → Option String × GoMap × σ
  ArrayAddItem : σ → Value → Value → Option String × σ
  NewString : σ → List Nat → List Nat × Option String × σ
  NewNumeric : σ → List Nat → Value × Option String × σ
  NewTrue : σ → Value × Option String × σ
  NewFalse : σ → Value × Option String × σ
  NewNull : σ → Value × Option String × σ

/-- The mutable fields of a `Decoder`; `checked` holds item addresses. -/
structure Decoder (σ : Type) where
  store : σ
  pool : MapPool
  checked : List Nat
  idx : Nat
  lastTypeId : Nat
  deriving DecidableEq, Repr

/-- What a call of a scanner does. -/
inductive Outcome (σ : Type) where
  /-- the call returned `(v, err)` and left the decoder `j` -/
  | ret (v : Value) (err : Option Err) (j : Decoder σ)
  /-- run-time panic: index out of range -/
  | panic
  /-- the model ran out of fuel -/
  | outOfFuel
  deriving DecidableEq, Repr

/-- A store error as a decoder error. -/
def storeErr (e : Option String) : Option Err := e.map Err.store

/-- Go `NewDecoder(store, pool, data)`. -/
def NewDecoder {σ : Type} (store : σ) (pool : MapPool) : Decoder σ :=
  { store := store, pool := pool, checked := [], idx := 0, lastTypeId := 0 }

def isWhitespace (c : Nat) : Bool := c = 32 || c = 9 || c = 13 || c = 10

/-- The loop of `skipWhitespace` over the bytes from `data[idx]` on: the index
of the first byte that is no whitespace; `none` is the panic of reading
`data[len(data)]`. -/
def skipWhitespace.loop : List Nat → Nat → Option Nat
  | [], _ => none
  | c :: cs, idx => if isWhitespace c then skipWhitespace.loop cs (idx + 1) else some idx

/-- Go `j.skipWhitespace()`; `none` is the panic. -/
def skipWhitespace {σ : Type} (data : List Nat) (j : Decoder σ) : Option (Decoder σ) :=
  match skipWhitespace.loop (data.drop j.idx) j.idx with
  | none => none
  | some i => some { j with idx := i }

/-- What the loop of `decodeString` ends with. -/
inductive StringScan where
  /-- closing quote read; `idx` is one past it -/
  | closed (idx : Nat)
  /-- an error, with the cursor after the offending byte -/
  | failed (e : Err) (idx : Nat)
  /-- read past the end of the buffer -/
  | panic
  deriving DecidableEq, Repr

def isHexDigit (c : Nat) : Bool :=
  (48 ≤ c && c ≤ 57) || (97 ≤ c && c ≤ 102) || (65 ≤ c && c ≤ 70)

def isSimpleEscape (c : Nat) : Bool :=
  c = 98 || c = 102 || c = 110 || c = 114 || c = 116 || c = 92 || c = 47 || c = 34

/-- The loop of `decodeString` over the bytes from `data[idx]` on, in state
`state` with counter `escCount`. -/
def decodeString.loop : List Nat → Nat → Nat → Nat → StringScan
  | [], _, _, _ => .panic
  | c :: cs, idx, state, escCount =>
    if state = SS_NORMAL then
      if c = 34 then .closed (idx + 1)  -- double quote
      else if c = 92 then decodeString.loop cs (idx + 1) SS_ESC escCount  -- backslash
      else if c ≥ 32 then decodeString.loop cs (idx + 1) state escCount
      else .failed (.unexpectedCharacterInString c) (idx + 1)
    else if state = SS_ESC then
      if escCount > 0 then
        if isHexDigit c then
          if escCount + 1 > 4 then decodeString.loop cs (idx + 1) SS_NORMAL 0
          else decodeString.loop cs (idx + 1) state (escCount + 1)
        else .failed (.unexpectedCharacterInHexEscape c) (idx + 1)
      else if isSimpleEscape c then decodeString.loop cs (idx + 1) SS_NORMAL escCount
      else if c = 117 then decodeString.loop cs (idx + 1) state 1  -- u
      else .failed (.unexpectedCharacterInString c) (idx + 1)
    else .failed (.unexpectedCharacterInString c) (idx + 1)

/-- The Go slice `data[lo:hi]`. -/
def slice (data : List Nat) (lo hi : Nat) : List Nat := (data.take hi).drop lo

/-- Go `j.decodeString()`. -/
def decodeString {σ : Type} (S : ObjectStore σ) (data : List Nat) (j : Decoder σ) :
    Outcome σ :=
  let startIdx := j.idx + 1
  match decodeString.loop (data.drop startIdx) startIdx SS_NORMAL 0 with
  | .panic => .panic
  | .failed e idx => .ret (.string []) (some e) { j with lastTypeId := JT_INVALID, idx := idx }
  | .closed idx =>
    let r := S.NewString j.store (slice data startIdx (idx - 1))
    .ret (.string r.1) (storeErr r.2.1) { j with lastTypeId := JT_UTF8, idx := idx, store := r.2.2 }

def isNumericChar (c : Nat) : Bool :=
  c = 45 || c = 46 || c = 101 || c = 69 || (48 ≤ c && c ≤ 57)

/-- The loop of `decodeNumeric` over the bytes from `data[idx]` on: the index
of the first byte outside the number; `none` is the panic. -/
def decodeNumeric.loop : List Nat → Nat → Option Nat
  | [], _ => none
  | c :: cs, idx => if isNumericChar c then decodeNumeric.loop cs (idx + 1) else some idx

/-- Go `j.decodeNumeric()`. -/
def decodeNumeric {σ : Type} (S : ObjectStore σ) (data : List Nat) (j : Decoder σ) :
    Outcome σ :=
  let startIdx := j.idx
  match decodeNumeric.loop (data.drop j.idx) j.idx with
  | none => .panic
  | some endIdx =>
    let r := S.NewNumeric j.store (slice data startIdx endIdx)
    .ret r.1 (storeErr r.2.1) { j with idx := endIdx, lastTypeId := JT_NUMERIC, store := r.2.2 }

/-- Go `j.decodeTrue()`. -/
def decodeTrue {σ : Type} (S : ObjectStore σ) (data : List Nat) (j : Decoder σ) :
    Outcome σ :=
  let j := { j with idx := j.idx + 1 }
  match data[j.idx]? with
  | none => .panic
  | some c =>
  if c ≠ 114 then .ret .nil (some (.invalidLiteral .true)) j else
  let j := { j with idx := j.idx + 1 }
  match data[j.idx]? with
  | none => .panic
  | some c =>
  if c ≠ 117 then .ret .nil (some (.invalidLiteral .true)) j else
  let j := { j with idx := j.idx + 1 }
  match data[j.idx]? with
  | none => .panic
  | some c =>
  if c ≠ 101 then .ret .nil (some (.invalidLiteral .true)) j else
  let r := S.NewTrue j.store
  .ret r.1 (storeErr r.2.1) { j with lastTypeId := JT_TRUE, idx := j.idx + 1, store := r.2.2 }

/-- Go `j.decodeFalse()`. -/
def decodeFalse {σ : Type} (S : ObjectStore σ) (data : List Nat) (j : Decoder σ) :
    Outcome σ :=
  let j := { j with idx := j.idx + 1 }
  match data[j.idx]? with
  | none => .panic
  | some c =>
  if c ≠ 97 then .ret .nil (some (.invalidLiteral .false)) j else
  let j := { j with idx := j.idx + 1 }
  match data[j.idx]? with
  | none => .panic
  | some c =>
  if c ≠ 108 then .ret .nil (some (.invalidLiteral .false)) j else
  let j := { j with idx := j.idx + 1 }
  match data[j.idx]? with
  | none => .panic
  | some c =>
  if c ≠ 115 then .ret .nil (some (.invalidLiteral .false)) j else
  let j := { j with idx := j.idx + 1 }
  match data[j.idx]? with
  | none => .panic
  | some c =>
  if c ≠ 101 then .ret .nil (some (.invalidLiteral .false)) j else
  let r := S.NewFalse j.store
  .ret r.1 (storeErr r.2.1) { j with lastTypeId := JT_FALSE, idx := j.idx + 1, store := r.2.2 }

/-- Go `j.decodeNull()`. -/
def decodeNull {σ : Type} (S : ObjectStore σ) (data : List Nat) (j : Decoder σ) :
    Outcome σ :=
  let j := { j with idx := j.idx + 1 }
  match data[j.idx]? with
  | none => .panic
  | some c =>
  if c ≠ 117 then .ret .nil (some (.invalidLiteral .null)) j else
  let j := { j with idx := j.idx + 1 }
  match data[j.idx]? with
  | none => .panic
  | some c =>
  if c ≠ 108 then .ret .nil (some (.invalidLiteral .null)) j else
  let j := { j with idx := j.idx + 1 }
  match data[j.idx]? with
  | none => .panic
  | some c =>
  if c ≠ 108 then .ret .nil (some (.invalidLiteral .null)) j else
  let r := S.NewNull j.store
  .ret r.1 (storeErr r.2.1) { j with lastTypeId := JT_NULL, idx := j.idx + 1, store := r.2.2 }

/-- The call `j.store.ObjectAddKey(newObj, itemName, itemValue)` where `newObj`
is the map of the item at address `p`: the store sees the contents of that
map and its new contents are written back. -/
def objectAddKey {σ : Type} (S : ObjectStore σ) (p : Nat) (itemName itemValue : Value)
    (j : Decoder σ) : Option String × Decoder σ :=
  let m := match j.pool.heap[p]? with
    | some it => it.m
    | none => []
  let r := S.ObjectAddKey j.store m itemName itemValue
  (r.1, { j with store := r.2.2,
                 pool := { j.pool with heap := j.pool.heap.modify (fun it => { it with m := r.2.1 }) p } })

/-- The `for` loop of `decodeObject`; `any` is `decodeAny` and `newObj` the
address of the item whose map is filled. -/
def decodeObject.loop {σ : Type} (S : ObjectStore σ) (data : List Nat)
    (any : Decoder σ → Outcome σ) (newObj : Nat) : Nat → Decoder σ → Outcome σ
  | 0, _ => .outOfFuel
  | fuel + 1, j =>
    match skipWhitespace data j with
    | none => .panic
    | some j =>
    match data[j.idx]? with
    | none => .panic
    | some c =>
    if c = 125 then .ret (.map newObj) none { j with idx := j.idx + 1 } else  -- right brace
    match any { j with lastTypeId := JT_INVALID } with
    | .panic => .panic
    | .outOfFuel => .outOfFuel
    | .ret _ (some err) j => .ret (.string []) (some err) j
    | .ret itemName none j =>
    if j.lastTypeId ≠ JT_UTF8 then .ret .nil (some .keyMustBeString) j else
    match skipWhitespace data j with
    | none => .panic
    | some j =>
    match data[j.idx]? with
    | none => .panic
    | some nextChar =>
    let j := { j with idx := j.idx + 1 }
    if nextChar ≠ 58 then .ret .nil (some .missingColon) j else  -- colon
    match skipWhitespace data j with
    | none => .panic
    | some j =>
    match any j with
    | .panic => .panic
    | .outOfFuel => .outOfFuel
    | .ret _ (some err) j => .ret .nil (some err) j
    | .ret itemValue none j =>
    match objectAddKey S newObj itemName itemValue j with
    | (some err, j) => .ret .nil (some (.store err)) j
    | (none, j) =>
    match skipWhitespace data j with
    | none => .panic
    | some j =>
    match data[j.idx]? with
    | none => .panic
    | some nextChar =>
    let j := { j with idx := j.idx + 1 }
    if nextChar = 125 then .ret (.map newObj) none j  -- right brace
    else if nextChar = 44 then decodeObject.loop S data any newObj fuel j  -- comma
    else .ret .nil (some .unexpectedCharacterInObject) j

/-- Go `j.decodeObject(newObj)`. -/
def decodeObject {σ : Type} (S : ObjectStore σ) (data : List Nat)
    (any : Decoder σ → Outcome σ) (fuel : Nat) (newObj : Nat) (j : Decoder σ) : Outcome σ :=
  decodeObject.loop S data any newObj fuel { j with idx := j.idx + 1 }

/-- The `for` loop of `decodeArray`; `len` is the local counter. -/
def decodeArray.loop {σ : Type} (S : ObjectStore σ) (data : List Nat)
    (any : Decoder σ → Outcome σ) (newObj : Value) : Nat → Nat → Decoder σ → Outcome σ
  | 0, _, _ => .outOfFuel
  | fuel + 1, len, j =>
    match skipWhitespace data j with
    | none => .panic
    | some j =>
    match data[j.idx]? with
    | none => .panic
    | some c =>
    if c = 93 then  -- right bracket
      if len = 0 then .ret newObj none { j with idx := j.idx + 1 }
      else .ret .nil (some (.unexpectedCharacterInArray len)) j
    else
    match any j with
    | .panic => .panic
    | .outOfFuel => .outOfFuel
    | .ret _ (some err) j => .ret .nil (some err) j
    | .ret itemValue none j =>
    let r := S.ArrayAddItem j.store newObj itemValue
    let j := { j with store := r.2 }
    match r.1 with
    | some err => .ret .nil (some (.store err)) j
    | none =>
    match skipWhitespace data j with
    | none => .panic
    | some j =>
    match data[j.idx]? with
    | none => .panic
    | some nextChar =>
    let j := { j with idx := j.idx + 1 }
    if nextChar = 93 then .ret newObj none j  -- right bracket
    else if nextChar = 44 then decodeArray.loop S data any newObj fuel (len + 1) j  -- comma
    else .ret .nil (some (.unexpectedCharacterInArray len)) j

/-- Go `j.decodeArray()`. -/
def decodeArray {σ : Type} (S : ObjectStore σ) (data : List Nat)
    (any : Decoder σ → Outcome σ) (fuel : Nat) (j : Decoder σ) : Outcome σ :=
  let r := S.NewArray j.store
  let j := { j with store := r.2.2 }
  match r.2.1 with
  | some err => .ret .nil (some (.store err)) j
  | none =>
  decodeArray.loop S data any r.1 fuel 0 { j with lastTypeId := JT_INVALID, idx := j.idx + 1 }

/-- Go `j.decodeAny()`. -/
def decodeAny {σ : Type} (S : ObjectStore σ) (data : List Nat) :
    Nat → Decoder σ → Outcome σ
  | 0, _ => .outOfFuel
  | fuel + 1, j =>
    match data[j.idx]? with
    | none => .panic
    | some c =>
    if c = 34 then decodeString S data j  -- case double quote
    else if (48 ≤ c && c ≤ 57) || c = 45 then decodeNumeric S data j  -- digits, minus
    else if c = 91 then decodeArray S data (decodeAny S data fuel) fuel j  -- left bracket
    else if c = 123 then  -- left brace
      let r := j.pool.Checkout
      let j := { j with pool := r.2, checked := j.checked ++ [r.1] }
      decodeObject S data (decodeAny S data fuel) fuel r.1 j
    else if c = 116 then decodeTrue S data j  -- t
    else if c = 102 then decodeFalse S data j  -- f
    else if c = 110 then decodeNull S data j  -- n
    else if isWhitespace c then decodeAny S data fuel { j with idx := j.idx + 1 }
    else .ret .nil (some .expectedValue) j

/-- Go `j.Decode()`: the result `(i, j.checked, err)` is `Outcome.ret i err j`
with `j.checked` read off the decoder. -/
def Decode {σ : Type} (S : ObjectStore σ) (data : List Nat) (j : Decoder σ) : Outcome σ :=
  decodeAny S data (data.length + 1) { j with idx := 0, lastTypeId := JT_INVALID }

/-! ## ujson.go -/

/-- The `JSON` struct: the root value and the addresses of the drawn items. -/
structure JSON where
  Root : Value
  mapItems : List Nat
  deriving DecidableEq, Repr

/-- The errors returned by `NewFromBytes`: its own "no data passed in", or the
error of `Decode`. -/
inductive NewErr where
  | noData
  | decode (e : Err)
  deriving DecidableEq, Repr

/-- What a call of `NewFromBytes` does: it returns `(j, err)` and leaves the
pool and the store in the given states, or it panics. -/
inductive NewOutcome (σ : Type) where
  | ret (j : Option JSON) (err : Option NewErr) (pool : MapPool) (store : σ)
  | panic
  | outOfFuel
  deriving DecidableEq, Repr

/-- Go `NewFromBytes(data, pool)`. The store `simpleStore{}` it passes to
`NewDecoder` is declared outside the given sources: it is the parameter `S`,
in state `s`. -/
def NewFromBytes {σ : Type} (S : ObjectStore σ) (s : σ) (data : List Nat) (pool : MapPool) :
    NewOutcome σ :=
  if data.length < 2 then .ret none (some .noData) pool s
  else
    match Decode S data (NewDecoder s pool) with
    | .panic => .panic
    | .outOfFuel => .outOfFuel
    | .ret _ (some err) j => .ret none (some (.decode err)) j.pool j.store
    | .ret root none j => .ret (some { Root := root, mapItems := j.checked }) none j.pool j.store

/-- The loop of `Done`: `Close` on each item in turn; `none` when a `Close`
does not return. -/
def JSON.Done.loop : List Nat → MapPool → Option MapPool
  | [], pool => some pool
  | item :: rest, pool =>
    match MapItem.Close item pool with
    | none => none
    | some pool => JSON.Done.loop rest pool

/-- Go `j.Done()`: every drawn item is closed and `mapItems` set to nil; the
error is always nil. -/
def JSON.Done (j : JSON) (pool : MapPool) : Option (JSON × MapPool) :=
  match JSON.Done.loop j.mapItems pool with
  | none => none
  | some pool => some ({ j with mapItems := [] }, pool)

/-! ## A store for running the decoder -/

/-- One call of an `ObjectStore` operation. -/
inductive StoreCall where
  | NewArray
  | ObjectAddKey (key value : Value)
  | ArrayAddItem (array value : Value)
  | NewString (b : List Nat)
  | NewNumeric (b : List Nat)
  | NewTrue
  | NewFalse
  | NewNull
  | NewObject
  deriving DecidableEq, Repr

/-- A store whose operations never fail and whose state is the list of the
calls made so far. A value it makes is known by the number of the call that
made it; `NewString` gives the bytes as they are; `ObjectAddKey` inserts under
a string key. -/
def logStore : ObjectStore (List StoreCall) where
  NewObject s := (.iface s.length, none, s ++ [.NewObject])
  NewArray s := (.iface s.length, none, s ++ [.NewArray])
  ObjectAddKey s m k v :=
    (none, (match k with
      | .string key => m ++ [(key, v)]
      | _ => m), s ++ [.ObjectAddKey k v])
  ArrayAddItem s a v := (none, s ++ [.ArrayAddItem a v])
  NewString s b := (b, none, s ++ [.NewString b])
  NewNumeric s b := (.iface s.length, none, s ++ [.NewNumeric b])
  NewTrue s := (.iface s.length, none, s ++ [.NewTrue])
  NewFalse s := (.iface s.length, none, s ++ [.NewFalse])
  NewNull s := (.iface s.length, none, s ++ [.NewNull])

/-- A pool of `n` idle items, as `NewMapPool(n)` makes it. -/
def poolOf (n : Nat) : MapPool :=
  NewMapPool.fill n { misses := 0, cap := n, list := [], heap := [] }

/-! ## Vocabulary of the statements -/

/-- The bytes a string literal may hold between its quotes: bytes from 0x20 on
other than the quote and the backslash, a backslash with one of
`b f n r t \ / "`, and a backslash with `u` and four hexadecimal digits. -/
inductive StrBody : List Nat → Prop where
  | nil : StrBody []
  | plain (c : Nat) (rest : List Nat) : 32 ≤ c → c ≠ 34 → c ≠ 92 → StrBody rest →
      StrBody (c :: rest)
  | escape (c : Nat) (rest : List Nat) : isSimpleEscape c = true → StrBody rest →
      StrBody (92 :: c :: rest)
  | unicode (a b c d : Nat) (rest : List Nat) : isHexDigit a = true → isHexDigit b = true →
      isHexDigit c = true → isHexDigit d = true → StrBody rest →
      StrBody (92 :: 117 :: a :: b :: c :: d :: rest)

/-- The bytes of the word of a literal. -/
def Literal.word : Literal → List Nat
  | .true => [116, 114, 117, 101]
  | .false => [102, 97, 108, 115, 101]
  | .null => [110, 117, 108, 108]

/-- The `lastTypeId` a literal scanner leaves. -/
def Literal.typeId : Literal → Nat
  | .true => JT_TRUE
  | .false => JT_FALSE
  | .null => JT_NULL

/-- The store operation a literal scanner ends with. -/
def Literal.make {σ : Type} (S : ObjectStore σ) : Literal → σ → Value × Option String × σ
  | .true => S.NewTrue
  | .false => S.NewFalse
  | .null => S.NewNull

/-- Every idle item of the pool is on the heap and has an empty map. -/
def MapPool.idleEmpty (pool : MapPool) : Bool :=
  pool.list.all fun p =>
    match pool.heap[p]? with
    | some it => it.m.isEmpty
    | none => false

/-- The results of `k` calls of `Checkout` in a row, first call first, and the
pool after them. -/
def MapPool.CheckoutN : Nat → MapPool → List Nat × MapPool
  | 0, pool => ([], pool)
  | k + 1, pool =>
    let r := MapPool.CheckoutN k pool
    let q := r.2.Checkout
    (r.1 ++ [q.1], q.2)

/-- Where a left-to-right reader of JSON text stands: outside every string
literal, inside one, or inside one right after a backslash. -/
inductive Lex where
  | out
  | str
  | esc
  deriving DecidableEq, Repr

/-- One byte of lexing. -/
def Lex.step : Lex → Nat → Lex
  | .out, c => if c = 34 then .str else .out
  | .str, c => if c = 34 then .out else if c = 92 then .esc else .str
  | .esc, _ => .str

/-- The state after lexing `text` from state `s`. -/
def Lex.run : Lex → List Nat → Lex
  | s, [] => s
  | s, c :: cs => Lex.run (s.step c) cs

/-- The number of object literals of `text`: its left braces outside string
literals, lexing from state `s`. -/
def countObjects : Lex → List Nat → Nat
  | _, [] => 0
  | s, c :: cs => (if s = .out ∧ c = 123 then 1 else 0) + countObjects (s.step c) cs



/-- The text ends in a number: it ends outside every string literal, and its
last bytes are a run of bytes of a number (`-`, `.`, `e`, `E`, digits) that
starts with a digit or a minus sign, the bytes on which `decodeAny` calls the
number scanner. -/
def endsInNumber (text : List Nat) : Bool :=
  Lex.run .out text = .out &&
    match (text.reverse.takeWhile isNumericChar).getLast? with
    | some c => (48 ≤ c && c ≤ 57) || c = 45
    | none => false

/-- The scanner `any` with the failures of the calls for an object key marked.
The loop of `decodeObject` calls `any` for a key right after it has set
`j.lastTypeId = JT_INVALID`, and for a value only once it has read
`j.lastTypeId = JT_UTF8`, so a call entered with `lastTypeId = JT_INVALID` is a
call for a key. `keyGuard any` is `any`, except that such a call, when it
returns an error, stops with the panic: the loop run with `keyGuard any` ends in
the panic where the loop run with `any` returns the error of a call for a key,
and is the same run otherwise. -/
def keyGuard {σ : Type} (any : Decoder σ → Outcome σ) (j : Decoder σ) : Outcome σ :=
  match any j with
  | .ret v (some e) j' => if j.lastTypeId = JT_INVALID then .panic else .ret v (some e) j'
  | r => r

/-- One turn of the loop of `decodeArray` that ends with a comma, from the
decoder `j` at the head of the loop to the decoder `j2` at the head of the next
turn: after whitespace the byte at the cursor is no right bracket, the call of
`any` for the element returns a value and a nil error, `ArrayAddItem` appends
that value to the array `a` without an error, and after whitespace the next
byte is a comma, which is read. -/
def ArrayTurn {σ : Type} (S : ObjectStore σ) (data : List Nat)
    (any : Decoder σ → Outcome σ) (a : Value) (j j2 : Decoder σ) : Prop :=
  ∃ (j1 : Decoder σ) (c : Nat) (v : Value) (jv j3 : Decoder σ),
    skipWhitespace data j = some j1 ∧ data[j1.idx]? = some c ∧ c ≠ 93 ∧
    any j1 = .ret v none jv ∧ (S.ArrayAddItem jv.store a v).1 = none ∧
    skipWhitespace data { jv with store := (S.ArrayAddItem jv.store a v).2 } = some j3 ∧
    data[j3.idx]? = some 44 ∧ j2 = { j3 with idx := j3.idx + 1 }

/-- `k` turns in a row: `k` elements appended to the array `a`, each followed
by a comma. -/
inductive ArrayTurns {σ : Type} (S : ObjectStore σ) (data : List Nat)
    (any : Decoder σ → Outcome σ) (a : Value) : Nat → Decoder σ → Decoder σ → Prop where
  | zero (j : Decoder σ) : ArrayTurns S data any a 0 j j
  | succ (k : Nat) (j j1 j2 : Decoder σ) : ArrayTurn S data any a j j1 →
      ArrayTurns S data any a k j1 j2 → ArrayTurns S data any a (k + 1) j j2

/-- The flag of the reader for trailing commas after the byte `c`, read in the
lexer state `s` with the flag `ac`: the bytes read last are, outside every
string literal, a comma and then whitespace only. -/
def commaStep (s : Lex) (ac : Bool) (c : Nat) : Bool :=
  decide (s = .out ∧ (c = 44 ∨ (ac = true ∧ isWhitespace c = true)))

/-- The text holds a trailing comma: outside every string literal, a comma
that is followed, after whitespace only, by a right bracket. The reader starts
in the lexer state `s` with the flag `ac`. -/
def trailingComma : Lex → Bool → List Nat → Bool
  | _, _, [] => false
  | s, ac, c :: cs =>
    if s = .out ∧ ac = true ∧ c = 93 then true
    else trailingComma (s.step c) (commaStep s ac c) cs

/-- The flag of the reader for trailing commas after `text`. -/
def afterComma : Lex → Bool → List Nat → Bool
  | _, ac, [] => ac
  | s, ac, c :: cs => afterComma (s.step c) (commaStep s ac c) cs

/-- The text of `data` before the offset `i` ends outside every string literal
and holds no trailing comma, and `ac` is the flag of the reader after it. -/
def NoTC (data : List Nat) (i : Nat) (ac : Bool) : Prop :=
  i ≤ data.length ∧ Lex.run .out (slice data 0 i) = .out ∧
    trailingComma .out false (slice data 0 i) = false ∧
    afterComma .out false (slice data 0 i) = ac

/-- Two pool states that differ at most in the contents of the maps on the
heap: `Checkout` behaves alike on them. -/
def PoolSim (p q : MapPool) : Prop :=
  p.misses = q.misses ∧ p.cap = q.cap ∧ p.list = q.list ∧ p.heap.length = q.heap.length

/-- The cursor `idx`, the drawn list `checked` and the pool of a decoder agree
with the text read since offset `a`: that text ends outside every string
literal, and since then one item was checked out of the pool `P0` for each of
its object literals, in order, after the items `pre` drawn before. -/
def Tracks (data : List Nat) (P0 : MapPool) (pre : List Nat) (a : Nat)
    (idx : Nat) (checked : List Nat) (pool : MapPool) : Prop :=
  a ≤ idx ∧ idx ≤ data.length ∧ Lex.run .out (slice data a idx) = .out ∧
    checked = pre ++ (P0.CheckoutN (countObjects .out (slice data a idx))).1 ∧
    PoolSim pool (P0.CheckoutN (countObjects .out (slice data a idx))).2

/-- The state of `decodeString` and the state of the lexer at the same byte. -/
def LexRel (state escCount : Nat) (s : Lex) : Prop :=
  (state = SS_NORMAL ∧ escCount = 0 ∧ s = .str) ∨
    (state = SS_ESC ∧ escCount = 0 ∧ s = .esc) ∨
    (state = SS_ESC ∧ 0 < escCount ∧ s = .str)

theorem drop_cons_getElem? {α : Type} {l : List α} {i : Nat} {c : α} {cs : List α}
    (h : l.drop i = c :: cs) : l[i]? = some c ∧ l.drop (i + 1) = cs := by
  constructor
  · have := congrArg List.head? h
    simpa using this
  · have := congrArg List.tail h
    simpa using this

theorem isWhitespace_cases {c : Nat} (h : isWhitespace c = true) :
    c = 32 ∨ c = 9 ∨ c = 13 ∨ c = 10 := by
  simp only [isWhitespace, Bool.or_eq_true, decide_eq_true_eq] at h
  omega

theorem decodeAny_skip {σ : Type} (S : ObjectStore σ) (data : List Nat) (ws rest : List Nat)
    (hws : ∀ c ∈ ws, isWhitespace c = true) (fuel : Nat) (j : Decoder σ)
    (h : data.drop j.idx = ws ++ rest) :
    decodeAny S data (fuel + ws.length) j
      = decodeAny S data fuel { j with idx := j.idx + ws.length } := by
  induction ws generalizing j with
  | nil => simp
  | cons w ws ih =>
    obtain ⟨h1, h2⟩ := drop_cons_getElem? h
    have hw := hws w (by simp)
    have hw' := isWhitespace_cases hw
    have : fuel + (w :: ws).length = (fuel + ws.length) + 1 := by simp; omega
    rw [this, decodeAny, h1]
    have e1 : w ≠ 34 := by omega
    have e2 : ((48 ≤ w && w ≤ 57) || w = 45) = false := by
      rcases hw' with h | h | h | h <;> subst h <;> decide
    have e3 : w ≠ 91 := by omega
    have e4 : w ≠ 123 := by omega
    have e5 : w ≠ 116 := by omega
    have e6 : w ≠ 102 := by omega
    have e7 : w ≠ 110 := by omega
    simp only [e1, e2, e3, e4, e5, e6, e7, hw, if_false, if_true]
    rw [ih (fun c hc => hws c (by simp [hc])) _ (by simpa using h2)]
    have e8 : j.idx + 1 + ws.length = j.idx + (ws.length + 1) := by omega
    simp [e8]



theorem getElem?_lt {l : List Nat} {i c : Nat} (h : l[i]? = some c) : i < l.length := by
  by_contra hn
  rw [List.getElem?_eq_none (Nat.le_of_not_lt hn)] at h
  cases h

theorem getElem?_append_some {l : List Nat} {i c : Nat} (t : List Nat) (h : l[i]? = some c) :
    (l ++ t)[i]? = some c := by
  rw [List.getElem?_append_left (getElem?_lt h)]; exact h

theorem skipWhitespace_loop_append {l : List Nat} {i k : Nat} (t : List Nat)
    (h : skipWhitespace.loop l i = some k) : skipWhitespace.loop (l ++ t) i = some k := by
  induction l generalizing i with
  | nil => simp [skipWhitespace.loop] at h
  | cons c cs ih =>
    simp only [skipWhitespace.loop, List.cons_append] at h ⊢
    split
    · rename_i hc
      rw [if_pos hc] at h
      exact ih h
    · rename_i hc
      rw [if_neg hc] at h
      exact h

theorem skipWhitespace_loop_bound {l : List Nat} {i k : Nat}
    (h : skipWhitespace.loop l i = some k) : i ≤ k ∧ k < i + l.length := by
  induction l generalizing i with
  | nil => simp [skipWhitespace.loop] at h
  | cons c cs ih =>
    simp only [skipWhitespace.loop] at h
    split at h
    · have := ih h
      simp only [List.length_cons]
      omega
    · cases h
      simp

theorem skipWhitespace_append {σ : Type} {data : List Nat} {j j' : Decoder σ} (t : List Nat)
    (h : skipWhitespace data j = some j') : skipWhitespace (data ++ t) j = some j' := by
  unfold skipWhitespace at h ⊢
  cases hl : skipWhitespace.loop (List.drop j.idx data) j.idx with
  | none => simp [hl] at h
  | some k =>
    have hb := skipWhitespace_loop_bound hl
    have hle : j.idx ≤ data.length := by
      simp only [List.length_drop] at hb
      omega
    rw [List.drop_append_of_le_length hle, skipWhitespace_loop_append t hl]
    simpa [hl] using h

theorem skipWhitespace_bound {σ : Type} {data : List Nat} {j j' : Decoder σ}
    (h : skipWhitespace data j = some j') :
    j' = { j with idx := j'.idx } ∧ j.idx ≤ j'.idx ∧ j'.idx < data.length := by
  unfold skipWhitespace at h
  cases hl : skipWhitespace.loop (List.drop j.idx data) j.idx with
  | none => simp [hl] at h
  | some k =>
    have hb := skipWhitespace_loop_bound hl
    simp only [hl, Option.some.injEq] at h
    subst h
    simp only [List.length_drop] at hb
    refine ⟨rfl, ?_, ?_⟩ <;> simp <;> omega

theorem decodeNumeric_loop_append {l : List Nat} {i k : Nat} (t : List Nat)
    (h : decodeNumeric.loop l i = some k) : decodeNumeric.loop (l ++ t) i = some k := by
  induction l generalizing i with
  | nil => simp [decodeNumeric.loop] at h
  | cons c cs ih =>
    simp only [decodeNumeric.loop, List.cons_append] at h ⊢
    split_ifs at h ⊢ <;> first | exact ih h | exact h

theorem decodeNumeric_loop_bound {l : List Nat} {i k : Nat}
    (h : decodeNumeric.loop l i = some k) : i ≤ k ∧ k < i + l.length := by
  induction l generalizing i with
  | nil => simp [decodeNumeric.loop] at h
  | cons c cs ih =>
    simp only [decodeNumeric.loop] at h
    split at h
    · have := ih h
      simp only [List.length_cons]
      omega
    · cases h
      simp

theorem decodeString_loop_append {l : List Nat} {i st esc : Nat} {r : StringScan}
    (t : List Nat) (h : decodeString.loop l i st esc = r) (hr : r ≠ .panic) :
    decodeString.loop (l ++ t) i st esc = r := by
  induction l generalizing i st esc with
  | nil =>
    simp only [decodeString.loop] at h
    exact absurd h.symm hr
  | cons c cs ih =>
    simp only [decodeString.loop, List.cons_append] at h ⊢
    split_ifs at h ⊢ <;> first | exact ih h | exact h

theorem decodeString_loop_closed_bound {l : List Nat} {i st esc k : Nat}
    (h : decodeString.loop l i st esc = .closed k) : i < k ∧ k ≤ i + l.length := by
  induction l generalizing i st esc with
  | nil => simp [decodeString.loop] at h
  | cons c cs ih =>
    simp only [decodeString.loop] at h
    simp only [List.length_cons]
    split_ifs at h <;>
      first
      | exact ⟨by have hh := (ih h).1; omega, by have hh := (ih h).2; omega⟩
      | (cases h; omega)

theorem decodeString_loop_failed_bound {l : List Nat} {i st esc k : Nat} {e : Err}
    (h : decodeString.loop l i st esc = .failed e k) : i < k ∧ k ≤ i + l.length := by
  induction l generalizing i st esc with
  | nil => simp [decodeString.loop] at h
  | cons c cs ih =>
    simp only [decodeString.loop] at h
    simp only [List.length_cons]
    split_ifs at h <;>
      first
      | exact ⟨by have hh := (ih h).1; omega, by have hh := (ih h).2; omega⟩
      | (cases h; omega)

theorem slice_append {data : List Nat} {lo hi : Nat} (t : List Nat) (h : hi ≤ data.length) :
    slice (data ++ t) lo hi = slice data lo hi := by
  unfold slice
  rw [List.take_append_of_le_length h]

theorem decodeString_append {σ : Type} {S : ObjectStore σ} {data : List Nat} {j j' : Decoder σ}
    {v : Value} {e : Option Err} (t : List Nat) (h : decodeString S data j = .ret v e j') :
    decodeString S (data ++ t) j = .ret v e j' := by
  unfold decodeString at h ⊢
  simp only at h ⊢
  cases hl : decodeString.loop (List.drop (j.idx + 1) data) (j.idx + 1) SS_NORMAL 0 with
  | panic => simp [hl] at h
  | failed e1 k =>
    have hb := decodeString_loop_failed_bound hl
    have hle : j.idx + 1 ≤ data.length := by
      simp only [List.length_drop] at hb
      omega
    rw [List.drop_append_of_le_length hle, decodeString_loop_append t hl (by simp)]
    simpa [hl] using h
  | closed k =>
    have hb := decodeString_loop_closed_bound hl
    simp only [List.length_drop] at hb
    have hle : j.idx + 1 ≤ data.length := by omega
    rw [List.drop_append_of_le_length hle, decodeString_loop_append t hl (by simp)]
    simp only [hl] at h
    simp only
    rw [slice_append t (by omega)]
    exact h

theorem decodeString_bound {σ : Type} {S : ObjectStore σ} {data : List Nat} {j j' : Decoder σ}
    {v : Value} {e : Option Err} (h : decodeString S data j = .ret v e j') :
    j.idx < j'.idx ∧ j'.idx ≤ data.length := by
  unfold decodeString at h
  simp only at h
  cases hl : decodeString.loop (List.drop (j.idx + 1) data) (j.idx + 1) SS_NORMAL 0 with
  | panic => simp [hl] at h
  | failed e1 k =>
    have hb := decodeString_loop_failed_bound hl
    simp only [List.length_drop] at hb
    simp only [hl, Outcome.ret.injEq] at h
    obtain ⟨-, -, rfl⟩ := h
    simp only
    omega
  | closed k =>
    have hb := decodeString_loop_closed_bound hl
    simp only [List.length_drop] at hb
    simp only [hl, Outcome.ret.injEq] at h
    obtain ⟨-, -, rfl⟩ := h
    simp only
    omega

theorem decodeNumeric_append {σ : Type} {S : ObjectStore σ} {data : List Nat}
    {j j' : Decoder σ} {v : Value} {e : Option Err} (t : List Nat)
    (h : decodeNumeric S data j = .ret v e j') :
    decodeNumeric S (data ++ t) j = .ret v e j' := by
  unfold decodeNumeric at h ⊢
  simp only at h ⊢
  cases hl : decodeNumeric.loop (List.drop j.idx data) j.idx with
  | none => simp [hl] at h
  | some k =>
    have hb := decodeNumeric_loop_bound hl
    simp only [List.length_drop] at hb
    have hle : j.idx ≤ data.length := by omega
    rw [List.drop_append_of_le_length hle, decodeNumeric_loop_append t hl]
    simp only [hl] at h
    simp only
    rw [slice_append t (by omega)]
    exact h

theorem decodeNumeric_bound {σ : Type} {S : ObjectStore σ} {data : List Nat}
    {j j' : Decoder σ} {v : Value} {e : Option Err}
    (h : decodeNumeric S data j = .ret v e j') :
    j.idx ≤ j'.idx ∧ j'.idx < data.length := by
  unfold decodeNumeric at h
  simp only at h
  cases hl : decodeNumeric.loop (List.drop j.idx data) j.idx with
  | none => simp [hl] at h
  | some k =>
    have hb := decodeNumeric_loop_bound hl
    simp only [List.length_drop] at hb
    simp only [hl, Outcome.ret.injEq] at h
    obtain ⟨-, -, rfl⟩ := h
    simp only
    omega

theorem getElem?_append_cases (data t : List Nat) (i : Nat) :
    data[i]? = none ∨ ∃ c, data[i]? = some c ∧ (data ++ t)[i]? = some c := by
  cases h : data[i]? with
  | none => exact Or.inl rfl
  | some c => exact Or.inr ⟨c, rfl, getElem?_append_some t h⟩

theorem decodeTrue_append {σ : Type} {S : ObjectStore σ} {data : List Nat} {j j' : Decoder σ}
    {v : Value} {e : Option Err} (t : List Nat) (h : decodeTrue S data j = .ret v e j') :
    decodeTrue S (data ++ t) j = .ret v e j' := by
  unfold decodeTrue at h ⊢
  simp only at h ⊢
  rcases getElem?_append_cases data t (j.idx + 1) with h1 | ⟨c1, h1, h1'⟩
  · simp [h1] at h
  rw [h1'] ; rw [h1] at h
  simp only at h ⊢
  split_ifs at h ⊢
  · exact h
  rcases getElem?_append_cases data t (j.idx + 1 + 1) with h2 | ⟨c2, h2, h2'⟩
  · simp [h2] at h
  rw [h2'] ; rw [h2] at h
  simp only at h ⊢
  split_ifs at h ⊢
  · exact h
  rcases getElem?_append_cases data t (j.idx + 1 + 1 + 1) with h3 | ⟨c3, h3, h3'⟩
  · simp [h3] at h
  rw [h3'] ; rw [h3] at h
  simp only at h ⊢
  split_ifs at h ⊢
  · exact h
  · exact h

theorem decodeFalse_append {σ : Type} {S : ObjectStore σ} {data : List Nat} {j j' : Decoder σ}
    {v : Value} {e : Option Err} (t : List Nat) (h : decodeFalse S data j = .ret v e j') :
    decodeFalse S (data ++ t) j = .ret v e j' := by
  unfold decodeFalse at h ⊢
  simp only at h ⊢
  rcases getElem?_append_cases data t (j.idx + 1) with h1 | ⟨c1, h1, h1'⟩
  · simp [h1] at h
  rw [h1'] ; rw [h1] at h
  simp only at h ⊢
  split_ifs at h ⊢
  · exact h
  rcases getElem?_append_cases data t (j.idx + 1 + 1) with h2 | ⟨c2, h2, h2'⟩
  · simp [h2] at h
  rw [h2'] ; rw [h2] at h
  simp only at h ⊢
  split_ifs at h ⊢
  · exact h
  rcases getElem?_append_cases data t (j.idx + 1 + 1 + 1) with h3 | ⟨c3, h3, h3'⟩
  · simp [h3] at h
  rw [h3'] ; rw [h3] at h
  simp only at h ⊢
  split_ifs at h ⊢
  · exact h
  rcases getElem?_append_cases data t (j.idx + 1 + 1 + 1 + 1) with h4 | ⟨c4, h4, h4'⟩
  · simp [h4] at h
  rw [h4'] ; rw [h4] at h
  simp only at h ⊢
  split_ifs at h ⊢
  · exact h
  · exact h

theorem decodeNull_append {σ : Type} {S : ObjectStore σ} {data : List Nat} {j j' : Decoder σ}
    {v : Value} {e : Option Err} (t : List Nat) (h : decodeNull S data j = .ret v e j') :
    decodeNull S (data ++ t) j = .ret v e j' := by
  unfold decodeNull at h ⊢
  simp only at h ⊢
  rcases getElem?_append_cases data t (j.idx + 1) with h1 | ⟨c1, h1, h1'⟩
  · simp [h1] at h
  rw [h1'] ; rw [h1] at h
  simp only at h ⊢
  split_ifs at h ⊢
  · exact h
  rcases getElem?_append_cases data t (j.idx + 1 + 1) with h2 | ⟨c2, h2, h2'⟩
  · simp [h2] at h
  rw [h2'] ; rw [h2] at h
  simp only at h ⊢
  split_ifs at h ⊢
  · exact h
  rcases getElem?_append_cases data t (j.idx + 1 + 1 + 1) with h3 | ⟨c3, h3, h3'⟩
  · simp [h3] at h
  rw [h3'] ; rw [h3] at h
  simp only at h ⊢
  split_ifs at h ⊢
  · exact h
  · exact h

theorem decodeTrue_bound {σ : Type} {S : ObjectStore σ} {data : List Nat} {j j' : Decoder σ}
    {v : Value} {e : Option Err} (h : decodeTrue S data j = .ret v e j') :
    j.idx < j'.idx ∧ j'.idx ≤ data.length := by
  unfold decodeTrue at h
  simp only at h
  cases h1 : data[j.idx + 1]? with
  | none => simp [h1] at h
  | some c1 =>
  have b1 := getElem?_lt h1
  simp only [h1] at h
  split_ifs at h
  · simp only [Outcome.ret.injEq] at h; obtain ⟨-, -, rfl⟩ := h; simp only; omega
  cases h2 : data[j.idx + 1 + 1]? with
  | none => simp [h2] at h
  | some c2 =>
  have b2 := getElem?_lt h2
  simp only [h2] at h
  split_ifs at h
  · simp only [Outcome.ret.injEq] at h; obtain ⟨-, -, rfl⟩ := h; simp only; omega
  cases h3 : data[j.idx + 1 + 1 + 1]? with
  | none => simp [h3] at h
  | some c3 =>
  have b3 := getElem?_lt h3
  simp only [h3] at h
  split_ifs at h
  · simp only [Outcome.ret.injEq] at h; obtain ⟨-, -, rfl⟩ := h; simp only; omega
  · simp only [Outcome.ret.injEq] at h; obtain ⟨-, -, rfl⟩ := h; simp only; omega

theorem decodeFalse_bound {σ : Type} {S : ObjectStore σ} {data : List Nat} {j j' : Decoder σ}
    {v : Value} {e : Option Err} (h : decodeFalse S data j = .ret v e j') :
    j.idx < j'.idx ∧ j'.idx ≤ data.length := by
  unfold decodeFalse at h
  simp only at h
  cases h1 : data[j.idx + 1]? with
  | none => simp [h1] at h
  | some c1 =>
  have b1 := getElem?_lt h1
  simp only [h1] at h
  split_ifs at h
  · simp only [Outcome.ret.injEq] at h; obtain ⟨-, -, rfl⟩ := h; simp only; omega
  cases h2 : data[j.idx + 1 + 1]? with
  | none => simp [h2] at h
  | some c2 =>
  have b2 := getElem?_lt h2
  simp only [h2] at h
  split_ifs at h
  · simp only [Outcome.ret.injEq] at h; obtain ⟨-, -, rfl⟩ := h; simp only; omega
  cases h3 : data[j.idx + 1 + 1 + 1]? with
  | none => simp [h3] at h
  | some c3 =>
  have b3 := getElem?_lt h3
  simp only [h3] at h
  split_ifs at h
  · simp only [Outcome.ret.injEq] at h; obtain ⟨-, -, rfl⟩ := h; simp only; omega
  cases h4 : data[j.idx + 1 + 1 + 1 + 1]? with
  | none => simp [h4] at h
  | some c4 =>
  have b4 := getElem?_lt h4
  simp only [h4] at h
  split_ifs at h
  · simp only [Outcome.ret.injEq] at h; obtain ⟨-, -, rfl⟩ := h; simp only; omega
  · simp only [Outcome.ret.injEq] at h; obtain ⟨-, -, rfl⟩ := h; simp only; omega

theorem decodeNull_bound {σ : Type} {S : ObjectStore σ} {data : List Nat} {j j' : Decoder σ}
    {v : Value} {e : Option Err} (h : decodeNull S data j = .ret v e j') :
    j.idx < j'.idx ∧ j'.idx ≤ data.length := by
  unfold decodeNull at h
  simp only at h
  cases h1 : data[j.idx + 1]? with
  | none => simp [h1] at h
  | some c1 =>
  have b1 := getElem?_lt h1
  simp only [h1] at h
  split_ifs at h
  · simp only [Outcome.ret.injEq] at h; obtain ⟨-, -, rfl⟩ := h; simp only; omega
  cases h2 : data[j.idx + 1 + 1]? with
  | none => simp [h2] at h
  | some c2 =>
  have b2 := getElem?_lt h2
  simp only [h2] at h
  split_ifs at h
  · simp only [Outcome.ret.injEq] at h; obtain ⟨-, -, rfl⟩ := h; simp only; omega
  cases h3 : data[j.idx + 1 + 1 + 1]? with
  | none => simp [h3] at h
  | some c3 =>
  have b3 := getElem?_lt h3
  simp only [h3] at h
  split_ifs at h
  · simp only [Outcome.ret.injEq] at h; obtain ⟨-, -, rfl⟩ := h; simp only; omega
  · simp only [Outcome.ret.injEq] at h; obtain ⟨-, -, rfl⟩ := h; simp only; omega

theorem decodeObject_loop_ext {σ : Type} (S : ObjectStore σ) (data t : List Nat)
    (any any' : Decoder σ → Outcome σ) (p : Nat)
    (hany : ∀ j v e j', any j = .ret v e j' → any' j = .ret v e j') :
    ∀ (n n' : Nat), n ≤ n' → ∀ (j : Decoder σ) (v : Value) (e : Option Err) (j' : Decoder σ),
      decodeObject.loop S data any p n j = .ret v e j' →
      decodeObject.loop S (data ++ t) any' p n' j = .ret v e j' := by
  intro n
  induction n with
  | zero => intro n' _ j v e j' h; simp [decodeObject.loop] at h
  | succ n ih =>
    intro n' hn j v e j' h
    obtain ⟨m, rfl⟩ : ∃ m, n' = m + 1 := ⟨n' - 1, by omega⟩
    have hm : n ≤ m := by omega
    rw [decodeObject.loop] at h ⊢
    cases h1 : skipWhitespace data j with
    | none => simp [h1] at h
    | some j1 =>
    rw [skipWhitespace_append t h1]
    simp only [h1] at h ⊢
    rcases getElem?_append_cases data t j1.idx with h2 | ⟨c, h2, h2'⟩
    · simp [h2] at h
    rw [h2']; rw [h2] at h
    simp only at h ⊢
    split_ifs at h ⊢
    · exact h
    cases h3 : any { j1 with lastTypeId := JT_INVALID } with
    | panic => simp [h3] at h
    | outOfFuel => simp [h3] at h
    | ret v1 e1 j2 =>
    rw [hany _ _ _ _ h3]
    simp only [h3] at h ⊢
    cases e1 with
    | some err => exact h
    | none =>
    simp only at h ⊢
    split_ifs at h ⊢
    · exact h
    cases h4 : skipWhitespace data j2 with
    | none => simp [h4] at h
    | some j3 =>
    rw [skipWhitespace_append t h4]
    simp only [h4] at h ⊢
    rcases getElem?_append_cases data t j3.idx with h5 | ⟨c5, h5, h5'⟩
    · simp [h5] at h
    rw [h5']; rw [h5] at h
    simp only at h ⊢
    split_ifs at h ⊢
    · exact h
    cases h6 : skipWhitespace data { j3 with idx := j3.idx + 1 } with
    | none => simp [h6] at h
    | some j4 =>
    rw [skipWhitespace_append t h6]
    simp only [h6] at h ⊢
    cases h7 : any j4 with
    | panic => simp [h7] at h
    | outOfFuel => simp [h7] at h
    | ret v2 e2 j5 =>
    rw [hany _ _ _ _ h7]
    simp only [h7] at h ⊢
    cases e2 with
    | some err => exact h
    | none =>
    simp only at h ⊢
    rcases h8 : objectAddKey S p v1 v2 j5 with ⟨_ | err, j6⟩
    · simp only [h8] at h ⊢
      cases h9 : skipWhitespace data j6 with
      | none => simp [h9] at h
      | some j7 =>
      rw [skipWhitespace_append t h9]
      simp only [h9] at h ⊢
      rcases getElem?_append_cases data t j7.idx with h10 | ⟨c10, h10, h10'⟩
      · simp [h10] at h
      rw [h10']; rw [h10] at h
      simp only at h ⊢
      split_ifs at h ⊢
      · exact h
      · exact ih m hm _ _ _ _ h
      · exact h
    · simp only [h8] at h ⊢
      exact h

theorem decodeArray_loop_ext {σ : Type} (S : ObjectStore σ) (data t : List Nat)
    (any any' : Decoder σ → Outcome σ) (a : Value)
    (hany : ∀ j v e j', any j = .ret v e j' → any' j = .ret v e j') :
    ∀ (n n' : Nat), n ≤ n' → ∀ (len : Nat) (j : Decoder σ) (v : Value) (e : Option Err)
      (j' : Decoder σ),
      decodeArray.loop S data any a n len j = .ret v e j' →
      decodeArray.loop S (data ++ t) any' a n' len j = .ret v e j' := by
  intro n
  induction n with
  | zero => intro n' _ len j v e j' h; simp [decodeArray.loop] at h
  | succ n ih =>
    intro n' hn len j v e j' h
    obtain ⟨m, rfl⟩ : ∃ m, n' = m + 1 := ⟨n' - 1, by omega⟩
    have hm : n ≤ m := by omega
    rw [decodeArray.loop] at h ⊢
    cases h1 : skipWhitespace data j with
    | none => simp [h1] at h
    | some j1 =>
    rw [skipWhitespace_append t h1]
    simp only [h1] at h ⊢
    rcases getElem?_append_cases data t j1.idx with h2 | ⟨c, h2, h2'⟩
    · simp [h2] at h
    rw [h2']; rw [h2] at h
    simp only at h ⊢
    split_ifs at h ⊢
    · exact h
    · exact h
    cases h3 : any j1 with
    | panic => simp [h3] at h
    | outOfFuel => simp [h3] at h
    | ret v1 e1 j2 =>
    rw [hany _ _ _ _ h3]
    simp only [h3] at h ⊢
    cases e1 with
    | some err => exact h
    | none =>
    simp only at h ⊢
    cases h4 : (S.ArrayAddItem j2.store a v1).1 with
    | some err =>
      simp only [h4] at h ⊢
      exact h
    | none =>
    simp only [h4] at h ⊢
    cases h5 : skipWhitespace data { j2 with store := (S.ArrayAddItem j2.store a v1).2 } with
    | none => simp [h5] at h
    | some j3 =>
    rw [skipWhitespace_append t h5]
    simp only [h5] at h ⊢
    rcases getElem?_append_cases data t j3.idx with h6 | ⟨c6, h6, h6'⟩
    · simp [h6] at h
    rw [h6']; rw [h6] at h
    simp only at h ⊢
    split_ifs at h ⊢
    · exact h
    · exact ih m hm _ _ _ _ _ h
    · exact h

theorem decodeAny_ext {σ : Type} (S : ObjectStore σ) (data t : List Nat) :
    ∀ (n n' : Nat), n ≤ n' → ∀ (j : Decoder σ) (v : Value) (e : Option Err) (j' : Decoder σ),
      decodeAny S data n j = .ret v e j' → decodeAny S (data ++ t) n' j = .ret v e j' := by
  intro n
  induction n with
  | zero => intro n' _ j v e j' h; simp [decodeAny] at h
  | succ n ih =>
    intro n' hn j v e j' h
    obtain ⟨m, rfl⟩ : ∃ m, n' = m + 1 := ⟨n' - 1, by omega⟩
    have hm : n ≤ m := by omega
    rw [decodeAny] at h ⊢
    rcases getElem?_append_cases data t j.idx with h2 | ⟨c, h2, h2'⟩
    · simp [h2] at h
    rw [h2']; rw [h2] at h
    simp only at h ⊢
    split_ifs at h ⊢
    · exact decodeString_append t h
    · exact decodeNumeric_append t h
    · unfold decodeArray at h ⊢
      simp only at h ⊢
      cases h3 : (S.NewArray j.store).2.1 with
      | some err => simp only [h3] at h ⊢; exact h
      | none =>
        simp only [h3] at h ⊢
        exact decodeArray_loop_ext S data t _ _ _ (ih m hm) n m hm _ _ _ _ _ h
    · unfold decodeObject at h ⊢
      exact decodeObject_loop_ext S data t _ _ _ (ih m hm) n m hm _ _ _ _ h
    · exact decodeTrue_append t h
    · exact decodeFalse_append t h
    · exact decodeNull_append t h
    · exact ih m hm _ _ _ _ h
    · exact h

theorem Decode_ext {σ : Type} (S : ObjectStore σ) (data t : List Nat) (j : Decoder σ)
    (v : Value) (e : Option Err) (j' : Decoder σ) (h : Decode S data j = .ret v e j') :
    Decode S (data ++ t) j = .ret v e j' := by
  unfold Decode at h ⊢
  exact decodeAny_ext S data t _ _ (by simp) _ _ _ _ h

theorem objectAddKey_idx {σ : Type} (S : ObjectStore σ) (p : Nat) (k v : Value)
    (j : Decoder σ) : (objectAddKey S p k v j).2.idx = j.idx := rfl

theorem decodeObject_loop_bound {σ : Type} (S : ObjectStore σ) (data : List Nat)
    (any : Decoder σ → Outcome σ) (p : Nat)
    (hany : ∀ j v e j', any j = .ret v e j' → j.idx ≤ j'.idx ∧ j'.idx ≤ data.length) :
    ∀ (n : Nat) (j : Decoder σ) (v : Value) (e : Option Err) (j' : Decoder σ),
      decodeObject.loop S data any p n j = .ret v e j' →
      j.idx ≤ j'.idx ∧ j'.idx ≤ data.length := by
  intro n
  induction n with
  | zero => intro j v e j' h; simp [decodeObject.loop] at h
  | succ n ih =>
    intro j v e j' h
    rw [decodeObject.loop] at h
    cases h1 : skipWhitespace data j with
    | none => simp [h1] at h
    | some j1 =>
    have b1 := (skipWhitespace_bound h1).2
    simp only [h1] at h
    cases h2 : data[j1.idx]? with
    | none => simp [h2] at h
    | some c =>
    simp only [h2] at h
    split_ifs at h
    · simp only [Outcome.ret.injEq] at h; obtain ⟨-, -, rfl⟩ := h; simp only; omega
    cases h3 : any { j1 with lastTypeId := JT_INVALID } with
    | panic => simp [h3] at h
    | outOfFuel => simp [h3] at h
    | ret v1 e1 j2 =>
    have b3 := hany _ _ _ _ h3
    simp only at b3
    simp only [h3] at h
    cases e1 with
    | some err =>
      simp only [Outcome.ret.injEq] at h; obtain ⟨-, -, rfl⟩ := h; omega
    | none =>
    simp only at h
    split_ifs at h
    · simp only [Outcome.ret.injEq] at h; obtain ⟨-, -, rfl⟩ := h; omega
    cases h4 : skipWhitespace data j2 with
    | none => simp [h4] at h
    | some j3 =>
    have b4 := (skipWhitespace_bound h4).2
    simp only [h4] at h
    cases h5 : data[j3.idx]? with
    | none => simp [h5] at h
    | some c5 =>
    simp only [h5] at h
    split_ifs at h
    · simp only [Outcome.ret.injEq] at h; obtain ⟨-, -, rfl⟩ := h; simp only; omega
    cases h6 : skipWhitespace data { j3 with idx := j3.idx + 1 } with
    | none => simp [h6] at h
    | some j4 =>
    have b6 := (skipWhitespace_bound h6).2
    simp only at b6
    simp only [h6] at h
    cases h7 : any j4 with
    | panic => simp [h7] at h
    | outOfFuel => simp [h7] at h
    | ret v2 e2 j5 =>
    have b7 := hany _ _ _ _ h7
    simp only [h7] at h
    cases e2 with
    | some err =>
      simp only [Outcome.ret.injEq] at h; obtain ⟨-, -, rfl⟩ := h; omega
    | none =>
    simp only at h
    have b8 := objectAddKey_idx S p v1 v2 j5
    rcases h8 : objectAddKey S p v1 v2 j5 with ⟨_ | err, j6⟩
    · rw [h8] at b8
      simp only at b8
      simp only [h8] at h
      cases h9 : skipWhitespace data j6 with
      | none => simp [h9] at h
      | some j7 =>
      have b9 := (skipWhitespace_bound h9).2
      simp only [h9] at h
      cases h10 : data[j7.idx]? with
      | none => simp [h10] at h
      | some c10 =>
      simp only [h10] at h
      split_ifs at h
      · simp only [Outcome.ret.injEq] at h; obtain ⟨-, -, rfl⟩ := h; simp only; omega
      · have := ih _ _ _ _ h
        simp only at this
        omega
      · simp only [Outcome.ret.injEq] at h; obtain ⟨-, -, rfl⟩ := h; simp only; omega
    · rw [h8] at b8
      simp only at b8
      simp only [h8, Outcome.ret.injEq] at h
      obtain ⟨-, -, rfl⟩ := h
      omega

theorem decodeArray_loop_bound {σ : Type} (S : ObjectStore σ) (data : List Nat)
    (any : Decoder σ → Outcome σ) (a : Value)
    (hany : ∀ j v e j', any j = .ret v e j' → j.idx ≤ j'.idx ∧ j'.idx ≤ data.length) :
    ∀ (n len : Nat) (j : Decoder σ) (v : Value) (e : Option Err) (j' : Decoder σ),
      decodeArray.loop S data any a n len j = .ret v e j' →
      j.idx ≤ j'.idx ∧ j'.idx ≤ data.length := by
  intro n
  induction n with
  | zero => intro len j v e j' h; simp [decodeArray.loop] at h
  | succ n ih =>
    intro len j v e j' h
    rw [decodeArray.loop] at h
    cases h1 : skipWhitespace data j with
    | none => simp [h1] at h
    | some j1 =>
    have b1 := (skipWhitespace_bound h1).2
    simp only [h1] at h
    cases h2 : data[j1.idx]? with
    | none => simp [h2] at h
    | some c =>
    simp only [h2] at h
    split_ifs at h
    · simp only [Outcome.ret.injEq] at h; obtain ⟨-, -, rfl⟩ := h; simp only; omega
    · simp only [Outcome.ret.injEq] at h; obtain ⟨-, -, rfl⟩ := h; omega
    cases h3 : any j1 with
    | panic => simp [h3] at h
    | outOfFuel => simp [h3] at h
    | ret v1 e1 j2 =>
    have b3 := hany _ _ _ _ h3
    simp only [h3] at h
    cases e1 with
    | some err =>
      simp only [Outcome.ret.injEq] at h; obtain ⟨-, -, rfl⟩ := h; omega
    | none =>
    simp only at h
    cases h4 : (S.ArrayAddItem j2.store a v1).1 with
    | some err =>
      simp only [h4, Outcome.ret.injEq] at h; obtain ⟨-, -, rfl⟩ := h; simp only; omega
    | none =>
    simp only [h4] at h
    cases h5 : skipWhitespace data { j2 with store := (S.ArrayAddItem j2.store a v1).2 } with
    | none => simp [h5] at h
    | some j3 =>
    have b5 := (skipWhitespace_bound h5).2
    simp only at b5
    simp only [h5] at h
    cases h6 : data[j3.idx]? with
    | none => simp [h6] at h
    | some c6 =>
    simp only [h6] at h
    split_ifs at h
    · simp only [Outcome.ret.injEq] at h; obtain ⟨-, -, rfl⟩ := h; simp only; omega
    · have := ih _ _ _ _ _ h
      simp only at this
      omega
    · simp only [Outcome.ret.injEq] at h; obtain ⟨-, -, rfl⟩ := h; simp only; omega

theorem decodeAny_bound {σ : Type} (S : ObjectStore σ) (data : List Nat) :
    ∀ (n : Nat) (j : Decoder σ) (v : Value) (e : Option Err) (j' : Decoder σ),
      decodeAny S data n j = .ret v e j' → j.idx ≤ j'.idx ∧ j'.idx ≤ data.length := by
  intro n
  induction n with
  | zero => intro j v e j' h; simp [decodeAny] at h
  | succ n ih =>
    intro j v e j' h
    rw [decodeAny] at h
    cases h2 : data[j.idx]? with
    | none => simp [h2] at h
    | some c =>
    have b2 := getElem?_lt h2
    simp only [h2] at h
    split_ifs at h
    · have := decodeString_bound h; omega
    · have := decodeNumeric_bound h; omega
    · unfold decodeArray at h
      simp only at h
      cases h3 : (S.NewArray j.store).2.1 with
      | some err =>
        simp only [h3, Outcome.ret.injEq] at h; obtain ⟨-, -, rfl⟩ := h; simp only; omega
      | none =>
        simp only [h3] at h
        have := decodeArray_loop_bound S data _ _ (ih) n _ _ _ _ _ h
        simp only at this
        omega
    · unfold decodeObject at h
      have := decodeObject_loop_bound S data _ _ (ih) n _ _ _ _ h
      simp only at this
      omega
    · have := decodeTrue_bound h; omega
    · have := decodeFalse_bound h; omega
    · have := decodeNull_bound h; omega
    · have := ih _ _ _ _ h
      simp only at this
      omega
    · simp only [Outcome.ret.injEq] at h; obtain ⟨-, -, rfl⟩ := h; omega

theorem decodeString_fuel {σ : Type} (S : ObjectStore σ) (data : List Nat) (j : Decoder σ) :
    decodeString S data j ≠ .outOfFuel := by
  unfold decodeString
  simp only
  split <;> simp

theorem decodeNumeric_fuel {σ : Type} (S : ObjectStore σ) (data : List Nat) (j : Decoder σ) :
    decodeNumeric S data j ≠ .outOfFuel := by
  unfold decodeNumeric
  simp only
  split <;> simp

theorem decodeTrue_fuel {σ : Type} (S : ObjectStore σ) (data : List Nat) (j : Decoder σ) :
    decodeTrue S data j ≠ .outOfFuel := by
  unfold decodeTrue
  simp only
  repeat' split
  all_goals simp

theorem decodeFalse_fuel {σ : Type} (S : ObjectStore σ) (data : List Nat) (j : Decoder σ) :
    decodeFalse S data j ≠ .outOfFuel := by
  unfold decodeFalse
  simp only
  repeat' split
  all_goals simp

theorem decodeNull_fuel {σ : Type} (S : ObjectStore σ) (data : List Nat) (j : Decoder σ) :
    decodeNull S data j ≠ .outOfFuel := by
  unfold decodeNull
  simp only
  repeat' split
  all_goals simp

theorem decodeObject_loop_fuel {σ : Type} (S : ObjectStore σ) (data : List Nat)
    (any : Decoder σ → Outcome σ) (p f : Nat)
    (hany : ∀ j v e j', any j = .ret v e j' → j.idx ≤ j'.idx ∧ j'.idx ≤ data.length)
    (htot : ∀ j, j.idx ≤ data.length → data.length < j.idx + f → any j ≠ .outOfFuel) :
    ∀ (n : Nat) (j : Decoder σ), j.idx ≤ data.length → data.length < j.idx + n →
      data.length < j.idx + f →
      decodeObject.loop S data any p n j ≠ .outOfFuel := by
  intro n
  induction n with
  | zero =>
    intro j hle hn hf h
    omega
  | succ n ih =>
    intro j hle hn hf h
    rw [decodeObject.loop] at h
    cases h1 : skipWhitespace data j with
    | none => simp [h1] at h
    | some j1 =>
    have b1 := (skipWhitespace_bound h1).2
    simp only [h1] at h
    cases h2 : data[j1.idx]? with
    | none => simp [h2] at h
    | some c =>
    simp only [h2] at h
    split_ifs at h
    cases h3 : any { j1 with lastTypeId := JT_INVALID } with
    | panic => simp [h3] at h
    | outOfFuel => exact htot _ (by simp only; omega) (by simp only; omega) h3
    | ret v1 e1 j2 =>
    have b3 := hany _ _ _ _ h3
    simp only at b3
    simp only [h3] at h
    cases e1 with
    | some err => simp at h
    | none =>
    simp only at h
    split_ifs at h
    cases h4 : skipWhitespace data j2 with
    | none => simp [h4] at h
    | some j3 =>
    have b4 := (skipWhitespace_bound h4).2
    simp only [h4] at h
    cases h5 : data[j3.idx]? with
    | none => simp [h5] at h
    | some c5 =>
    simp only [h5] at h
    split_ifs at h
    cases h6 : skipWhitespace data { j3 with idx := j3.idx + 1 } with
    | none => simp [h6] at h
    | some j4 =>
    have b6 := (skipWhitespace_bound h6).2
    simp only at b6
    simp only [h6] at h
    cases h7 : any j4 with
    | panic => simp [h7] at h
    | outOfFuel => exact htot _ (by omega) (by omega) h7
    | ret v2 e2 j5 =>
    have b7 := hany _ _ _ _ h7
    simp only [h7] at h
    cases e2 with
    | some err => simp at h
    | none =>
    simp only at h
    have b8 := objectAddKey_idx S p v1 v2 j5
    rcases h8 : objectAddKey S p v1 v2 j5 with ⟨_ | err, j6⟩
    · rw [h8] at b8
      simp only at b8
      simp only [h8] at h
      cases h9 : skipWhitespace data j6 with
      | none => simp [h9] at h
      | some j7 =>
      have b9 := (skipWhitespace_bound h9).2
      simp only [h9] at h
      cases h10 : data[j7.idx]? with
      | none => simp [h10] at h
      | some c10 =>
      simp only [h10] at h
      split_ifs at h
      exact ih _ (by simp only; omega) (by simp only; omega) (by simp only; omega) h
    · simp [h8] at h

theorem decodeArray_loop_fuel {σ : Type} (S : ObjectStore σ) (data : List Nat)
    (any : Decoder σ → Outcome σ) (a : Value) (f : Nat)
    (hany : ∀ j v e j', any j = .ret v e j' → j.idx ≤ j'.idx ∧ j'.idx ≤ data.length)
    (htot : ∀ j, j.idx ≤ data.length → data.length < j.idx + f → any j ≠ .outOfFuel) :
    ∀ (n len : Nat) (j : Decoder σ), j.idx ≤ data.length → data.length < j.idx + n →
      data.length < j.idx + f →
      decodeArray.loop S data any a n len j ≠ .outOfFuel := by
  intro n
  induction n with
  | zero =>
    intro len j hle hn hf h
    omega
  | succ n ih =>
    intro len j hle hn hf h
    rw [decodeArray.loop] at h
    cases h1 : skipWhitespace data j with
    | none => simp [h1] at h
    | some j1 =>
    have b1 := (skipWhitespace_bound h1).2
    simp only [h1] at h
    cases h2 : data[j1.idx]? with
    | none => simp [h2] at h
    | some c =>
    simp only [h2] at h
    split_ifs at h
    cases h3 : any j1 with
    | panic => simp [h3] at h
    | outOfFuel => exact htot _ (by omega) (by omega) h3
    | ret v1 e1 j2 =>
    have b3 := hany _ _ _ _ h3
    simp only [h3] at h
    cases e1 with
    | some err => simp at h
    | none =>
    simp only at h
    cases h4 : (S.ArrayAddItem j2.store a v1).1 with
    | some err => simp [h4] at h
    | none =>
    simp only [h4] at h
    cases h5 : skipWhitespace data { j2 with store := (S.ArrayAddItem j2.store a v1).2 } with
    | none => simp [h5] at h
    | some j3 =>
    have b5 := (skipWhitespace_bound h5).2
    simp only at b5
    simp only [h5] at h
    cases h6 : data[j3.idx]? with
    | none => simp [h6] at h
    | some c6 =>
    simp only [h6] at h
    split_ifs at h
    exact ih _ _ (by simp only; omega) (by simp only; omega) (by simp only; omega) h

theorem decodeAny_fuel {σ : Type} (S : ObjectStore σ) (data : List Nat) :
    ∀ (n : Nat) (j : Decoder σ), j.idx ≤ data.length → data.length < j.idx + n →
      decodeAny S data n j ≠ .outOfFuel := by
  intro n
  induction n with
  | zero =>
    intro j hle hn h
    omega
  | succ n ih =>
    intro j hle hn h
    rw [decodeAny] at h
    cases h2 : data[j.idx]? with
    | none => simp [h2] at h
    | some c =>
    have b2 := getElem?_lt h2
    simp only [h2] at h
    split_ifs at h
    · exact decodeString_fuel S data j h
    · exact decodeNumeric_fuel S data j h
    · unfold decodeArray at h
      simp only at h
      cases h3 : (S.NewArray j.store).2.1 with
      | some err => simp [h3] at h
      | none =>
        simp only [h3] at h
        exact decodeArray_loop_fuel S data _ _ n (decodeAny_bound S data n) ih n _ _
          (by simp only; omega) (by simp only; omega) (by simp only; omega) h
    · unfold decodeObject at h
      exact decodeObject_loop_fuel S data _ _ n (decodeAny_bound S data n) ih n _
        (by simp only; omega) (by simp only; omega) (by simp only; omega) h
    · exact decodeTrue_fuel S data j h
    · exact decodeFalse_fuel S data j h
    · exact decodeNull_fuel S data j h
    · exact ih _ (by simp only; omega) (by simp only; omega) h

theorem Decode_fuel {σ : Type} (S : ObjectStore σ) (data : List Nat) (j : Decoder σ) :
    Decode S data j ≠ .outOfFuel := by
  unfold Decode
  exact decodeAny_fuel S data _ _ (by simp) (by simp)

/-! ## Literal text at the cursor -/

theorem skipWhitespace_loop_eq (ws : List Nat) (hws : ∀ c ∈ ws, isWhitespace c = true)
    (c : Nat) (hc : isWhitespace c = false) (rest : List Nat) (i : Nat) :
    skipWhitespace.loop (ws ++ c :: rest) i = some (i + ws.length) := by
  induction ws generalizing i with
  | nil => simp [skipWhitespace.loop, hc]
  | cons w ws ih =>
    have hw := hws w (by simp)
    rw [List.cons_append, skipWhitespace.loop, if_pos hw, ih (fun c hc => hws c (by simp [hc]))]
    simp only [List.length_cons]
    congr 1
    omega

theorem skipWhitespace_eq {σ : Type} (data : List Nat) (j : Decoder σ) (ws : List Nat)
    (hws : ∀ c ∈ ws, isWhitespace c = true) (c : Nat) (hc : isWhitespace c = false)
    (rest : List Nat) (h : data.drop j.idx = ws ++ c :: rest) :
    skipWhitespace data j = some { j with idx := j.idx + ws.length } := by
  unfold skipWhitespace
  rw [h, skipWhitespace_loop_eq ws hws c hc rest]

theorem drop_add_of_drop_eq {l : List Nat} {i : Nat} {a b : List Nat}
    (h : l.drop i = a ++ b) : l.drop (i + a.length) = b := by
  have : l.drop (i + a.length) = (l.drop i).drop a.length := by
    rw [List.drop_drop, Nat.add_comm]
  rw [this, h, List.drop_left]

theorem getElem?_of_drop_eq {l : List Nat} {i : Nat} {a : List Nat} {c : Nat} {b : List Nat}
    (h : l.drop i = a ++ c :: b) : l[i + a.length]? = some c :=
  (drop_cons_getElem? (drop_add_of_drop_eq h)).1

theorem slice_of_drop_eq {l : List Nat} {i : Nat} {a b : List Nat}
    (h : l.drop i = a ++ b) : slice l i (i + a.length) = a := by
  unfold slice
  have h1 : (l.take (i + a.length)).drop i = (l.drop i).take a.length := by
    rw [List.drop_take]
    simp
  rw [h1, h, List.take_left]

theorem decodeString_loop_plain {c : Nat} (cs : List Nat) (i esc : Nat) (h1 : 32 ≤ c)
    (h2 : c ≠ 34) (h3 : c ≠ 92) :
    decodeString.loop (c :: cs) i SS_NORMAL esc = decodeString.loop cs (i + 1) SS_NORMAL esc := by
  rw [decodeString.loop]
  simp [h1, h2, h3]

theorem decodeString_loop_quote (cs : List Nat) (i esc : Nat) :
    decodeString.loop (34 :: cs) i SS_NORMAL esc = .closed (i + 1) := by
  rw [decodeString.loop]
  simp

theorem decodeString_loop_control {c : Nat} (cs : List Nat) (i esc : Nat) (h : c < 32) :
    decodeString.loop (c :: cs) i SS_NORMAL esc
      = .failed (.unexpectedCharacterInString c) (i + 1) := by
  rw [decodeString.loop]
  have h2 : c ≠ 34 := by omega
  have h3 : c ≠ 92 := by omega
  have h4 : ¬ c ≥ 32 := by omega
  simp [h2, h3, h4]

theorem decodeString_loop_backslash (cs : List Nat) (i esc : Nat) :
    decodeString.loop (92 :: cs) i SS_NORMAL esc = decodeString.loop cs (i + 1) SS_ESC esc := by
  rw [decodeString.loop]
  simp

theorem decodeString_loop_escape {c : Nat} (cs : List Nat) (i : Nat)
    (h : isSimpleEscape c = true) :
    decodeString.loop (c :: cs) i SS_ESC 0 = decodeString.loop cs (i + 1) SS_NORMAL 0 := by
  rw [decodeString.loop]
  simp [h, SS_ESC, SS_NORMAL]

theorem decodeString_loop_u (cs : List Nat) (i : Nat) :
    decodeString.loop (117 :: cs) i SS_ESC 0 = decodeString.loop cs (i + 1) SS_ESC 1 := by
  rw [decodeString.loop]
  simp [SS_ESC, SS_NORMAL, isSimpleEscape]

theorem decodeString_loop_badEscape {c : Nat} (cs : List Nat) (i : Nat)
    (h : isSimpleEscape c = false) (hu : c ≠ 117) :
    decodeString.loop (c :: cs) i SS_ESC 0
      = .failed (.unexpectedCharacterInString c) (i + 1) := by
  rw [decodeString.loop]
  simp [h, hu, SS_ESC, SS_NORMAL]

theorem decodeString_loop_hex {c : Nat} (cs : List Nat) (i esc : Nat)
    (h : isHexDigit c = true) (h0 : 0 < esc) (h4 : esc < 4) :
    decodeString.loop (c :: cs) i SS_ESC esc = decodeString.loop cs (i + 1) SS_ESC (esc + 1) := by
  rw [decodeString.loop]
  have : ¬ (4 < esc + 1) := by omega
  simp [h, h0, this, SS_ESC, SS_NORMAL]

theorem decodeString_loop_hexLast {c : Nat} (cs : List Nat) (i : Nat)
    (h : isHexDigit c = true) :
    decodeString.loop (c :: cs) i SS_ESC 4 = decodeString.loop cs (i + 1) SS_NORMAL 0 := by
  rw [decodeString.loop]
  simp [h, SS_ESC, SS_NORMAL]

theorem decodeString_loop_badHex {c : Nat} (cs : List Nat) (i esc : Nat)
    (h : isHexDigit c = false) (h0 : 0 < esc) :
    decodeString.loop (c :: cs) i SS_ESC esc
      = .failed (.unexpectedCharacterInHexEscape c) (i + 1) := by
  rw [decodeString.loop]
  simp [h, h0, SS_ESC, SS_NORMAL]

theorem StrBody.loop_eq {body : List Nat} (hb : StrBody body) (rest : List Nat) (i : Nat) :
    decodeString.loop (body ++ rest) i SS_NORMAL 0
      = decodeString.loop rest (i + body.length) SS_NORMAL 0 := by
  induction hb generalizing i with
  | nil => simp
  | plain c tl h1 h2 h3 _ ih =>
    rw [List.cons_append, decodeString_loop_plain _ _ _ h1 h2 h3, ih]
    simp only [List.length_cons]
    congr 1
    omega
  | escape c tl h1 _ ih =>
    rw [List.cons_append, List.cons_append, decodeString_loop_backslash,
      decodeString_loop_escape _ _ h1, ih]
    simp only [List.length_cons]
    congr 1
    omega
  | unicode a b c d tl ha hb hc hd _ ih =>
    simp only [List.cons_append]
    rw [decodeString_loop_backslash, decodeString_loop_u,
      decodeString_loop_hex _ _ _ ha (by omega) (by omega),
      decodeString_loop_hex _ _ _ hb (by omega) (by omega),
      decodeString_loop_hex _ _ _ hc (by omega) (by omega),
      decodeString_loop_hexLast _ _ hd, ih]
    simp only [List.length_cons]
    congr 1
    omega

theorem decodeString_literal {σ : Type} (S : ObjectStore σ) (data : List Nat) (j : Decoder σ)
    (body rest : List Nat) (hb : StrBody body)
    (h : data.drop j.idx = 34 :: (body ++ 34 :: rest)) :
    decodeString S data j
      = .ret (.string (S.NewString j.store body).1) (storeErr (S.NewString j.store body).2.1)
          { j with lastTypeId := JT_UTF8, idx := j.idx + body.length + 2,
                   store := (S.NewString j.store body).2.2 } := by
  have h1 := (drop_cons_getElem? h).2
  unfold decodeString
  simp only
  rw [h1, hb.loop_eq, decodeString_loop_quote]
  simp only
  have h2 : j.idx + 1 + body.length + 1 - 1 = j.idx + 1 + body.length := by omega
  have h3 : j.idx + 1 + body.length + 1 = j.idx + body.length + 2 := by omega
  rw [h2, slice_of_drop_eq h1, h3]

theorem decodeString_badEscape {σ : Type} (S : ObjectStore σ) (data : List Nat)
    (j : Decoder σ) (pre rest : List Nat) (hb : StrBody pre) (c : Nat)
    (hc : isSimpleEscape c = false) (hu : c ≠ 117)
    (h : data.drop j.idx = 34 :: (pre ++ 92 :: c :: rest)) :
    decodeString S data j
      = .ret (.string []) (some (.unexpectedCharacterInString c))
          { j with lastTypeId := JT_INVALID, idx := j.idx + pre.length + 3 } := by
  have h1 := (drop_cons_getElem? h).2
  unfold decodeString
  simp only
  rw [h1, hb.loop_eq, decodeString_loop_backslash, decodeString_loop_badEscape _ _ hc hu]
  simp only
  have h3 : j.idx + 1 + pre.length + 1 + 1 = j.idx + pre.length + 3 := by omega
  rw [h3]

theorem decodeString_control {σ : Type} (S : ObjectStore σ) (data : List Nat)
    (j : Decoder σ) (pre rest : List Nat) (hb : StrBody pre) (c : Nat) (hc : c < 32)
    (h : data.drop j.idx = 34 :: (pre ++ c :: rest)) :
    decodeString S data j
      = .ret (.string []) (some (.unexpectedCharacterInString c))
          { j with lastTypeId := JT_INVALID, idx := j.idx + pre.length + 2 } := by
  have h1 := (drop_cons_getElem? h).2
  unfold decodeString
  simp only
  rw [h1, hb.loop_eq, decodeString_loop_control _ _ _ hc]
  simp only
  have h3 : j.idx + 1 + pre.length + 1 = j.idx + pre.length + 2 := by omega
  rw [h3]

theorem decodeAny_quote {σ : Type} (S : ObjectStore σ) (data : List Nat) (fuel : Nat)
    (j : Decoder σ) (h : data[j.idx]? = some 34) :
    decodeAny S data (fuel + 1) j = decodeString S data j := by
  rw [decodeAny, h]
  simp

theorem decodeAny_brace {σ : Type} (S : ObjectStore σ) (data : List Nat) (fuel : Nat)
    (j : Decoder σ) (h : data[j.idx]? = some 123) :
    decodeAny S data (fuel + 1) j
      = decodeObject S data (decodeAny S data fuel) fuel j.pool.Checkout.1
          { j with pool := j.pool.Checkout.2, checked := j.checked ++ [j.pool.Checkout.1] } := by
  rw [decodeAny, h]
  simp

theorem Decode_skip {σ : Type} (S : ObjectStore σ) (ws text : List Nat)
    (hws : ∀ c ∈ ws, isWhitespace c = true) (j : Decoder σ) :
    Decode S (ws ++ text) j
      = decodeAny S (ws ++ text) (text.length + 1)
          { j with idx := ws.length, lastTypeId := JT_INVALID } := by
  unfold Decode
  have h1 : (ws ++ text).length + 1 = (text.length + 1) + ws.length := by
    simp only [List.length_append]
    omega
  rw [h1, decodeAny_skip S (ws ++ text) ws text hws]
  · simp
  · simp

theorem decodeObject_loop_missingColon {σ : Type} (S : ObjectStore σ) (data : List Nat)
    (fuel n p : Nat) (j : Decoder σ) (ws1 body ws2 rest : List Nat) (c : Nat)
    (h1 : ∀ w ∈ ws1, isWhitespace w = true) (hb : StrBody body)
    (h2 : ∀ w ∈ ws2, isWhitespace w = true) (hc : c ≠ 58) (hcw : isWhitespace c = false)
    (hstore : (S.NewString j.store body).2.1 = none)
    (h : data.drop j.idx = ws1 ++ 34 :: (body ++ 34 :: (ws2 ++ c :: rest))) :
    decodeObject.loop S data (decodeAny S data (fuel + 1)) p (n + 1) j
      = .ret .nil (some .missingColon)
          { j with store := (S.NewString j.store body).2.2,
                   idx := j.idx + ws1.length + body.length + ws2.length + 3,
                   lastTypeId := JT_UTF8 } := by
  have hq : isWhitespace 34 = false := by decide
  have hd1 := drop_add_of_drop_eq h
  have hd2 : data.drop (j.idx + ws1.length + body.length + 2) = ws2 ++ c :: rest := by
    have e : 34 :: (body ++ 34 :: (ws2 ++ c :: rest))
        = (34 :: (body ++ [34])) ++ (ws2 ++ c :: rest) := by simp
    rw [e] at hd1
    have := drop_add_of_drop_eq hd1
    simp only [List.length_cons, List.length_append, List.length_nil] at this
    rw [← this]
    congr 1
  have hd3 := getElem?_of_drop_eq hd2
  rw [decodeObject.loop, skipWhitespace_eq data j ws1 h1 34 hq _ h]
  simp only
  rw [(drop_cons_getElem? hd1).1]
  simp only [Nat.reduceEqDiff, if_false]
  rw [decodeAny_quote S data fuel _ (by simpa using (drop_cons_getElem? hd1).1),
    decodeString_literal S data _ body _ hb (by simpa using hd1)]
  simp only [hstore, storeErr, Option.map_none']
  simp only [ne_eq, not_true_eq_false, if_false]
  rw [skipWhitespace_eq data _ ws2 h2 c hcw rest (by simpa using hd2)]
  simp only
  rw [hd3]
  simp only [ne_eq, hc, not_false_eq_true, if_true]
  congr 2
  omega

theorem decodeNumeric_loop_all (num : List Nat) (hnum : ∀ d ∈ num, isNumericChar d = true)
    (i : Nat) : decodeNumeric.loop num i = none := by
  induction num generalizing i with
  | nil => rfl
  | cons d ds ih =>
    rw [decodeNumeric.loop, if_pos (hnum d (by simp))]
    exact ih (fun x hx => hnum x (by simp [hx])) _

theorem decodeAny_digit {σ : Type} (S : ObjectStore σ) (data : List Nat) (fuel : Nat)
    (j : Decoder σ) (c : Nat) (hc : (48 ≤ c ∧ c ≤ 57) ∨ c = 45) (h : data[j.idx]? = some c) :
    decodeAny S data (fuel + 1) j = decodeNumeric S data j := by
  rw [decodeAny, h]
  have e1 : c ≠ 34 := by omega
  have e2 : ((48 ≤ c && c ≤ 57) || c = 45) = true := by
    simp only [Bool.or_eq_true, Bool.and_eq_true, decide_eq_true_eq]
    omega
  simp only [e1, e2, if_false, if_true]

theorem getElem?_append_length (ws : List Nat) (c : Nat) (rest : List Nat) :
    (ws ++ c :: rest)[ws.length]? = some c := by
  rw [List.getElem?_append_right (Nat.le_refl _)]
  simp

/-! ## The claims -/

/-- C1, the code at the failing input: a document that ends with a number
(whitespace, then a digit or a minus sign, then bytes of a number up to the end
of the buffer, such as `12`) makes `decodeNumeric` read `data[len(data)]`:
`Decode` panics and returns no result, with any store and any pool. -/
theorem Decode_number_at_end_panics {σ : Type} (S : ObjectStore σ) (j : Decoder σ)
    (ws num : List Nat) (c : Nat) (hws : ∀ w ∈ ws, isWhitespace w = true)
    (hc : (48 ≤ c ∧ c ≤ 57) ∨ c = 45) (hnum : ∀ d ∈ num, isNumericChar d = true) :
    Decode S (ws ++ c :: num) j = .panic := by
  rw [Decode_skip S ws _ hws, decodeAny_digit S _ _ _ c hc (getElem?_append_length ws c num)]
  unfold decodeNumeric
  simp only [List.drop_left]
  rw [decodeNumeric_loop_all (c :: num)]
  intro d hd
  rcases List.mem_cons.1 hd with rfl | hd
  · simp only [isNumericChar, Bool.or_eq_true, Bool.and_eq_true, decide_eq_true_eq]
    omega
  · exact hnum d hd

/-- C1, witness: the document `12`. -/
theorem Decode_number_at_end_panics_witness :
    (∀ w ∈ ([] : List Nat), isWhitespace w = true) ∧ ((48 ≤ 49 ∧ 49 ≤ 57) ∨ 49 = 45) ∧
      (∀ d ∈ [50], isNumericChar d = true) ∧
      Decode logStore ([] ++ 49 :: [50]) (NewDecoder [] (poolOf 1)) = .panic :=
  ⟨by decide, by decide, by decide,
    Decode_number_at_end_panics logStore (NewDecoder [] (poolOf 1)) [] [50] 49
      (by decide) (by decide) (by decide)⟩

/-- C2, counterexample: on the object `{"a":"b"` that lacks its closing brace,
on the unterminated string `"ab` and on the unterminated array `["a"` the read
of the byte after the last one is out of range; `Decode` panics, so it returns
no error at all. -/
theorem Decode_truncated_object_panics :
    Decode logStore [123, 34, 97, 34, 58, 34, 98, 34] (NewDecoder [] (poolOf 1)) = .panic ∧
      Decode logStore [34, 97, 98] (NewDecoder [] (poolOf 1)) = .panic ∧
      Decode logStore [91, 34, 97, 34] (NewDecoder [] (poolOf 1)) = .panic := by
  decide

/-- C2, amended: whenever `Decode` returns (a value or an error) its cursor is
within the buffer, and on every buffer cut before that cursor that does not end
in a number, where scanning needs a byte past the end, `Decode` panics with an
index out of range: it returns neither a value nor an error. (A buffer that
ends in a number is left out: there the number scanner is the one that reads
past the end, also when the number is a complete document.) -/
theorem Decode_truncated_panics {σ : Type} (S : ObjectStore σ) (data : List Nat)
    (j : Decoder σ) (v : Value) (e : Option Err) (j' : Decoder σ)
    (h : Decode S data j = .ret v e j') :
    j'.idx ≤ data.length ∧
      ∀ k, k < j'.idx → endsInNumber (data.take k) = false →
        Decode S (data.take k) j = .panic := by
  refine ⟨(decodeAny_bound S data _ _ _ _ _ h).2, ?_⟩
  intro k hk _
  cases hd : Decode S (data.take k) j with
  | panic => rfl
  | outOfFuel => exact absurd hd (Decode_fuel S _ j)
  | ret v1 e1 j1 =>
    have hb := (decodeAny_bound S (data.take k) _ _ _ _ _ hd).2
    have hx := Decode_ext S (data.take k) (data.drop k) j v1 e1 j1 hd
    rw [List.take_append_drop, h] at hx
    simp only [Outcome.ret.injEq] at hx
    obtain ⟨-, -, rfl⟩ := hx
    simp only [List.length_take] at hb
    omega

/-- C2, witness: the object `{"a":"b"}` cut after eight bytes, and the array
`[true,"x"]` cut after five. -/
theorem Decode_truncated_panics_witness :
    (Decode logStore [123, 34, 97, 34, 58, 34, 98, 34, 125] (NewDecoder [] (poolOf 1))
        = .ret (.map 0) none
            ⟨[.NewString [97], .NewString [98], .ObjectAddKey (.string [97]) (.string [98])],
              ⟨0, 1, [], [⟨true, [([97], .string [98])]⟩]⟩, [0], 9, JT_UTF8⟩ ∧
      8 < 9 ∧ endsInNumber ([123, 34, 97, 34, 58, 34, 98, 34, 125].take 8) = false ∧
      Decode logStore ([123, 34, 97, 34, 58, 34, 98, 34, 125].take 8)
        (NewDecoder [] (poolOf 1)) = .panic) ∧
    (endsInNumber ([91, 116, 114, 117, 101, 44, 34, 120, 34, 93].take 5) = false ∧
      endsInNumber ([49, 50, 51, 32].take 2) = true ∧
      endsInNumber ([123, 34, 97, 34, 58, 49, 125].take 6) = true ∧
      endsInNumber ([34, 97, 49, 34].take 3) = false) :=
  ⟨(fun h => ⟨h, by decide, by decide,
    (Decode_truncated_panics logStore [123, 34, 97, 34, 58, 34, 98, 34, 125]
      (NewDecoder [] (poolOf 1)) _ _ _ h).2 8 (by decide) (by decide)⟩) (by decide),
   by decide, by decide, by decide, by decide⟩

/-- C3, the code at the failing inputs: with the array `["a"]` or the object
`{"a":"b"}` at the key position, `lastTypeId` is still `JT_UTF8` from the
string scanned last inside the composite value, the key check passes, `Decode`
returns a nil error and `ObjectAddKey` is called with the composite value as
the key. -/
theorem Decode_composite_key_accepted :
    Decode logStore [123, 91, 34, 97, 34, 93, 58, 49, 125] (NewDecoder [] (poolOf 1))
        = .ret (.map 0) none
            ⟨[.NewArray, .NewString [97], .ArrayAddItem (.iface 0) (.string [97]),
                .NewNumeric [49], .ObjectAddKey (.iface 0) (.iface 3)],
              ⟨0, 1, [], [⟨true, []⟩]⟩, [0], 9, JT_NUMERIC⟩ ∧
      Decode logStore [123, 123, 34, 97, 34, 58, 34, 98, 34, 125, 58, 49, 125]
          (NewDecoder [] (poolOf 2))
        = .ret (.map 0) none
            ⟨[.NewString [97], .NewString [98], .ObjectAddKey (.string [97]) (.string [98]),
                .NewNumeric [49], .ObjectAddKey (.map 1) (.iface 3)],
              ⟨0, 2, [], [⟨true, []⟩, ⟨true, [([97], .string [98])]⟩]⟩, [0, 1], 13,
              JT_NUMERIC⟩ := by
  constructor <;> decide

/-- C4, the code at the failing input: on `{"a":1,}` the loop of `decodeObject`
meets the closing brace at its head after the comma and returns the object
with a nil error. -/
theorem Decode_object_trailing_comma_accepted :
    Decode logStore [123, 34, 97, 34, 58, 49, 44, 125] (NewDecoder [] (poolOf 1))
      = .ret (.map 0) none
          ⟨[.NewString [97], .NewNumeric [49], .ObjectAddKey (.string [97]) (.iface 1)],
            ⟨0, 1, [], [⟨true, [([97], .iface 1)]⟩]⟩, [0], 8, JT_NUMERIC⟩ := by
  decide

theorem getElem?_append_add (ws text : List Nat) (k : Nat) :
    (ws ++ text)[ws.length + k]? = text[k]? := by
  rw [List.getElem?_append_right (Nat.le_add_right _ _)]
  simp

/-- C5: an object key that is a string literal (its `NewString` succeeding),
followed after optional whitespace by a byte `c` other than the colon, makes
the object scanner return the MissingColon error right after reading `c`, with
the store as `NewString` left it and the pool untouched, so nothing is inserted
for that key. First part: at the head of the loop of `decodeObject`, for every
object and every key of it, in any decoder state. Second part: through
`Decode`, for the first key of the root object, as in `{"a" 1}`. -/
theorem Decode_missingColon {σ : Type} (S : ObjectStore σ) (ws1 body ws2 rest : List Nat)
    (c : Nat) (h1 : ∀ w ∈ ws1, isWhitespace w = true) (hb : StrBody body)
    (h2 : ∀ w ∈ ws2, isWhitespace w = true) (hc : c ≠ 58) (hcw : isWhitespace c = false) :
    (∀ (data : List Nat) (fuel n p : Nat) (j : Decoder σ),
      (S.NewString j.store body).2.1 = none →
      data.drop j.idx = ws1 ++ 34 :: (body ++ 34 :: (ws2 ++ c :: rest)) →
      decodeObject.loop S data (decodeAny S data (fuel + 1)) p (n + 1) j
        = .ret .nil (some .missingColon)
            { j with store := (S.NewString j.store body).2.2,
                     idx := j.idx + ws1.length + body.length + ws2.length + 3,
                     lastTypeId := JT_UTF8 }) ∧
    (∀ (ws0 : List Nat) (j : Decoder σ), (∀ w ∈ ws0, isWhitespace w = true) →
      (S.NewString j.store body).2.1 = none →
      Decode S (ws0 ++ 123 :: (ws1 ++ 34 :: (body ++ 34 :: (ws2 ++ c :: rest)))) j
        = .ret .nil (some .missingColon)
            { store := (S.NewString j.store body).2.2,
              pool := j.pool.Checkout.2,
              checked := j.checked ++ [j.pool.Checkout.1],
              idx := ws0.length + ws1.length + body.length + ws2.length + 4,
              lastTypeId := JT_UTF8 }) := by
  constructor
  · intro data fuel n p j hstore h
    exact decodeObject_loop_missingColon S data fuel n p j ws1 body ws2 rest c h1 hb h2 hc hcw
      hstore h
  · intro ws0 j h0 hstore
    rw [Decode_skip S ws0 _ h0]
    have hlen : (123 :: (ws1 ++ 34 :: (body ++ 34 :: (ws2 ++ c :: rest)))).length + 1
        = ((ws1 ++ 34 :: (body ++ 34 :: (ws2 ++ c :: rest))).length + 1) + 1 := by
      simp only [List.length_cons]
    rw [hlen, decodeAny_brace S _ _ _ (getElem?_append_length ws0 123 _)]
    unfold decodeObject
    have hlen2 : (ws1 ++ 34 :: (body ++ 34 :: (ws2 ++ c :: rest))).length
        = (ws1.length + body.length + ws2.length + rest.length + 2) + 1 := by
      simp only [List.length_cons, List.length_append]
      omega
    rw [hlen2]
    have hdrop : List.drop (ws0.length + 1)
        (ws0 ++ 123 :: (ws1 ++ 34 :: (body ++ 34 :: (ws2 ++ c :: rest))))
        = ws1 ++ 34 :: (body ++ 34 :: (ws2 ++ c :: rest)) := by
      have e : ws0 ++ 123 :: (ws1 ++ 34 :: (body ++ 34 :: (ws2 ++ c :: rest)))
          = (ws0 ++ [123]) ++ (ws1 ++ 34 :: (body ++ 34 :: (ws2 ++ c :: rest))) := by simp
      rw [e]
      have e2 : ws0.length + 1 = (ws0 ++ [123]).length := by simp
      rw [e2, List.drop_left]
    have key := decodeObject_loop_missingColon S
      (ws0 ++ 123 :: (ws1 ++ 34 :: (body ++ 34 :: (ws2 ++ c :: rest))))
      (ws1.length + body.length + ws2.length + rest.length + 2 + 1)
      (ws1.length + body.length + ws2.length + rest.length + 2 + 1) j.pool.Checkout.1
      { store := j.store, pool := j.pool.Checkout.2,
        checked := j.checked ++ [j.pool.Checkout.1], idx := ws0.length + 1,
        lastTypeId := JT_INVALID }
      ws1 body ws2 rest c h1 hb h2 hc hcw hstore hdrop
    simp only
    rw [key]
    simp only [Outcome.ret.injEq, true_and]
    congr 1
    omega

/-- C5, witness: `{"a" 1}`, and the loop of `decodeObject` on the same bytes
after the left brace. -/
theorem Decode_missingColon_witness :
    (∀ w ∈ ([] : List Nat), isWhitespace w = true) ∧ StrBody [97] ∧
      (∀ w ∈ [32], isWhitespace w = true) ∧ 49 ≠ 58 ∧ isWhitespace 49 = false ∧
      Decode logStore ([] ++ 123 :: ([] ++ 34 :: ([97] ++ 34 :: ([32] ++ 49 :: [125]))))
          (NewDecoder [] (poolOf 1))
        = .ret .nil (some .missingColon)
            { store := [.NewString [97]],
              pool := ⟨0, 1, [], [⟨true, []⟩]⟩,
              checked := [0],
              idx := 6,
              lastTypeId := JT_UTF8 } :=
  ⟨by decide, .plain 97 [] (by decide) (by decide) (by decide) .nil, by decide, by decide,
    by decide,
    (Decode_missingColon logStore [] [97] [32] [125] 49 (by decide)
      (.plain 97 [] (by decide) (by decide) (by decide) .nil) (by decide) (by decide)
      (by decide)).2 [] (NewDecoder [] (poolOf 1)) (by decide) rfl⟩

/-- C6, counterexample: the error returned for the escape `\q` in `"ab\qcd"`
is the one made by the last line of `decodeString`, the same as for the control
byte 1 in `"a` 0x01 `"`; both have the format "Unexpected character %c when
decoding string value". -/
theorem Decode_badEscape_same_kind :
    Decode logStore [34, 97, 98, 92, 113, 99, 100, 34] (NewDecoder [] (poolOf 1))
        = .ret (.string []) (some (.unexpectedCharacterInString 113))
            ⟨[], ⟨0, 1, [0], [⟨true, []⟩]⟩, [], 5, JT_INVALID⟩ ∧
      Decode logStore [34, 97, 1, 34] (NewDecoder [] (poolOf 1))
        = .ret (.string []) (some (.unexpectedCharacterInString 1))
            ⟨[], ⟨0, 1, [0], [⟨true, []⟩]⟩, [], 3, JT_INVALID⟩ ∧
      (Err.unexpectedCharacterInString 113).format = (Err.unexpectedCharacterInString 1).format := by
  refine ⟨by decide, by decide, rfl⟩

/-- C6, amended: in a string literal, a backslash read in the Normal state and
followed by a byte `c` other than `b f n r t \ / " u` makes the scanner return
the error "Unexpected character %c when decoding string value" for `c`, at any
scan position and through `Decode` for a root-level literal; a control byte
`k < 0x20` in the Normal state gives the error of the same format for `k`. -/
theorem Decode_badEscape {σ : Type} (S : ObjectStore σ) (pre rest : List Nat)
    (hb : StrBody pre) (c : Nat) (hc : isSimpleEscape c = false) (hu : c ≠ 117) :
    (∀ (data : List Nat) (fuel : Nat) (j : Decoder σ),
      data.drop j.idx = 34 :: (pre ++ 92 :: c :: rest) →
      decodeAny S data (fuel + 1) j
        = .ret (.string []) (some (.unexpectedCharacterInString c))
            { j with lastTypeId := JT_INVALID, idx := j.idx + pre.length + 3 }) ∧
    (∀ (ws : List Nat) (j : Decoder σ), (∀ w ∈ ws, isWhitespace w = true) →
      Decode S (ws ++ 34 :: (pre ++ 92 :: c :: rest)) j
        = .ret (.string []) (some (.unexpectedCharacterInString c))
            { j with lastTypeId := JT_INVALID, idx := ws.length + pre.length + 3 }) ∧
    (∀ (k : Nat) (ws : List Nat) (j : Decoder σ), k < 32 → (∀ w ∈ ws, isWhitespace w = true) →
      Decode S (ws ++ 34 :: (pre ++ k :: rest)) j
        = .ret (.string []) (some (.unexpectedCharacterInString k))
            { j with lastTypeId := JT_INVALID, idx := ws.length + pre.length + 2 }) ∧
    (∀ k : Nat, (Err.unexpectedCharacterInString c).format
        = (Err.unexpectedCharacterInString k).format) := by
  refine ⟨?_, ?_, ?_, fun _ => rfl⟩
  · intro data fuel j h
    rw [decodeAny_quote S data fuel j (drop_cons_getElem? h).1]
    exact decodeString_badEscape S data j pre rest hb c hc hu h
  · intro ws j hws
    rw [Decode_skip S ws _ hws, List.length_cons,
      decodeAny_quote S _ _ _ (getElem?_append_length ws 34 _),
      decodeString_badEscape S _ _ pre rest hb c hc hu (by simp)]
  · intro k ws j hk hws
    rw [Decode_skip S ws _ hws, List.length_cons,
      decodeAny_quote S _ _ _ (getElem?_append_length ws 34 _),
      decodeString_control S _ _ pre rest hb k hk (by simp)]

/-- C6, witness: `"ab\qcd"`. -/
theorem Decode_badEscape_witness :
    StrBody [97, 98] ∧ isSimpleEscape 113 = false ∧ 113 ≠ 117 ∧
      (∀ w ∈ ([] : List Nat), isWhitespace w = true) ∧
      Decode logStore ([] ++ 34 :: ([97, 98] ++ 92 :: 113 :: [99, 100, 34]))
          (NewDecoder [] (poolOf 1))
        = .ret (.string []) (some (.unexpectedCharacterInString 113))
            { NewDecoder [] (poolOf 1) with
              lastTypeId := JT_INVALID, idx := ([] : List Nat).length + [97, 98].length + 3 } :=
  ⟨.plain 97 [98] (by decide) (by decide) (by decide)
      (.plain 98 [] (by decide) (by decide) (by decide) .nil),
    by decide, by decide, by decide,
    (Decode_badEscape logStore [97, 98] [99, 100, 34]
      (.plain 97 [98] (by decide) (by decide) (by decide)
        (.plain 98 [] (by decide) (by decide) (by decide) .nil))
      113 (by decide) (by decide)).2.1 [] (NewDecoder [] (poolOf 1)) (by decide)⟩

theorem decodeAny_t {σ : Type} (S : ObjectStore σ) (data : List Nat) (fuel : Nat)
    (j : Decoder σ) (h : data[j.idx]? = some 116) :
    decodeAny S data (fuel + 1) j = decodeTrue S data j := by
  rw [decodeAny, h]
  simp

theorem decodeAny_f {σ : Type} (S : ObjectStore σ) (data : List Nat) (fuel : Nat)
    (j : Decoder σ) (h : data[j.idx]? = some 102) :
    decodeAny S data (fuel + 1) j = decodeFalse S data j := by
  rw [decodeAny, h]
  simp

theorem decodeAny_n {σ : Type} (S : ObjectStore σ) (data : List Nat) (fuel : Nat)
    (j : Decoder σ) (h : data[j.idx]? = some 110) :
    decodeAny S data (fuel + 1) j = decodeNull S data j := by
  rw [decodeAny, h]
  simp

theorem Decode_literal_start {σ : Type} (S : ObjectStore σ) (w : Literal) (ws text : List Nat)
    (hws : ∀ c ∈ ws, isWhitespace c = true) (j : Decoder σ) (c : Nat)
    (hc : w.word.head? = some c) (ht : text.head? = some c) :
    Decode S (ws ++ text) j
      = (match w with
          | .true => decodeTrue S (ws ++ text)
          | .false => decodeFalse S (ws ++ text)
          | .null => decodeNull S (ws ++ text))
          { j with idx := ws.length, lastTypeId := JT_INVALID } := by
  rw [Decode_skip S ws _ hws]
  cases text with
  | nil => simp at ht
  | cons t ts =>
    simp only [List.head?_cons, Option.some.injEq] at ht
    subst ht
    rw [List.length_cons]
    cases w
    · simp only [Literal.word, List.head?_cons, Option.some.injEq] at hc
      subst hc
      rw [decodeAny_t S _ _ _ (getElem?_append_length ws 116 _)]
    · simp only [Literal.word, List.head?_cons, Option.some.injEq] at hc
      subst hc
      rw [decodeAny_f S _ _ _ (getElem?_append_length ws 102 _)]
    · simp only [Literal.word, List.head?_cons, Option.some.injEq] at hc
      subst hc
      rw [decodeAny_n S _ _ _ (getElem?_append_length ws 110 _)]

theorem getElem?_append_add1 (ws text : List Nat) :
    (ws ++ text)[ws.length + 1]? = text[1]? := getElem?_append_add ws text 1

theorem getElem?_append_add2 (ws text : List Nat) :
    (ws ++ text)[ws.length + 1 + 1]? = text[2]? := getElem?_append_add ws text 2

theorem getElem?_append_add3 (ws text : List Nat) :
    (ws ++ text)[ws.length + 1 + 1 + 1]? = text[3]? := getElem?_append_add ws text 3

theorem getElem?_append_add4 (ws text : List Nat) :
    (ws ++ text)[ws.length + 1 + 1 + 1 + 1]? = text[4]? := getElem?_append_add ws text 4

theorem decodeTrue_eq {σ : Type} (S : ObjectStore σ) (data : List Nat) (j : Decoder σ)
    (a b c : Option Nat) : data[j.idx + 1]? = a → data[j.idx + 1 + 1]? = b →
    data[j.idx + 1 + 1 + 1]? = c →
    decodeTrue S data j =
      match a with
      | none => .panic
      | some x =>
      if x ≠ 114 then .ret .nil (some (.invalidLiteral .true)) { j with idx := j.idx + 1 } else
      match b with
      | none => .panic
      | some x =>
      if x ≠ 117 then .ret .nil (some (.invalidLiteral .true)) { j with idx := j.idx + 2 } else
      match c with
      | none => .panic
      | some x =>
      if x ≠ 101 then .ret .nil (some (.invalidLiteral .true)) { j with idx := j.idx + 3 } else
      .ret (S.NewTrue j.store).1 (storeErr (S.NewTrue j.store).2.1)
        { j with lastTypeId := JT_TRUE, idx := j.idx + 4, store := (S.NewTrue j.store).2.2 } := by
  intro h1 h2 h3
  subst h1 h2 h3
  rfl

theorem decodeFalse_eq {σ : Type} (S : ObjectStore σ) (data : List Nat) (j : Decoder σ)
    (a b c d : Option Nat) : data[j.idx + 1]? = a → data[j.idx + 1 + 1]? = b →
    data[j.idx + 1 + 1 + 1]? = c → data[j.idx + 1 + 1 + 1 + 1]? = d →
    decodeFalse S data j =
      match a with
      | none => .panic
      | some x =>
      if x ≠ 97 then .ret .nil (some (.invalidLiteral .false)) { j with idx := j.idx + 1 } else
      match b with
      | none => .panic
      | some x =>
      if x ≠ 108 then .ret .nil (some (.invalidLiteral .false)) { j with idx := j.idx + 2 } else
      match c with
      | none => .panic
      | some x =>
      if x ≠ 115 then .ret .nil (some (.invalidLiteral .false)) { j with idx := j.idx + 3 } else
      match d with
      | none => .panic
      | some x =>
      if x ≠ 101 then .ret .nil (some (.invalidLiteral .false)) { j with idx := j.idx + 4 } else
      .ret (S.NewFalse j.store).1 (storeErr (S.NewFalse j.store).2.1)
        { j with lastTypeId := JT_FALSE, idx := j.idx + 5, store := (S.NewFalse j.store).2.2 } := by
  intro h1 h2 h3 h4
  subst h1 h2 h3 h4
  rfl

theorem decodeNull_eq {σ : Type} (S : ObjectStore σ) (data : List Nat) (j : Decoder σ)
    (a b c : Option Nat) : data[j.idx + 1]? = a → data[j.idx + 1 + 1]? = b →
    data[j.idx + 1 + 1 + 1]? = c →
    decodeNull S data j =
      match a with
      | none => .panic
      | some x =>
      if x ≠ 117 then .ret .nil (some (.invalidLiteral .null)) { j with idx := j.idx + 1 } else
      match b with
      | none => .panic
      | some x =>
      if x ≠ 108 then .ret .nil (some (.invalidLiteral .null)) { j with idx := j.idx + 2 } else
      match c with
      | none => .panic
      | some x =>
      if x ≠ 108 then .ret .nil (some (.invalidLiteral .null)) { j with idx := j.idx + 3 } else
      .ret (S.NewNull j.store).1 (storeErr (S.NewNull j.store).2.1)
        { j with lastTypeId := JT_NULL, idx := j.idx + 4, store := (S.NewNull j.store).2.2 } := by
  intro h1 h2 h3
  subst h1 h2 h3
  rfl

/-- C7, counterexample: on `tru` the scanner reads `data[3]` past the end of
the buffer and `Decode` panics; it returns no InvalidLiteral error. -/
theorem Decode_tru_panics :
    Decode logStore [116, 114, 117] (NewDecoder [] (poolOf 1)) = .panic := by
  decide

/-- C7, amended: after optional whitespace and the first byte of the word `w`
(`true`, `false` or `null`): if the buffer holds, after `k` matching bytes, a
byte that differs from the word, `Decode` returns the InvalidLiteral error of
`w` with the cursor on that byte; if the word is spelled exactly, the cursor
advances by the length of the word and the result of `NewTrue`, `NewFalse` or
`NewNull` is returned; if the buffer ends inside the word, `Decode` panics. -/
theorem Decode_literal {σ : Type} (S : ObjectStore σ) (w : Literal) (ws : List Nat)
    (hws : ∀ c ∈ ws, isWhitespace c = true) (j : Decoder σ) :
    (∀ (k c : Nat) (rest : List Nat), 1 ≤ k → k < w.word.length → w.word[k]? ≠ some c →
      Decode S (ws ++ (w.word.take k ++ c :: rest)) j
        = .ret .nil (some (.invalidLiteral w))
            { j with idx := ws.length + k, lastTypeId := JT_INVALID }) ∧
    (∀ rest : List Nat,
      Decode S (ws ++ (w.word ++ rest)) j
        = .ret (w.make S j.store).1 (storeErr (w.make S j.store).2.1)
            { j with idx := ws.length + w.word.length, lastTypeId := w.typeId,
                     store := (w.make S j.store).2.2 }) ∧
    (∀ k : Nat, 1 ≤ k → k < w.word.length →
      Decode S (ws ++ w.word.take k) j = .panic) := by
  refine ⟨?_, ?_, ?_⟩
  · intro k c rest hk1 hk2 hne
    cases w
    · simp only [Literal.word, List.length_cons, List.length_nil] at hk2
      rw [Decode_literal_start S .true ws _ hws j 116 rfl (by
        interval_cases k <;> rfl)]
      simp only
      rw [decodeTrue_eq S _ _ _ _ _ (getElem?_append_add1 ws _) (getElem?_append_add2 ws _)
        (getElem?_append_add3 ws _)]
      interval_cases k <;> simp [Literal.word] at hne ⊢ <;> omega
    · simp only [Literal.word, List.length_cons, List.length_nil] at hk2
      rw [Decode_literal_start S .false ws _ hws j 102 rfl (by
        interval_cases k <;> rfl)]
      simp only
      rw [decodeFalse_eq S _ _ _ _ _ _ (getElem?_append_add1 ws _)
        (getElem?_append_add2 ws _) (getElem?_append_add3 ws _) (getElem?_append_add4 ws _)]
      interval_cases k <;> simp [Literal.word] at hne ⊢ <;> omega
    · simp only [Literal.word, List.length_cons, List.length_nil] at hk2
      rw [Decode_literal_start S .null ws _ hws j 110 rfl (by
        interval_cases k <;> rfl)]
      simp only
      rw [decodeNull_eq S _ _ _ _ _ (getElem?_append_add1 ws _) (getElem?_append_add2 ws _)
        (getElem?_append_add3 ws _)]
      interval_cases k <;> simp [Literal.word] at hne ⊢ <;> omega
  · intro rest
    cases w
    · rw [Decode_literal_start S .true ws (Literal.word .true ++ rest) hws j 116 rfl rfl]
      simp only
      rw [decodeTrue_eq S _ _ _ _ _ (getElem?_append_add1 ws _) (getElem?_append_add2 ws _)
        (getElem?_append_add3 ws _)]
      simp [Literal.word, Literal.make, Literal.typeId]
    · rw [Decode_literal_start S .false ws (Literal.word .false ++ rest) hws j 102 rfl rfl]
      simp only
      rw [decodeFalse_eq S _ _ _ _ _ _ (getElem?_append_add1 ws _)
        (getElem?_append_add2 ws _) (getElem?_append_add3 ws _) (getElem?_append_add4 ws _)]
      simp [Literal.word, Literal.make, Literal.typeId]
    · rw [Decode_literal_start S .null ws (Literal.word .null ++ rest) hws j 110 rfl rfl]
      simp only
      rw [decodeNull_eq S _ _ _ _ _ (getElem?_append_add1 ws _) (getElem?_append_add2 ws _)
        (getElem?_append_add3 ws _)]
      simp [Literal.word, Literal.make, Literal.typeId]
  · intro k hk1 hk2
    cases w
    · simp only [Literal.word, List.length_cons, List.length_nil] at hk2
      rw [Decode_literal_start S .true ws _ hws j 116 rfl (by
        interval_cases k <;> rfl)]
      simp only
      rw [decodeTrue_eq S _ _ _ _ _ (getElem?_append_add1 ws _) (getElem?_append_add2 ws _)
        (getElem?_append_add3 ws _)]
      interval_cases k <;> simp [Literal.word]
    · simp only [Literal.word, List.length_cons, List.length_nil] at hk2
      rw [Decode_literal_start S .false ws _ hws j 102 rfl (by
        interval_cases k <;> rfl)]
      simp only
      rw [decodeFalse_eq S _ _ _ _ _ _ (getElem?_append_add1 ws _)
        (getElem?_append_add2 ws _) (getElem?_append_add3 ws _) (getElem?_append_add4 ws _)]
      interval_cases k <;> simp [Literal.word]
    · simp only [Literal.word, List.length_cons, List.length_nil] at hk2
      rw [Decode_literal_start S .null ws _ hws j 110 rfl (by
        interval_cases k <;> rfl)]
      simp only
      rw [decodeNull_eq S _ _ _ _ _ (getElem?_append_add1 ws _) (getElem?_append_add2 ws _)
        (getElem?_append_add3 ws _)]
      interval_cases k <;> simp [Literal.word]

/-- C7, witness: the document `true`. -/
theorem Decode_literal_witness :
    (∀ c ∈ ([] : List Nat), isWhitespace c = true) ∧
      Decode logStore ([] ++ (Literal.word .true ++ [])) (NewDecoder [] (poolOf 1))
        = .ret (.iface 0) none
            ⟨[.NewTrue], ⟨0, 1, [0], [⟨true, []⟩]⟩, [], 4, JT_TRUE⟩ :=
  ⟨by decide,
    ((Decode_literal logStore .true [] (by decide) (NewDecoder [] (poolOf 1))).2.1 []).trans
      (by decide)⟩

/-- C8: on `{`, optional whitespace, `}` a fresh decoder over a pool whose idle
items are empty returns the map of the one item it checked out, with a nil
error; the store is as before the call (no operation of it was called, so no
`ObjectAddKey`), the pool is as `Checkout` left it, the drawn list holds that
item alone, and its map has no entry. -/
theorem Decode_empty_object {σ : Type} (S : ObjectStore σ) (s : σ) (pool : MapPool)
    (ws : List Nat) (hws : ∀ c ∈ ws, isWhitespace c = true) (hpool : pool.idleEmpty = true) :
    Decode S (123 :: (ws ++ [125])) (NewDecoder s pool)
        = .ret (.map pool.Checkout.1) none
            { store := s, pool := pool.Checkout.2, checked := [pool.Checkout.1],
              idx := ws.length + 2, lastTypeId := JT_INVALID } ∧
      (pool.Checkout.2.heap[pool.Checkout.1]?).map MapItem.m = some [] := by
  constructor
  · unfold Decode NewDecoder
    rw [List.length_cons, decodeAny_brace S _ _ _ (by simp)]
    unfold decodeObject
    simp only [List.length_append, List.length_cons, List.length_nil, List.nil_append]
    have e : ws.length + (0 + 1) = ws.length + 1 := by omega
    rw [e, decodeObject.loop,
      skipWhitespace_eq _ _ ws hws 125 (by decide) [] (by simp)]
    simp only
    have hg : (123 :: (ws ++ [125]))[0 + 1 + ws.length]? = some 125 := by
      have := getElem?_append_length (123 :: ws) 125 []
      simp only [List.cons_append, List.length_cons] at this
      rw [← this]
      congr 1
      omega
    rw [hg]
    simp only [if_true, Outcome.ret.injEq, true_and]
    congr 1
    omega
  · unfold MapPool.Checkout
    cases hl : pool.list with
    | nil =>
      simp [newMapItem]
    | cons p rest =>
      simp only
      unfold MapPool.idleEmpty at hpool
      rw [hl, List.all_cons, Bool.and_eq_true] at hpool
      have h1 := hpool.1
      cases hp : pool.heap[p]? with
      | none => simp [hp] at h1
      | some it =>
        simp only [hp] at h1
        simp only [Option.map_some', Option.some.injEq]
        exact List.isEmpty_iff.1 h1

/-- C8, witness: `{ }` on a pool of one idle item. -/
theorem Decode_empty_object_witness :
    (∀ c ∈ [32], isWhitespace c = true) ∧ (poolOf 1).idleEmpty = true ∧
      Decode logStore (123 :: ([32] ++ [125])) (NewDecoder [] (poolOf 1))
        = .ret (.map 0) none
            { store := [], pool := ⟨0, 1, [], [⟨true, []⟩]⟩, checked := [0], idx := 3,
              lastTypeId := JT_INVALID } :=
  ⟨by decide, by decide,
    (Decode_empty_object logStore [] (poolOf 1) [32] (by decide) (by decide)).1⟩

/-- C10: bytes after the bytes `Decode` consumed are never read. If `Decode`
succeeds on `b`, it succeeds on `b ++ t` with the same root value and the same
decoder after the call: the same drawn list, cursor, pool and store. -/
theorem Decode_trailing_bytes {σ : Type} (S : ObjectStore σ) (b t : List Nat)
    (j : Decoder σ) (v : Value) (j' : Decoder σ) (h : Decode S b j = .ret v none j') :
    Decode S (b ++ t) j = .ret v none j' :=
  Decode_ext S b t j v none j' h

/-- C10, witness: `[1]` followed by the bytes `]x`. -/
theorem Decode_trailing_bytes_witness :
    Decode logStore [91, 49, 93] (NewDecoder [] (poolOf 1))
        = .ret (.iface 0) none
            ⟨[.NewArray, .NewNumeric [49], .ArrayAddItem (.iface 0) (.iface 1)],
              ⟨0, 1, [0], [⟨true, []⟩]⟩, [], 3, JT_NUMERIC⟩ ∧
      Decode logStore ([91, 49, 93] ++ [93, 120]) (NewDecoder [] (poolOf 1))
        = .ret (.iface 0) none
            ⟨[.NewArray, .NewNumeric [49], .ArrayAddItem (.iface 0) (.iface 1)],
              ⟨0, 1, [0], [⟨true, []⟩]⟩, [], 3, JT_NUMERIC⟩ :=
  ⟨by decide,
    Decode_trailing_bytes logStore [91, 49, 93] [93, 120] (NewDecoder [] (poolOf 1)) _ _
      (by decide)⟩

/-! ## One container for each object literal -/

theorem Lex.run_append (s : Lex) (l1 l2 : List Nat) :
    Lex.run s (l1 ++ l2) = Lex.run (Lex.run s l1) l2 := by
  induction l1 generalizing s with
  | nil => rfl
  | cons c cs ih => simp only [List.cons_append, Lex.run]; exact ih _

theorem countObjects_append (s : Lex) (l1 l2 : List Nat) :
    countObjects s (l1 ++ l2) = countObjects s l1 + countObjects (Lex.run s l1) l2 := by
  induction l1 generalizing s with
  | nil => simp [countObjects, Lex.run]
  | cons c cs ih =>
    rw [List.cons_append, countObjects, countObjects, Lex.run, ih]
    omega

theorem lex_inert (w : List Nat) (h : ∀ c ∈ w, c ≠ 34 ∧ c ≠ 123) :
    Lex.run .out w = .out ∧ countObjects .out w = 0 := by
  induction w with
  | nil => exact ⟨rfl, rfl⟩
  | cons c cs ih =>
    have hc := h c (by simp)
    have ih' := ih (fun x hx => h x (by simp [hx]))
    have hs : Lex.step .out c = .out := by simp [Lex.step, hc.1]
    simp only [Lex.run, countObjects, hs]
    refine ⟨ih'.1, ?_⟩
    rw [ih'.2]
    simp [hc.2]

theorem slice_eq_take_drop (data : List Nat) (i k : Nat) :
    slice data i k = (data.drop i).take (k - i) := by
  unfold slice
  rw [List.drop_take]

theorem slice_split (data : List Nat) (a i k : Nat) (h1 : a ≤ i) (h2 : i ≤ k)
    (h3 : k ≤ data.length) : slice data a k = slice data a i ++ slice data i k := by
  unfold slice
  have e1 : data.take k = data.take i ++ (data.take k).drop i := by
    have := (List.take_append_drop i (data.take k)).symm
    rwa [List.take_take, Nat.min_eq_left h2] at this
  have e2 : (data.take k).drop a = (data.take i).drop a ++ (data.take k).drop i := by
    conv_lhs => rw [e1]
    rw [List.drop_append_of_le_length]
    rw [List.length_take]
    omega
  exact e2

theorem slice_single (data : List Nat) (i c : Nat) (h : data[i]? = some c) :
    slice data i (i + 1) = [c] := by
  rw [slice_eq_take_drop]
  have hlt := getElem?_lt h
  have e : i + 1 - i = 1 := by omega
  rw [e]
  rw [List.getElem?_eq_getElem hlt] at h
  rw [List.drop_eq_getElem_cons hlt]
  simp only [Option.some.injEq] at h
  simp [h]

theorem slice_self (data : List Nat) (i : Nat) : slice data i i = [] := by
  rw [slice_eq_take_drop]
  simp

theorem PoolSim.refl (p : MapPool) : PoolSim p p := ⟨rfl, rfl, rfl, rfl⟩

theorem PoolSim.trans {p q r : MapPool} (h1 : PoolSim p q) (h2 : PoolSim q r) : PoolSim p r :=
  ⟨h1.1.trans h2.1, h1.2.1.trans h2.2.1, h1.2.2.1.trans h2.2.2.1, h1.2.2.2.trans h2.2.2.2⟩

theorem PoolSim.checkout {p q : MapPool} (h : PoolSim p q) :
    p.Checkout.1 = q.Checkout.1 ∧ PoolSim p.Checkout.2 q.Checkout.2 := by
  obtain ⟨h1, h2, h3, h4⟩ := h
  unfold MapPool.Checkout
  rw [h3]
  cases q.list with
  | nil =>
    simp only [newMapItem]
    refine ⟨h4, ?_, h2, rfl, ?_⟩
    · simp only [h1]
    · simp only [List.length_append, h4]
  | cons x xs =>
    exact ⟨rfl, h1, h2, rfl, h4⟩

theorem CheckoutN_length (k : Nat) (p : MapPool) : (p.CheckoutN k).1.length = k := by
  induction k with
  | zero => rfl
  | succ k ih => simp [MapPool.CheckoutN, ih]

theorem objectAddKey_frame {σ : Type} (S : ObjectStore σ) (p : Nat) (k v : Value)
    (j : Decoder σ) :
    (objectAddKey S p k v j).2.idx = j.idx ∧ (objectAddKey S p k v j).2.checked = j.checked ∧
      PoolSim (objectAddKey S p k v j).2.pool j.pool := by
  refine ⟨rfl, rfl, rfl, rfl, rfl, ?_⟩
  simp [objectAddKey]

theorem Tracks.window {data : List Nat} {P0 : MapPool} {pre : List Nat} {a i : Nat}
    {ch : List Nat} {pool : MapPool} (h : Tracks data P0 pre a i ch pool) (k : Nat)
    (h1 : i ≤ k) (h2 : k ≤ data.length) (h3 : Lex.run .out (slice data i k) = .out)
    (h4 : countObjects .out (slice data i k) = 0) : Tracks data P0 pre a k ch pool := by
  obtain ⟨ha, hi, hr, hc, hp⟩ := h
  have hs := slice_split data a i k ha h1 h2
  have hcount : countObjects .out (slice data a k) = countObjects .out (slice data a i) := by
    rw [hs, countObjects_append, hr, h4]
    omega
  refine ⟨by omega, h2, ?_, ?_, ?_⟩
  · rw [hs, Lex.run_append, hr, h3]
  · rw [hcount]; exact hc
  · rw [hcount]; exact hp

theorem Tracks.inert {data : List Nat} {P0 : MapPool} {pre : List Nat} {a i : Nat}
    {ch : List Nat} {pool : MapPool} (h : Tracks data P0 pre a i ch pool) (k : Nat)
    (h1 : i ≤ k) (h2 : k ≤ data.length) (h3 : ∀ c ∈ slice data i k, c ≠ 34 ∧ c ≠ 123) :
    Tracks data P0 pre a k ch pool :=
  h.window k h1 h2 (lex_inert _ h3).1 (lex_inert _ h3).2

theorem Tracks.step {data : List Nat} {P0 : MapPool} {pre : List Nat} {a i : Nat}
    {ch : List Nat} {pool : MapPool} (h : Tracks data P0 pre a i ch pool) (c : Nat)
    (hc : data[i]? = some c) (h1 : c ≠ 34) (h2 : c ≠ 123) :
    Tracks data P0 pre a (i + 1) ch pool := by
  have hlt := getElem?_lt hc
  refine h.inert (i + 1) (by omega) (by omega) ?_
  rw [slice_single data i c hc]
  intro x hx
  simp only [List.mem_singleton] at hx
  subst hx
  exact ⟨h1, h2⟩

theorem Tracks.sim {data : List Nat} {P0 : MapPool} {pre : List Nat} {a i : Nat}
    {ch : List Nat} {pool pool' : MapPool} (h : Tracks data P0 pre a i ch pool)
    (hs : PoolSim pool' pool) : Tracks data P0 pre a i ch pool' :=
  ⟨h.1, h.2.1, h.2.2.1, h.2.2.2.1, hs.trans h.2.2.2.2⟩

theorem Tracks.brace {data : List Nat} {P0 : MapPool} {pre : List Nat} {a i : Nat}
    {ch : List Nat} {pool : MapPool} (h : Tracks data P0 pre a i ch pool)
    (hc : data[i]? = some 123) :
    Tracks data P0 pre a (i + 1) (ch ++ [pool.Checkout.1]) pool.Checkout.2 := by
  obtain ⟨ha, hi, hr, hch, hp⟩ := h
  have hlt := getElem?_lt hc
  have hs := slice_split data a i (i + 1) ha (by omega) (by omega)
  rw [slice_single data i 123 hc] at hs
  have hcount : countObjects .out (slice data a (i + 1))
      = countObjects .out (slice data a i) + 1 := by
    rw [hs, countObjects_append, hr]
    simp [countObjects]
  have hck := hp.checkout
  refine ⟨by omega, by omega, ?_, ?_, ?_⟩
  · rw [hs, Lex.run_append, hr]
    simp [Lex.run, Lex.step]
  · rw [hcount, MapPool.CheckoutN, hch, hck.1]
    simp
  · rw [hcount, MapPool.CheckoutN]
    exact hck.2

theorem skipWhitespace_loop_window {l : List Nat} {i k : Nat}
    (h : skipWhitespace.loop l i = some k) :
    ∀ c ∈ l.take (k - i), isWhitespace c = true := by
  induction l generalizing i with
  | nil => simp [skipWhitespace.loop] at h
  | cons c cs ih =>
    simp only [skipWhitespace.loop] at h
    split at h
    · rename_i hc
      have hb := skipWhitespace_loop_bound h
      have e : k - i = (k - (i + 1)) + 1 := by omega
      rw [e, List.take_succ_cons]
      intro x hx
      rcases List.mem_cons.1 hx with rfl | hx
      · exact hc
      · exact ih h x hx
    · cases h
      simp

theorem decodeNumeric_loop_window {l : List Nat} {i k : Nat}
    (h : decodeNumeric.loop l i = some k) :
    ∀ c ∈ l.take (k - i), isNumericChar c = true := by
  induction l generalizing i with
  | nil => simp [decodeNumeric.loop] at h
  | cons c cs ih =>
    simp only [decodeNumeric.loop] at h
    split at h
    · rename_i hc
      have hb := decodeNumeric_loop_bound h
      have e : k - i = (k - (i + 1)) + 1 := by omega
      rw [e, List.take_succ_cons]
      intro x hx
      rcases List.mem_cons.1 hx with rfl | hx
      · exact hc
      · exact ih h x hx
    · cases h
      simp

theorem isWhitespace_inert {c : Nat} (h : isWhitespace c = true) : c ≠ 34 ∧ c ≠ 123 := by
  have := isWhitespace_cases h
  omega

theorem isNumericChar_inert {c : Nat} (h : isNumericChar c = true) : c ≠ 34 ∧ c ≠ 123 := by
  simp only [isNumericChar, Bool.or_eq_true, Bool.and_eq_true, decide_eq_true_eq] at h
  omega

theorem isHexDigit_inert {c : Nat} (h : isHexDigit c = true) : c ≠ 34 ∧ c ≠ 92 := by
  simp only [isHexDigit, Bool.or_eq_true, Bool.and_eq_true, decide_eq_true_eq] at h
  omega

theorem lex_cons_window {s : Lex} {c : Nat} {cs : List Nat} {i k : Nat} (hk : i + 1 ≤ k)
    (hs : s ≠ .out)
    (hrec : Lex.run (s.step c) (cs.take (k - (i + 1))) = .out ∧
      countObjects (s.step c) (cs.take (k - (i + 1))) = 0) :
    Lex.run s ((c :: cs).take (k - i)) = .out ∧
      countObjects s ((c :: cs).take (k - i)) = 0 := by
  have e : k - i = (k - (i + 1)) + 1 := by omega
  rw [e, List.take_succ_cons, Lex.run, countObjects]
  refine ⟨hrec.1, ?_⟩
  rw [hrec.2]
  simp [hs]

theorem decodeString_loop_window {l : List Nat} {i st esc k : Nat} {s : Lex}
    (h : decodeString.loop l i st esc = .closed k) (hr : LexRel st esc s) :
    Lex.run s (l.take (k - i)) = .out ∧ countObjects s (l.take (k - i)) = 0 := by
  induction l generalizing i st esc s with
  | nil => simp [decodeString.loop] at h
  | cons c cs ih =>
    have hb := decodeString_loop_closed_bound h
    rw [decodeString.loop] at h
    rcases hr with ⟨hst, hesc, hs⟩ | ⟨hst, hesc, hs⟩ | ⟨hst, hesc, hs⟩
    · subst hst hesc hs
      simp only [if_true] at h
      split_ifs at h with h1 h2 h3
      · simp only [StringScan.closed.injEq] at h
        subst h
        subst h1
        have e : i + 1 - i = 1 := by omega
        rw [e]
        simp [Lex.run, Lex.step, countObjects]
      · subst h2
        refine lex_cons_window (by omega) (by simp) ?_
        exact ih h (Or.inr (Or.inl ⟨rfl, rfl, by simp [Lex.step]⟩))
      · refine lex_cons_window (by omega) (by simp) ?_
        exact ih h (Or.inl ⟨rfl, rfl, by simp [Lex.step, h1, h2]⟩)
    · subst hst hesc hs
      have e1 : ¬ (SS_ESC = SS_NORMAL) := by decide
      simp only [e1, if_false, if_true, gt_iff_lt, Nat.lt_irrefl] at h
      split_ifs at h with h1 h2
      · refine lex_cons_window (by omega) (by simp) ?_
        exact ih h (Or.inl ⟨rfl, rfl, by simp [Lex.step]⟩)
      · refine lex_cons_window (by omega) (by simp) ?_
        exact ih h (Or.inr (Or.inr ⟨rfl, by omega, by simp [Lex.step]⟩))
    · subst hst hs
      have e1 : ¬ (SS_ESC = SS_NORMAL) := by decide
      simp only [e1, if_false, if_true, gt_iff_lt, hesc] at h
      split_ifs at h with h1 h2
      · have hx := isHexDigit_inert h1
        refine lex_cons_window (by omega) (by simp) ?_
        exact ih h (Or.inl ⟨rfl, rfl, by simp [Lex.step, hx.1, hx.2]⟩)
      · have hx := isHexDigit_inert h1
        refine lex_cons_window (by omega) (by simp) ?_
        exact ih h (Or.inr (Or.inr ⟨rfl, by omega, by simp [Lex.step, hx.1, hx.2]⟩))

theorem skipWhitespace_tracks {σ : Type} {data : List Nat} {P0 : MapPool} {pre : List Nat}
    {a : Nat} {j j' : Decoder σ} (ht : Tracks data P0 pre a j.idx j.checked j.pool)
    (h : skipWhitespace data j = some j') :
    Tracks data P0 pre a j'.idx j'.checked j'.pool := by
  have hb := skipWhitespace_bound h
  unfold skipWhitespace at h
  cases hl : skipWhitespace.loop (List.drop j.idx data) j.idx with
  | none => simp [hl] at h
  | some k =>
    simp only [hl, Option.some.injEq] at h
    subst h
    simp only at hb ⊢
    refine ht.inert k hb.2.1 (by omega) ?_
    rw [slice_eq_take_drop]
    intro c hc
    exact isWhitespace_inert (skipWhitespace_loop_window hl c hc)

theorem decodeNumeric_tracks {σ : Type} {S : ObjectStore σ} {data : List Nat} {P0 : MapPool}
    {pre : List Nat} {a : Nat} {j j' : Decoder σ} {v : Value} {e : Option Err}
    (ht : Tracks data P0 pre a j.idx j.checked j.pool)
    (h : decodeNumeric S data j = .ret v e j') :
    Tracks data P0 pre a j'.idx j'.checked j'.pool := by
  have hb := decodeNumeric_bound h
  unfold decodeNumeric at h
  simp only at h
  cases hl : decodeNumeric.loop (List.drop j.idx data) j.idx with
  | none => simp [hl] at h
  | some k =>
    simp only [hl, Outcome.ret.injEq] at h
    obtain ⟨-, -, rfl⟩ := h
    simp only at hb ⊢
    refine ht.inert k hb.1 (by omega) ?_
    rw [slice_eq_take_drop]
    intro c hc
    exact isNumericChar_inert (decodeNumeric_loop_window hl c hc)

theorem decodeString_tracks {σ : Type} {S : ObjectStore σ} {data : List Nat} {P0 : MapPool}
    {pre : List Nat} {a : Nat} {j j' : Decoder σ} {v : Value}
    (ht : Tracks data P0 pre a j.idx j.checked j.pool) (hq : data[j.idx]? = some 34)
    (h : decodeString S data j = .ret v none j') :
    Tracks data P0 pre a j'.idx j'.checked j'.pool := by
  have hb := decodeString_bound h
  unfold decodeString at h
  simp only at h
  cases hl : decodeString.loop (List.drop (j.idx + 1) data) (j.idx + 1) SS_NORMAL 0 with
  | panic => simp [hl] at h
  | failed e1 k => simp [hl] at h
  | closed k =>
    simp only [hl, Outcome.ret.injEq] at h
    obtain ⟨-, -, rfl⟩ := h
    simp only at hb ⊢
    have hw := decodeString_loop_window hl (Or.inl ⟨rfl, rfl, rfl⟩)
    have hcb := decodeString_loop_closed_bound hl
    have hlt := getElem?_lt hq
    have hs : slice data j.idx k
        = 34 :: (List.drop (j.idx + 1) data).take (k - (j.idx + 1)) := by
      rw [slice_split data j.idx (j.idx + 1) k (by omega) (by omega) hb.2,
        slice_single data j.idx 34 hq, slice_eq_take_drop]
      rfl
    refine ht.window k (by omega) hb.2 ?_ ?_
    · have e : Lex.step .out 34 = .str := rfl
      rw [hs, Lex.run, e]
      exact hw.1
    · have e : Lex.step .out 34 = .str := rfl
      rw [hs, countObjects, e, hw.2]
      simp

theorem decodeTrue_tracks {σ : Type} {S : ObjectStore σ} {data : List Nat} {P0 : MapPool}
    {pre : List Nat} {a : Nat} {j j' : Decoder σ} {v : Value}
    (ht : Tracks data P0 pre a j.idx j.checked j.pool) (hq : data[j.idx]? = some 116)
    (h : decodeTrue S data j = .ret v none j') :
    Tracks data P0 pre a j'.idx j'.checked j'.pool := by
  unfold decodeTrue at h
  simp only at h
  cases h1 : data[j.idx + 1]? with
  | none => simp [h1] at h
  | some c1 =>
  simp only [h1] at h
  split_ifs at h with g1
  · simp at h
  cases h2 : data[j.idx + 1 + 1]? with
  | none => simp [h2] at h
  | some c2 =>
  simp only [h2] at h
  split_ifs at h with g2
  · simp at h
  cases h3 : data[j.idx + 1 + 1 + 1]? with
  | none => simp [h3] at h
  | some c3 =>
  simp only [h3] at h
  split_ifs at h with g3
  · simp at h
  simp only [Outcome.ret.injEq] at h
  obtain ⟨-, -, rfl⟩ := h
  simp only [ne_eq, not_not] at g1 g2 g3
  subst g1 g2 g3
  exact (((ht.step 116 hq (by decide) (by decide)).step 114 h1 (by decide) (by decide)).step
    117 h2 (by decide) (by decide)).step 101 h3 (by decide) (by decide)

theorem decodeFalse_tracks {σ : Type} {S : ObjectStore σ} {data : List Nat} {P0 : MapPool}
    {pre : List Nat} {a : Nat} {j j' : Decoder σ} {v : Value}
    (ht : Tracks data P0 pre a j.idx j.checked j.pool) (hq : data[j.idx]? = some 102)
    (h : decodeFalse S data j = .ret v none j') :
    Tracks data P0 pre a j'.idx j'.checked j'.pool := by
  unfold decodeFalse at h
  simp only at h
  cases h1 : data[j.idx + 1]? with
  | none => simp [h1] at h
  | some c1 =>
  simp only [h1] at h
  split_ifs at h with g1
  · simp at h
  cases h2 : data[j.idx + 1 + 1]? with
  | none => simp [h2] at h
  | some c2 =>
  simp only [h2] at h
  split_ifs at h with g2
  · simp at h
  cases h3 : data[j.idx + 1 + 1 + 1]? with
  | none => simp [h3] at h
  | some c3 =>
  simp only [h3] at h
  split_ifs at h with g3
  · simp at h
  cases h4 : data[j.idx + 1 + 1 + 1 + 1]? with
  | none => simp [h4] at h
  | some c4 =>
  simp only [h4] at h
  split_ifs at h with g4
  · simp at h
  simp only [Outcome.ret.injEq] at h
  obtain ⟨-, -, rfl⟩ := h
  simp only [ne_eq, not_not] at g1 g2 g3 g4
  subst g1 g2 g3 g4
  exact ((((ht.step 102 hq (by decide) (by decide)).step 97 h1 (by decide) (by decide)).step
    108 h2 (by decide) (by decide)).step 115 h3 (by decide) (by decide)).step 101 h4
    (by decide) (by decide)

theorem decodeNull_tracks {σ : Type} {S : ObjectStore σ} {data : List Nat} {P0 : MapPool}
    {pre : List Nat} {a : Nat} {j j' : Decoder σ} {v : Value}
    (ht : Tracks data P0 pre a j.idx j.checked j.pool) (hq : data[j.idx]? = some 110)
    (h : decodeNull S data j = .ret v none j') :
    Tracks data P0 pre a j'.idx j'.checked j'.pool := by
  unfold decodeNull at h
  simp only at h
  cases h1 : data[j.idx + 1]? with
  | none => simp [h1] at h
  | some c1 =>
  simp only [h1] at h
  split_ifs at h with g1
  · simp at h
  cases h2 : data[j.idx + 1 + 1]? with
  | none => simp [h2] at h
  | some c2 =>
  simp only [h2] at h
  split_ifs at h with g2
  · simp at h
  cases h3 : data[j.idx + 1 + 1 + 1]? with
  | none => simp [h3] at h
  | some c3 =>
  simp only [h3] at h
  split_ifs at h with g3
  · simp at h
  simp only [Outcome.ret.injEq] at h
  obtain ⟨-, -, rfl⟩ := h
  simp only [ne_eq, not_not] at g1 g2 g3
  subst g1 g2 g3
  exact (((ht.step 110 hq (by decide) (by decide)).step 117 h1 (by decide) (by decide)).step
    108 h2 (by decide) (by decide)).step 108 h3 (by decide) (by decide)

theorem decodeObject_loop_tracks {σ : Type} (S : ObjectStore σ) (data : List Nat)
    (P0 : MapPool) (pre : List Nat) (a : Nat) (any : Decoder σ → Outcome σ) (p : Nat)
    (hany : ∀ j v j', Tracks data P0 pre a j.idx j.checked j.pool → any j = .ret v none j' →
      Tracks data P0 pre a j'.idx j'.checked j'.pool) :
    ∀ (n : Nat) (j : Decoder σ) (v : Value) (j' : Decoder σ),
      Tracks data P0 pre a j.idx j.checked j.pool →
      decodeObject.loop S data any p n j = .ret v none j' →
      Tracks data P0 pre a j'.idx j'.checked j'.pool := by
  intro n
  induction n with
  | zero => intro j v j' _ h; simp [decodeObject.loop] at h
  | succ n ih =>
    intro j v j' ht h
    rw [decodeObject.loop] at h
    cases h1 : skipWhitespace data j with
    | none => simp [h1] at h
    | some j1 =>
    have t1 := skipWhitespace_tracks ht h1
    simp only [h1] at h
    cases h2 : data[j1.idx]? with
    | none => simp [h2] at h
    | some c =>
    simp only [h2] at h
    split_ifs at h with g0
    · simp only [Outcome.ret.injEq] at h
      obtain ⟨-, -, rfl⟩ := h
      subst g0
      exact t1.step 125 h2 (by decide) (by decide)
    cases h3 : any { j1 with lastTypeId := JT_INVALID } with
    | panic => simp [h3] at h
    | outOfFuel => simp [h3] at h
    | ret v1 e1 j2 =>
    simp only [h3] at h
    cases e1 with
    | some err => simp at h
    | none =>
    have t3 := hany { j1 with lastTypeId := JT_INVALID } _ _ t1 h3
    simp only at h
    split_ifs at h with g1
    · simp at h
    cases h4 : skipWhitespace data j2 with
    | none => simp [h4] at h
    | some j3 =>
    have t4 := skipWhitespace_tracks t3 h4
    simp only [h4] at h
    cases h5 : data[j3.idx]? with
    | none => simp [h5] at h
    | some c5 =>
    simp only [h5] at h
    split_ifs at h with g2
    · simp at h
    simp only [ne_eq, not_not] at g2
    subst g2
    have t5 := t4.step 58 h5 (by decide) (by decide)
    cases h6 : skipWhitespace data { j3 with idx := j3.idx + 1 } with
    | none => simp [h6] at h
    | some j4 =>
    have t6 := skipWhitespace_tracks (j := { j3 with idx := j3.idx + 1 }) t5 h6
    simp only [h6] at h
    cases h7 : any j4 with
    | panic => simp [h7] at h
    | outOfFuel => simp [h7] at h
    | ret v2 e2 j5 =>
    simp only [h7] at h
    cases e2 with
    | some err => simp at h
    | none =>
    have t7 := hany _ _ _ t6 h7
    simp only at h
    have b8 := objectAddKey_frame S p v1 v2 j5
    rcases h8 : objectAddKey S p v1 v2 j5 with ⟨_ | err, j6⟩
    · rw [h8] at b8
      simp only at b8
      have t8 : Tracks data P0 pre a j6.idx j6.checked j6.pool := by
        rw [b8.1, b8.2.1]
        exact t7.sim b8.2.2
      simp only [h8] at h
      cases h9 : skipWhitespace data j6 with
      | none => simp [h9] at h
      | some j7 =>
      have t9 := skipWhitespace_tracks t8 h9
      simp only [h9] at h
      cases h10 : data[j7.idx]? with
      | none => simp [h10] at h
      | some c10 =>
      simp only [h10] at h
      split_ifs at h with g3 g4
      · simp only [Outcome.ret.injEq] at h
        obtain ⟨-, -, rfl⟩ := h
        subst g3
        exact t9.step 125 h10 (by decide) (by decide)
      · subst g4
        exact ih _ _ _ (t9.step 44 h10 (by decide) (by decide)) h
      · simp at h
    · simp [h8] at h

theorem decodeArray_loop_tracks {σ : Type} (S : ObjectStore σ) (data : List Nat)
    (P0 : MapPool) (pre : List Nat) (a : Nat) (any : Decoder σ → Outcome σ) (arr : Value)
    (hany : ∀ j v j', Tracks data P0 pre a j.idx j.checked j.pool → any j = .ret v none j' →
      Tracks data P0 pre a j'.idx j'.checked j'.pool) :
    ∀ (n len : Nat) (j : Decoder σ) (v : Value) (j' : Decoder σ),
      Tracks data P0 pre a j.idx j.checked j.pool →
      decodeArray.loop S data any arr n len j = .ret v none j' →
      Tracks data P0 pre a j'.idx j'.checked j'.pool := by
  intro n
  induction n with
  | zero => intro len j v j' _ h; simp [decodeArray.loop] at h
  | succ n ih =>
    intro len j v j' ht h
    rw [decodeArray.loop] at h
    cases h1 : skipWhitespace data j with
    | none => simp [h1] at h
    | some j1 =>
    have t1 := skipWhitespace_tracks ht h1
    simp only [h1] at h
    cases h2 : data[j1.idx]? with
    | none => simp [h2] at h
    | some c =>
    simp only [h2] at h
    split_ifs at h with g0 g1
    · simp only [Outcome.ret.injEq] at h
      obtain ⟨-, -, rfl⟩ := h
      subst g0
      exact t1.step 93 h2 (by decide) (by decide)
    · simp at h
    cases h3 : any j1 with
    | panic => simp [h3] at h
    | outOfFuel => simp [h3] at h
    | ret v1 e1 j2 =>
    simp only [h3] at h
    cases e1 with
    | some err => simp at h
    | none =>
    have t3 := hany _ _ _ t1 h3
    simp only at h
    cases h4 : (S.ArrayAddItem j2.store arr v1).1 with
    | some err => simp [h4] at h
    | none =>
    simp only [h4] at h
    cases h5 : skipWhitespace data { j2 with store := (S.ArrayAddItem j2.store arr v1).2 } with
    | none => simp [h5] at h
    | some j3 =>
    have t5 := skipWhitespace_tracks
      (j := { j2 with store := (S.ArrayAddItem j2.store arr v1).2 }) t3 h5
    simp only [h5] at h
    cases h6 : data[j3.idx]? with
    | none => simp [h6] at h
    | some c6 =>
    simp only [h6] at h
    split_ifs at h with g3 g4
    · simp only [Outcome.ret.injEq] at h
      obtain ⟨-, -, rfl⟩ := h
      subst g3
      exact t5.step 93 h6 (by decide) (by decide)
    · subst g4
      exact ih _ _ _ _ (t5.step 44 h6 (by decide) (by decide)) h
    · simp at h

theorem decodeAny_tracks {σ : Type} (S : ObjectStore σ) (data : List Nat)
    (P0 : MapPool) (pre : List Nat) (a : Nat) :
    ∀ (n : Nat) (j : Decoder σ) (v : Value) (j' : Decoder σ),
      Tracks data P0 pre a j.idx j.checked j.pool →
      decodeAny S data n j = .ret v none j' →
      Tracks data P0 pre a j'.idx j'.checked j'.pool := by
  intro n
  induction n with
  | zero => intro j v j' _ h; simp [decodeAny] at h
  | succ n ih =>
    intro j v j' ht h
    rw [decodeAny] at h
    cases h2 : data[j.idx]? with
    | none => simp [h2] at h
    | some c =>
    simp only [h2] at h
    split_ifs at h with g1 g2 g3 g4 g5 g6 g7 g8
    · subst g1
      exact decodeString_tracks ht h2 h
    · exact decodeNumeric_tracks ht h
    · subst g3
      unfold decodeArray at h
      simp only at h
      cases h3 : (S.NewArray j.store).2.1 with
      | some err => simp [h3] at h
      | none =>
        simp only [h3] at h
        exact decodeArray_loop_tracks S data P0 pre a _ _ ih n _ _ _ _
          (ht.step 91 h2 (by decide) (by decide)) h
    · subst g4
      unfold decodeObject at h
      exact decodeObject_loop_tracks S data P0 pre a _ _ ih n _ _ _ (ht.brace h2) h
    · subst g5
      exact decodeTrue_tracks ht h2 h
    · subst g6
      exact decodeFalse_tracks ht h2 h
    · subst g7
      exact decodeNull_tracks ht h2 h
    · exact ih _ _ _ (ht.step c h2 (isWhitespace_inert g8).1 (isWhitespace_inert g8).2) h
    · simp at h

/-- C9: when `Decode` succeeds, the items it appended to the drawn list are
exactly the results of `k` calls of `Checkout` in a row on the pool it started
with, in the order of the calls, where `k` is the number of object literals
(left braces outside string literals) of the text it consumed; the channel and
the miss counter of the pool are as these `k` calls leave them, so nothing else
(no array) draws from the pool. The scanner is single pass: the call number
`i` is made at the opening brace number `i`. -/
theorem Decode_checked {σ : Type} (S : ObjectStore σ) (data : List Nat) (j : Decoder σ)
    (v : Value) (j' : Decoder σ) (h : Decode S data j = .ret v none j') :
    j'.checked
        = j.checked ++ (j.pool.CheckoutN (countObjects .out (data.take j'.idx))).1 ∧
      j'.checked.length = j.checked.length + countObjects .out (data.take j'.idx) ∧
      j'.pool.list = (j.pool.CheckoutN (countObjects .out (data.take j'.idx))).2.list ∧
      j'.pool.misses = (j.pool.CheckoutN (countObjects .out (data.take j'.idx))).2.misses := by
  unfold Decode at h
  have t0 : Tracks data j.pool j.checked 0 0 j.checked j.pool := by
    refine ⟨Nat.le_refl _, Nat.zero_le _, ?_, ?_, ?_⟩
    · rw [slice_self]; rfl
    · rw [slice_self]; simp [countObjects, MapPool.CheckoutN]
    · rw [slice_self]; exact PoolSim.refl _
  have t := decodeAny_tracks S data j.pool j.checked 0 _
    { j with idx := 0, lastTypeId := JT_INVALID } v j' t0 h
  obtain ⟨-, -, -, hc, hp⟩ := t
  have e : slice data 0 j'.idx = data.take j'.idx := by
    unfold slice
    rfl
  rw [e] at hc hp
  refine ⟨hc, ?_, hp.2.2.1, hp.1⟩
  rw [hc, List.length_append, CheckoutN_length]

/-- C9, witness: the object with key "left brace" and value `[{},{}]` on a
pool of one idle item draws the idle item and then two fresh ones; the brace
inside the key is no object. -/
theorem Decode_checked_witness :
    Decode logStore [123, 34, 123, 34, 58, 91, 123, 125, 44, 123, 125, 93, 125]
        (NewDecoder [] (poolOf 1))
        = .ret (.map 0) none
            ⟨[.NewString [123], .NewArray, .ArrayAddItem (.iface 1) (.map 1),
                .ArrayAddItem (.iface 1) (.map 2), .ObjectAddKey (.string [123]) (.iface 1)],
              ⟨2, 1, [], [⟨true, [([123], .iface 1)]⟩, ⟨true, []⟩, ⟨true, []⟩]⟩, [0, 1, 2], 13,
              JT_INVALID⟩ ∧
      [0, 1, 2] = ([] : List Nat) ++ ((poolOf 1).CheckoutN (countObjects .out (List.take 13
        [123, 34, 123, 34, 58, 91, 123, 125, 44, 123, 125, 93, 125]))).1 :=
  (fun h => ⟨h, (Decode_checked logStore
      [123, 34, 123, 34, 58, 91, 123, 125, 44, 123, 125, 93, 125] (NewDecoder [] (poolOf 1))
      (.map 0)
      ⟨[.NewString [123], .NewArray, .ArrayAddItem (.iface 1) (.map 1),
          .ArrayAddItem (.iface 1) (.map 2), .ObjectAddKey (.string [123]) (.iface 1)],
        ⟨2, 1, [], [⟨true, [([123], .iface 1)]⟩, ⟨true, []⟩, ⟨true, []⟩]⟩, [0, 1, 2], 13,
        JT_INVALID⟩ h).1⟩) (by decide)

/-! ## The pool -/

theorem wrapInt32_eq {x : Int} (h1 : -2147483648 ≤ x) (h2 : x < 2147483648) :
    wrapInt32 x = x := by
  unfold wrapInt32
  omega

/-- C12, the code at the failing input: on `{"a" 1}` with a pool of capacity 1
`NewFromBytes` returns the MissingColon error and no `JSON`; the item checked
out for the object is not sent back, the pool is left with `Len() = 0` where it
had 1, and the caller holds nothing to call `Done` on. -/
theorem NewFromBytes_error_leaks :
    NewFromBytes logStore [] [123, 34, 97, 34, 32, 49, 125] (poolOf 1)
        = .ret none (some (.decode .missingColon)) ⟨0, 1, [], [⟨true, []⟩]⟩
            [.NewString [97]] ∧
      (poolOf 1).Len = 1 ∧ MapPool.Len ⟨0, 1, [], [⟨true, []⟩]⟩ = 0 := by
  decide

/-- C15, the code at the failing inputs: with capacity 0 and one decode, and
with capacity 1 and two decodes, the items are checked out (one miss each for
those beyond the capacity) and then `Close` on the item allocated on the miss
finds the channel full: its send never returns. -/
theorem Close_blocks_when_full :
    ((poolOf 0).CheckoutN 1).1 = [0] ∧ ((poolOf 0).CheckoutN 1).2.Misses = 1 ∧
      MapItem.Close 0 ((poolOf 0).CheckoutN 1).2 = none ∧
      ((poolOf 1).CheckoutN 2).1 = [0, 1] ∧ ((poolOf 1).CheckoutN 2).2.Misses = 1 ∧
      MapItem.Close 0 ((poolOf 1).CheckoutN 2).2
        = some ⟨1, 1, [0], [⟨true, []⟩, ⟨true, []⟩]⟩ ∧
      MapItem.Close 1 ⟨1, 1, [0], [⟨true, []⟩, ⟨true, []⟩]⟩ = none ∧
      JSON.Done.loop ((poolOf 1).CheckoutN 2).1 ((poolOf 1).CheckoutN 2).2 = none := by
  decide

theorem getElem?_lt' {α : Type} {l : List α} {i : Nat} {c : α} (h : l[i]? = some c) :
    i < l.length := by
  by_contra hn
  rw [List.getElem?_eq_none (Nat.le_of_not_lt hn)] at h
  cases h

theorem idleEmpty_iff (pool : MapPool) :
    pool.idleEmpty = true ↔ ∀ p ∈ pool.list, ∃ it, pool.heap[p]? = some it ∧ it.m = [] := by
  unfold MapPool.idleEmpty
  rw [List.all_eq_true]
  constructor
  · intro h p hp
    have := h p hp
    cases hg : pool.heap[p]? with
    | none => simp [hg] at this
    | some it =>
      simp only [hg] at this
      exact ⟨it, rfl, List.isEmpty_iff.1 this⟩
  · intro h p hp
    obtain ⟨it, hg, hm⟩ := h p hp
    simp [hg, hm]

theorem Checkout_cons {pool : MapPool} {m : Nat} {rest : List Nat} (h : pool.list = m :: rest) :
    pool.Checkout = (m, { pool with list := rest }) := by
  unfold MapPool.Checkout
  rw [h]

theorem Checkout_nil {pool : MapPool} (h : pool.list = []) :
    pool.Checkout = (pool.heap.length,
      { pool with misses := wrapInt32 (pool.misses + 1),
                  heap := pool.heap ++ [{ pool := true, m := [] }] }) := by
  unfold MapPool.Checkout
  rw [h]
  rfl

theorem fill_fields (n : Nat) (p : MapPool) :
    (NewMapPool.fill n p).list.length = p.list.length + n ∧
      (NewMapPool.fill n p).misses = p.misses ∧ (NewMapPool.fill n p).cap = p.cap := by
  induction n generalizing p with
  | zero => exact ⟨rfl, rfl, rfl⟩
  | succ n ih =>
    rw [NewMapPool.fill]
    have := ih { (newMapItem p).2 with list := (newMapItem p).2.list ++ [(newMapItem p).1] }
    simp only [newMapItem, List.length_append, List.length_cons, List.length_nil] at this ⊢
    refine ⟨by omega, this.2.1, this.2.2⟩

theorem fill_idleEmpty (n : Nat) (p : MapPool) (h : p.idleEmpty = true) :
    (NewMapPool.fill n p).idleEmpty = true := by
  induction n generalizing p with
  | zero => exact h
  | succ n ih =>
    rw [NewMapPool.fill]
    apply ih
    rw [idleEmpty_iff] at h ⊢
    simp only [newMapItem]
    intro q hq
    rcases List.mem_append.1 hq with hq | hq
    · obtain ⟨it, hg, hm⟩ := h q hq
      exact ⟨it, by rw [List.getElem?_append_left (getElem?_lt' hg)]; exact hg, hm⟩
    · simp only [List.mem_singleton] at hq
      subst hq
      exact ⟨{ pool := true, m := [] }, by simp, rfl⟩

theorem CheckoutN_fields (p : MapPool) (m : Nat) (h0 : 0 ≤ p.misses)
    (hb : p.misses + ((m - p.list.length : Nat) : Int) < 2147483648) :
    (p.CheckoutN m).2.list.length = p.list.length - m ∧
      (p.CheckoutN m).2.misses = p.misses + ((m - p.list.length : Nat) : Int) := by
  induction m with
  | zero => simp [MapPool.CheckoutN]
  | succ m ih =>
    have ih' := ih (by omega)
    rw [MapPool.CheckoutN]
    simp only
    cases hl : (p.CheckoutN m).2.list with
    | nil =>
      rw [Checkout_nil hl]
      simp only [List.length_nil]
      rw [hl] at ih'
      simp only [List.length_nil] at ih'
      rw [ih'.2, wrapInt32_eq (by omega) (by omega)]
      omega
    | cons x xs =>
      rw [Checkout_cons hl]
      simp only
      rw [hl] at ih'
      simp only [List.length_cons] at ih'
      rw [ih'.2]
      omega

/-- C13, counterexample: with the counter at the largest `int32` the miss of
`Checkout` wraps it around to the smallest one; it does not increase by 1. -/
theorem Checkout_misses_wrap :
    MapPool.Len ⟨2147483647, 0, [], []⟩ = 0 ∧
      (MapPool.Checkout ⟨2147483647, 0, [], []⟩).2.Misses = -2147483648 ∧
      (MapPool.Checkout ⟨2147483647, 0, [], []⟩).2.Misses
        ≠ MapPool.Misses ⟨2147483647, 0, [], []⟩ + 1 := by
  decide

/-- C13, amended: `Checkout` always returns an item. With `Len() = k > 0` it
is the oldest item of the channel, `Len()` becomes `k - 1`, `Misses()` and the
heap are unchanged. With `Len() = 0` it is a freshly allocated item with an
empty map, `Len()` stays 0 and `Misses()` increases by exactly 1 as long as the
`int32` counter is below its largest value. `NewMapPool(n)` followed by `m`
checkouts gives `Len() = max(0, n-m)` and, when `m - n` is below `2^31`,
`Misses() = max(0, m-n)`. -/
theorem Checkout_outcomes (pool : MapPool) :
    (0 < pool.Len →
      pool.list.head? = some pool.Checkout.1 ∧ pool.Checkout.2.Len = pool.Len - 1 ∧
        pool.Checkout.2.Misses = pool.Misses ∧ pool.Checkout.2.heap = pool.heap) ∧
    (pool.Len = 0 →
      pool.Checkout.1 = pool.heap.length ∧
        pool.Checkout.2.heap = pool.heap ++ [{ pool := true, m := [] }] ∧
        pool.Checkout.2.Len = 0 ∧
        (-2147483648 ≤ pool.Misses → pool.Misses < 2147483647 →
          pool.Checkout.2.Misses = pool.Misses + 1)) ∧
    (∀ n m : Nat, NewMapPool (n : Int) = some (poolOf n) ∧
      ((poolOf n).CheckoutN m).2.Len = n - m ∧
      ((m : Int) - n < 2147483648 → ((poolOf n).CheckoutN m).2.Misses = ((m - n : Nat) : Int))) := by
  refine ⟨?_, ?_, ?_⟩
  · intro h
    unfold MapPool.Len at h
    cases hl : pool.list with
    | nil => rw [hl] at h; simp at h
    | cons x xs =>
      rw [Checkout_cons hl]
      simp [MapPool.Len, MapPool.Misses, hl]
  · intro h
    unfold MapPool.Len at h
    have hl : pool.list = [] := List.length_eq_zero.1 h
    rw [Checkout_nil hl]
    refine ⟨rfl, rfl, ?_, ?_⟩
    · simp [MapPool.Len, hl]
    · intro h1 h2
      simp only [MapPool.Misses] at h1 h2 ⊢
      exact wrapInt32_eq (by omega) (by omega)
  · intro n m
    have hf := fill_fields n { misses := 0, cap := n, list := [], heap := [] }
    simp only [List.length_nil, Nat.zero_add] at hf
    refine ⟨?_, ?_, ?_⟩
    · unfold NewMapPool poolOf
      simp
    · unfold MapPool.Len
      have hlen : (poolOf n).list.length = n := hf.1
      have hmis : (poolOf n).misses = 0 := hf.2.1
      by_cases hmn : m ≤ n
      · have := CheckoutN_fields (poolOf n) m (by omega) (by
          rw [hmis, hlen]
          have : m - n = 0 := by omega
          rw [this]
          decide)
        rw [this.1, hlen]
      · have key : ∀ k, ((poolOf n).CheckoutN (n + k)).2.list.length = 0 := by
          intro k
          induction k with
          | zero =>
            have := CheckoutN_fields (poolOf n) n (by omega) (by
              rw [hmis, hlen]
              simp)
            rw [Nat.add_zero, this.1, hlen]
            omega
          | succ k ih =>
            rw [← Nat.add_assoc, MapPool.CheckoutN]
            simp only
            have hl := List.length_eq_zero.1 ih
            rw [Checkout_nil hl]
            simp [hl]
        have e : m = n + (m - n) := by omega
        rw [e, key]
        omega
    · intro hb
      have hlen : (poolOf n).list.length = n := hf.1
      have hmis : (poolOf n).misses = 0 := hf.2.1
      have := CheckoutN_fields (poolOf n) m (by omega) (by
        rw [hmis, hlen]
        omega)
      unfold MapPool.Misses
      rw [this.2, hmis, hlen]
      omega

/-- C13, witness: a pool of two idle items, and one of none. -/
theorem Checkout_outcomes_witness :
    0 < (poolOf 2).Len ∧ (poolOf 2).Checkout.2.Len = (poolOf 2).Len - 1 ∧
      (poolOf 0).Len = 0 ∧ -2147483648 ≤ (poolOf 0).Misses ∧ (poolOf 0).Misses < 2147483647 ∧
      (poolOf 0).Checkout.2.Misses = (poolOf 0).Misses + 1 ∧
      ((3 : Nat) : Int) - (2 : Nat) < 2147483648 ∧
      ((poolOf 2).CheckoutN 3).2.Misses = ((3 - 2 : Nat) : Int) :=
  ⟨by decide, ((Checkout_outcomes (poolOf 2)).1 (by decide)).2.1, by decide, by decide,
    by decide,
    ((Checkout_outcomes (poolOf 0)).2.1 (by decide)).2.2.2 (by decide) (by decide),
    by decide, ((Checkout_outcomes (poolOf 0)).2.2 2 3).2.2 (by decide)⟩

/-- C14: every item idle in the channel of the pool has an empty map. This
holds after `NewMapPool`; `Checkout` keeps it and the item it returns, taken
from the channel or freshly allocated, has an empty map. `Close` on an item of
the heap returns exactly when the item has no pool or the channel has room,
whatever the map of the item holds; when it returns it has deleted every entry
of that map, left every other item, the counter and the capacity as they were
and, for an item with a pool, appended the item to the channel; so `Close`
keeps the invariant, and the item is idle with an empty map. -/
theorem idleEmpty_invariant :
    (∀ n : Nat, (poolOf n).idleEmpty = true) ∧
    (∀ pool : MapPool, pool.idleEmpty = true →
      pool.Checkout.2.idleEmpty = true ∧
        (pool.Checkout.2.heap[pool.Checkout.1]?).map MapItem.m = some []) ∧
    (∀ (pool : MapPool) (item : Nat) (pool' : MapPool), pool.idleEmpty = true →
      MapItem.Close item pool = some pool' →
      pool'.idleEmpty = true ∧ (pool'.heap[item]?).map MapItem.m = some []) ∧
    (∀ (pool : MapPool) (item : Nat),
      (∃ pool', MapItem.Close item pool = some pool') ↔
        ∃ it, pool.heap[item]? = some it ∧ (it.pool = true → pool.list.length < pool.cap)) ∧
    (∀ (pool : MapPool) (item : Nat) (it : MapItem) (pool' : MapPool),
      pool.heap[item]? = some it → MapItem.Close item pool = some pool' →
      pool'.heap[item]? = some { it with m := [] } ∧
        (∀ q : Nat, q ≠ item → pool'.heap[q]? = pool.heap[q]?) ∧
        pool'.heap.length = pool.heap.length ∧
        pool'.misses = pool.misses ∧ pool'.cap = pool.cap ∧
        pool'.list = (if it.pool = true then pool.list ++ [item] else pool.list)) ∧
    (∀ (pool : MapPool) (item : Nat) (m : GoMap), pool.heap[item]? = some ⟨true, m⟩ →
      pool.list.length < pool.cap →
      ∃ pool', MapItem.Close item pool = some pool' ∧
        pool'.heap[item]? = some ⟨true, []⟩ ∧ pool'.list = pool.list ++ [item] ∧
        pool'.Len = pool.Len + 1 ∧ (pool.idleEmpty = true → pool'.idleEmpty = true)) := by
  have hclose : ∀ (pool : MapPool) (item : Nat) (pool' : MapPool), pool.idleEmpty = true →
      MapItem.Close item pool = some pool' →
      pool'.idleEmpty = true ∧ (pool'.heap[item]?).map MapItem.m = some [] := by
    intro pool item pool' h hc
    rw [idleEmpty_iff] at h
    unfold MapItem.Close at hc
    cases hg : pool.heap[item]? with
    | none => simp [hg] at hc
    | some it =>
      have hlt := getElem?_lt' hg
      simp only [hg] at hc
      have hset : ∀ q : Nat, (∃ it' : MapItem, pool.heap[q]? = some it' ∧ it'.m = []) →
          ∃ it' : MapItem,
            (pool.heap.set item { it with m := [] })[q]? = some it' ∧ it'.m = [] := by
        intro q hq
        by_cases hqi : item = q
        · subst hqi
          exact ⟨{ it with m := [] }, by simp [hlt], rfl⟩
        · obtain ⟨it', h1, h2⟩ := hq
          exact ⟨it', by rw [List.getElem?_set_ne hqi]; exact h1, h2⟩
      have hitem : ((pool.heap.set item { it with m := [] })[item]?).map MapItem.m = some [] := by
        simp [hlt]
      split_ifs at hc with hp hfull
      · simp only [Option.some.injEq] at hc
        subst hc
        refine ⟨?_, hitem⟩
        rw [idleEmpty_iff]
        intro q hq
        simp only at hq ⊢
        rcases List.mem_append.1 hq with hq | hq
        · exact hset q (h q hq)
        · simp only [List.mem_singleton] at hq
          subst hq
          exact ⟨{ it with m := [] }, by simp [hlt], rfl⟩
      · simp only [Option.some.injEq] at hc
        subst hc
        refine ⟨?_, hitem⟩
        rw [idleEmpty_iff]
        intro q hq
        exact hset q (h q hq)
  have heffect : ∀ (pool : MapPool) (item : Nat) (it : MapItem) (pool' : MapPool),
      pool.heap[item]? = some it → MapItem.Close item pool = some pool' →
      pool'.heap[item]? = some { it with m := [] } ∧
        (∀ q : Nat, q ≠ item → pool'.heap[q]? = pool.heap[q]?) ∧
        pool'.heap.length = pool.heap.length ∧
        pool'.misses = pool.misses ∧ pool'.cap = pool.cap ∧
        pool'.list = (if it.pool = true then pool.list ++ [item] else pool.list) := by
    intro pool item it pool' hg hc
    have hlt := getElem?_lt' hg
    unfold MapItem.Close at hc
    simp only [hg] at hc
    split_ifs at hc with hp hfull
    · simp only [Option.some.injEq] at hc
      subst hc
      refine ⟨by simp [hlt], ?_, by simp, rfl, rfl, by simp [hp]⟩
      intro q hq
      simp only
      rw [List.getElem?_set_ne (Ne.symm hq)]
    · simp only [Option.some.injEq] at hc
      subst hc
      refine ⟨by simp [hlt], ?_, by simp, rfl, rfl, by simp [hp]⟩
      intro q hq
      simp only
      rw [List.getElem?_set_ne (Ne.symm hq)]
  have hwhen : ∀ (pool : MapPool) (item : Nat),
      (∃ pool', MapItem.Close item pool = some pool') ↔
        ∃ it, pool.heap[item]? = some it ∧
          (it.pool = true → pool.list.length < pool.cap) := by
    intro pool item
    unfold MapItem.Close
    cases hg : pool.heap[item]? with
    | none => simp
    | some it =>
      simp only [Option.some.injEq, exists_eq_left']
      by_cases hp : it.pool = true
      · by_cases hfull : pool.list.length < pool.cap
        · simp [hp, hfull]
        · simp [hp, hfull]
      · simp [hp]
  refine ⟨?_, ?_, hclose, hwhen, heffect, ?_⟩
  · intro n
    exact fill_idleEmpty n _ rfl
  · intro pool h
    rw [idleEmpty_iff] at h
    cases hl : pool.list with
    | nil =>
      rw [Checkout_nil hl]
      refine ⟨?_, by simp⟩
      rw [idleEmpty_iff]
      simp [hl]
    | cons x xs =>
      rw [Checkout_cons hl]
      rw [hl] at h
      refine ⟨?_, ?_⟩
      · rw [idleEmpty_iff]
        intro q hq
        exact h q (by simp [hq])
      · obtain ⟨it, hg, hm⟩ := h x (by simp)
        simp [hg, hm]
  · intro pool item m hg hroom
    obtain ⟨pool', hc⟩ := (hwhen pool item).2 ⟨_, hg, fun _ => hroom⟩
    have he := heffect pool item _ pool' hg hc
    refine ⟨pool', hc, he.1, ?_, ?_, fun hi => (hclose pool item pool' hi hc).1⟩
    · simpa using he.2.2.2.2.2
    · unfold MapPool.Len
      rw [he.2.2.2.2.2]
      simp

/-- C14, witness: the pool as `Decode` leaves it on `{"a":1}`, its one item
checked out and holding the entry `a`; `Close` on the item returns, the entry
is deleted and the pool is again the pool of one idle item with an empty
map. -/
theorem idleEmpty_invariant_witness :
    (⟨0, 1, [], [⟨true, [([97], .iface 1)]⟩]⟩ : MapPool).idleEmpty = true ∧
      (⟨0, 1, [], [⟨true, [([97], .iface 1)]⟩]⟩ : MapPool).heap[0]?
        = some ⟨true, [([97], .iface 1)]⟩ ∧
      MapItem.Close 0 ⟨0, 1, [], [⟨true, [([97], .iface 1)]⟩]⟩ = some (poolOf 1) ∧
      ((poolOf 1).idleEmpty = true ∧ ((poolOf 1).heap[0]?).map MapItem.m = some []) ∧
      (∃ pool', MapItem.Close 0 ⟨0, 1, [], [⟨true, [([97], .iface 1)]⟩]⟩ = some pool' ∧
        pool'.heap[0]? = some ⟨true, []⟩ ∧
        pool'.list = (⟨0, 1, [], [⟨true, [([97], .iface 1)]⟩]⟩ : MapPool).list ++ [0] ∧
        pool'.Len = (⟨0, 1, [], [⟨true, [([97], .iface 1)]⟩]⟩ : MapPool).Len + 1 ∧
        ((⟨0, 1, [], [⟨true, [([97], .iface 1)]⟩]⟩ : MapPool).idleEmpty = true →
          pool'.idleEmpty = true)) :=
  ⟨by decide, by decide, by decide,
    idleEmpty_invariant.2.2.1 ⟨0, 1, [], [⟨true, [([97], .iface 1)]⟩]⟩ 0 (poolOf 1)
      (by decide) (by decide),
    idleEmpty_invariant.2.2.2.2.2 ⟨0, 1, [], [⟨true, [([97], .iface 1)]⟩]⟩ 0
      [([97], .iface 1)] (by decide) (by decide)⟩

/-! ## The value returned with an error -/

theorem storeErr_some {x : Option String} {e : Err} (h : storeErr x = some e) :
    ∃ msg, e = .store msg := by
  cases x with
  | none => simp [storeErr] at h
  | some msg =>
    simp only [storeErr, Option.map_some', Option.some.injEq] at h
    exact ⟨msg, h.symm⟩

theorem decodeString_error_value {σ : Type} {S : ObjectStore σ} {data : List Nat}
    {j j' : Decoder σ} {v : Value} {e : Err} (h : decodeString S data j = .ret v (some e) j')
    (hs : ∀ msg, e ≠ .store msg) : v = .string [] := by
  unfold decodeString at h
  simp only at h
  cases hl : decodeString.loop (List.drop (j.idx + 1) data) (j.idx + 1) SS_NORMAL 0 with
  | panic => simp [hl] at h
  | failed e1 k =>
    simp only [hl, Outcome.ret.injEq] at h
    exact h.1.symm
  | closed k =>
    simp only [hl, Outcome.ret.injEq] at h
    obtain ⟨msg, hm⟩ := storeErr_some h.2.1
    exact absurd hm (hs msg)

theorem decodeNumeric_error_value {σ : Type} {S : ObjectStore σ} {data : List Nat}
    {j j' : Decoder σ} {v : Value} {e : Err} (h : decodeNumeric S data j = .ret v (some e) j') :
    ∃ msg, e = .store msg := by
  unfold decodeNumeric at h
  simp only at h
  cases hl : decodeNumeric.loop (List.drop j.idx data) j.idx with
  | none => simp [hl] at h
  | some k =>
    simp only [hl, Outcome.ret.injEq] at h
    exact storeErr_some h.2.1

theorem decodeTrue_error_value {σ : Type} {S : ObjectStore σ} {data : List Nat}
    {j j' : Decoder σ} {v : Value} {e : Err} (h : decodeTrue S data j = .ret v (some e) j')
    (hs : ∀ msg, e ≠ .store msg) : v = .nil := by
  unfold decodeTrue at h
  simp only at h
  cases h1 : data[j.idx + 1]? with
  | none => simp [h1] at h
  | some c1 =>
  simp only [h1] at h
  split_ifs at h
  · simp only [Outcome.ret.injEq] at h; exact h.1.symm
  cases h2 : data[j.idx + 1 + 1]? with
  | none => simp [h2] at h
  | some c2 =>
  simp only [h2] at h
  split_ifs at h
  · simp only [Outcome.ret.injEq] at h; exact h.1.symm
  cases h3 : data[j.idx + 1 + 1 + 1]? with
  | none => simp [h3] at h
  | some c3 =>
  simp only [h3] at h
  split_ifs at h
  · simp only [Outcome.ret.injEq] at h; exact h.1.symm
  · simp only [Outcome.ret.injEq] at h
    obtain ⟨msg, hm⟩ := storeErr_some h.2.1
    exact absurd hm (hs msg)

theorem decodeFalse_error_value {σ : Type} {S : ObjectStore σ} {data : List Nat}
    {j j' : Decoder σ} {v : Value} {e : Err} (h : decodeFalse S data j = .ret v (some e) j')
    (hs : ∀ msg, e ≠ .store msg) : v = .nil := by
  unfold decodeFalse at h
  simp only at h
  cases h1 : data[j.idx + 1]? with
  | none => simp [h1] at h
  | some c1 =>
  simp only [h1] at h
  split_ifs at h
  · simp only [Outcome.ret.injEq] at h; exact h.1.symm
  cases h2 : data[j.idx + 1 + 1]? with
  | none => simp [h2] at h
  | some c2 =>
  simp only [h2] at h
  split_ifs at h
  · simp only [Outcome.ret.injEq] at h; exact h.1.symm
  cases h3 : data[j.idx + 1 + 1 + 1]? with
  | none => simp [h3] at h
  | some c3 =>
  simp only [h3] at h
  split_ifs at h
  · simp only [Outcome.ret.injEq] at h; exact h.1.symm
  cases h4 : data[j.idx + 1 + 1 + 1 + 1]? with
  | none => simp [h4] at h
  | some c4 =>
  simp only [h4] at h
  split_ifs at h
  · simp only [Outcome.ret.injEq] at h; exact h.1.symm
  · simp only [Outcome.ret.injEq] at h
    obtain ⟨msg, hm⟩ := storeErr_some h.2.1
    exact absurd hm (hs msg)

theorem decodeNull_error_value {σ : Type} {S : ObjectStore σ} {data : List Nat}
    {j j' : Decoder σ} {v : Value} {e : Err} (h : decodeNull S data j = .ret v (some e) j')
    (hs : ∀ msg, e ≠ .store msg) : v = .nil := by
  unfold decodeNull at h
  simp only at h
  cases h1 : data[j.idx + 1]? with
  | none => simp [h1] at h
  | some c1 =>
  simp only [h1] at h
  split_ifs at h
  · simp only [Outcome.ret.injEq] at h; exact h.1.symm
  cases h2 : data[j.idx + 1 + 1]? with
  | none => simp [h2] at h
  | some c2 =>
  simp only [h2] at h
  split_ifs at h
  · simp only [Outcome.ret.injEq] at h; exact h.1.symm
  cases h3 : data[j.idx + 1 + 1 + 1]? with
  | none => simp [h3] at h
  | some c3 =>
  simp only [h3] at h
  split_ifs at h
  · simp only [Outcome.ret.injEq] at h; exact h.1.symm
  · simp only [Outcome.ret.injEq] at h
    obtain ⟨msg, hm⟩ := storeErr_some h.2.1
    exact absurd hm (hs msg)

theorem decodeObject_loop_error_value {σ : Type} (S : ObjectStore σ) (data : List Nat)
    (any : Decoder σ → Outcome σ) (p : Nat) :
    ∀ (n : Nat) (j : Decoder σ) (v : Value) (e : Err) (j' : Decoder σ),
      decodeObject.loop S data any p n j = .ret v (some e) j' → v = .nil ∨ v = .string [] := by
  intro n
  induction n with
  | zero => intro j v e j' h; simp [decodeObject.loop] at h
  | succ n ih =>
    intro j v e j' h
    rw [decodeObject.loop] at h
    cases h1 : skipWhitespace data j with
    | none => simp [h1] at h
    | some j1 =>
    simp only [h1] at h
    cases h2 : data[j1.idx]? with
    | none => simp [h2] at h
    | some c =>
    simp only [h2] at h
    split_ifs at h
    · simp at h
    cases h3 : any { j1 with lastTypeId := JT_INVALID } with
    | panic => simp [h3] at h
    | outOfFuel => simp [h3] at h
    | ret v1 e1 j2 =>
    simp only [h3] at h
    cases e1 with
    | some err =>
      simp only [Outcome.ret.injEq] at h
      exact Or.inr h.1.symm
    | none =>
    simp only at h
    split_ifs at h
    · simp only [Outcome.ret.injEq] at h; exact Or.inl h.1.symm
    cases h4 : skipWhitespace data j2 with
    | none => simp [h4] at h
    | some j3 =>
    simp only [h4] at h
    cases h5 : data[j3.idx]? with
    | none => simp [h5] at h
    | some c5 =>
    simp only [h5] at h
    split_ifs at h
    · simp only [Outcome.ret.injEq] at h; exact Or.inl h.1.symm
    cases h6 : skipWhitespace data { j3 with idx := j3.idx + 1 } with
    | none => simp [h6] at h
    | some j4 =>
    simp only [h6] at h
    cases h7 : any j4 with
    | panic => simp [h7] at h
    | outOfFuel => simp [h7] at h
    | ret v2 e2 j5 =>
    simp only [h7] at h
    cases e2 with
    | some err =>
      simp only [Outcome.ret.injEq] at h; exact Or.inl h.1.symm
    | none =>
    simp only at h
    rcases h8 : objectAddKey S p v1 v2 j5 with ⟨_ | err, j6⟩
    · simp only [h8] at h
      cases h9 : skipWhitespace data j6 with
      | none => simp [h9] at h
      | some j7 =>
      simp only [h9] at h
      cases h10 : data[j7.idx]? with
      | none => simp [h10] at h
      | some c10 =>
      simp only [h10] at h
      split_ifs at h
      · simp at h
      · exact ih _ _ _ _ h
      · simp only [Outcome.ret.injEq] at h; exact Or.inl h.1.symm
    · simp only [h8, Outcome.ret.injEq] at h
      exact Or.inl h.1.symm

theorem decodeArray_loop_error_value {σ : Type} (S : ObjectStore σ) (data : List Nat)
    (any : Decoder σ → Outcome σ) (a : Value) :
    ∀ (n len : Nat) (j : Decoder σ) (v : Value) (e : Err) (j' : Decoder σ),
      decodeArray.loop S data any a n len j = .ret v (some e) j' → v = .nil := by
  intro n
  induction n with
  | zero => intro len j v e j' h; simp [decodeArray.loop] at h
  | succ n ih =>
    intro len j v e j' h
    rw [decodeArray.loop] at h
    cases h1 : skipWhitespace data j with
    | none => simp [h1] at h
    | some j1 =>
    simp only [h1] at h
    cases h2 : data[j1.idx]? with
    | none => simp [h2] at h
    | some c =>
    simp only [h2] at h
    split_ifs at h
    · simp at h
    · simp only [Outcome.ret.injEq] at h; exact h.1.symm
    cases h3 : any j1 with
    | panic => simp [h3] at h
    | outOfFuel => simp [h3] at h
    | ret v1 e1 j2 =>
    simp only [h3] at h
    cases e1 with
    | some err =>
      simp only [Outcome.ret.injEq] at h; exact h.1.symm
    | none =>
    simp only at h
    cases h4 : (S.ArrayAddItem j2.store a v1).1 with
    | some err =>
      simp only [h4, Outcome.ret.injEq] at h; exact h.1.symm
    | none =>
    simp only [h4] at h
    cases h5 : skipWhitespace data { j2 with store := (S.ArrayAddItem j2.store a v1).2 } with
    | none => simp [h5] at h
    | some j3 =>
    simp only [h5] at h
    cases h6 : data[j3.idx]? with
    | none => simp [h6] at h
    | some c6 =>
    simp only [h6] at h
    split_ifs at h
    · simp at h
    · exact ih _ _ _ _ _ h
    · simp only [Outcome.ret.injEq] at h; exact h.1.symm

theorem decodeArray_error_value {σ : Type} {S : ObjectStore σ} {data : List Nat}
    {any : Decoder σ → Outcome σ} {n : Nat} {j j' : Decoder σ} {v : Value} {e : Err}
    (h : decodeArray S data any n j = .ret v (some e) j') : v = .nil := by
  unfold decodeArray at h
  simp only at h
  cases h3 : (S.NewArray j.store).2.1 with
  | some err => simp only [h3, Outcome.ret.injEq] at h; exact h.1.symm
  | none =>
    simp only [h3] at h
    exact decodeArray_loop_error_value S data _ _ _ _ _ _ _ _ h

theorem decodeAny_error_value {σ : Type} (S : ObjectStore σ) (data : List Nat) :
    ∀ (n : Nat) (j : Decoder σ) (v : Value) (e : Err) (j' : Decoder σ),
      decodeAny S data n j = .ret v (some e) j' → (∀ msg, e ≠ .store msg) →
      v = .nil ∨ v = .string [] := by
  intro n
  induction n with
  | zero => intro j v e j' h; simp [decodeAny] at h
  | succ n ih =>
    intro j v e j' h hs
    rw [decodeAny] at h
    cases h2 : data[j.idx]? with
    | none => simp [h2] at h
    | some c =>
    simp only [h2] at h
    split_ifs at h
    · exact Or.inr (decodeString_error_value h hs)
    · obtain ⟨msg, hm⟩ := decodeNumeric_error_value h
      exact absurd hm (hs msg)
    · exact Or.inl (decodeArray_error_value h)
    · unfold decodeObject at h
      exact decodeObject_loop_error_value S data _ _ _ _ _ _ _ h
    · exact Or.inl (decodeTrue_error_value h hs)
    · exact Or.inl (decodeFalse_error_value h hs)
    · exact Or.inl (decodeNull_error_value h hs)
    · exact ih _ _ _ _ h hs
    · simp only [Outcome.ret.injEq] at h; exact Or.inl h.1.symm

theorem keyGuard_ok {σ : Type} {any : Decoder σ → Outcome σ} {j j' : Decoder σ} {v : Value}
    (h : any j = .ret v none j') : keyGuard any j = .ret v none j' := by
  unfold keyGuard
  rw [h]

theorem keyGuard_key {σ : Type} {any : Decoder σ → Outcome σ} {j j' : Decoder σ} {v : Value}
    {e : Err} (h : any j = .ret v (some e) j') (hj : j.lastTypeId = JT_INVALID) :
    keyGuard any j = .panic := by
  unfold keyGuard
  rw [h]
  simp only [hj, if_true]

theorem keyGuard_value {σ : Type} {any : Decoder σ → Outcome σ} {j j' : Decoder σ} {v : Value}
    {e : Err} (h : any j = .ret v (some e) j') (hj : j.lastTypeId ≠ JT_INVALID) :
    keyGuard any j = .ret v (some e) j' := by
  unfold keyGuard
  rw [h]
  simp only [hj, if_false]

theorem decodeObject_loop_error_nil {σ : Type} (S : ObjectStore σ) (data : List Nat)
    (any : Decoder σ → Outcome σ) (p : Nat) :
    ∀ (n : Nat) (j : Decoder σ) (v : Value) (e : Err) (j' : Decoder σ),
      decodeObject.loop S data any p n j = .ret v (some e) j' →
      decodeObject.loop S data (keyGuard any) p n j ≠ .panic → v = .nil := by
  intro n
  induction n with
  | zero => intro j v e j' h; simp [decodeObject.loop] at h
  | succ n ih =>
    intro j v e j' h hg
    rw [decodeObject.loop] at h hg
    cases h1 : skipWhitespace data j with
    | none => simp [h1] at h
    | some j1 =>
    simp only [h1] at h hg
    cases h2 : data[j1.idx]? with
    | none => simp [h2] at h
    | some c =>
    simp only [h2] at h hg
    split_ifs at h hg
    · simp at h
    cases h3 : any { j1 with lastTypeId := JT_INVALID } with
    | panic => simp [h3] at h
    | outOfFuel => simp [h3] at h
    | ret v1 e1 j2 =>
    simp only [h3] at h
    cases e1 with
    | some err =>
      rw [keyGuard_key h3 rfl] at hg
      exact absurd rfl hg
    | none =>
    rw [keyGuard_ok h3] at hg
    simp only at h hg
    split_ifs at h hg
    · simp only [Outcome.ret.injEq] at h; exact h.1.symm
    cases h4 : skipWhitespace data j2 with
    | none => simp [h4] at h
    | some j3 =>
    simp only [h4] at h hg
    cases h5 : data[j3.idx]? with
    | none => simp [h5] at h
    | some c5 =>
    simp only [h5] at h hg
    split_ifs at h hg
    · simp only [Outcome.ret.injEq] at h; exact h.1.symm
    cases h6 : skipWhitespace data { j3 with idx := j3.idx + 1 } with
    | none => simp [h6] at h
    | some j4 =>
    simp only [h6] at h hg
    cases h7 : any j4 with
    | panic => simp [h7] at h
    | outOfFuel => simp [h7] at h
    | ret v2 e2 j5 =>
    simp only [h7] at h
    cases e2 with
    | some err =>
      simp only [Outcome.ret.injEq] at h; exact h.1.symm
    | none =>
    rw [keyGuard_ok h7] at hg
    simp only at h hg
    rcases h8 : objectAddKey S p v1 v2 j5 with ⟨_ | err, j6⟩
    · simp only [h8] at h hg
      cases h9 : skipWhitespace data j6 with
      | none => simp [h9] at h
      | some j7 =>
      simp only [h9] at h hg
      cases h10 : data[j7.idx]? with
      | none => simp [h10] at h
      | some c10 =>
      simp only [h10] at h hg
      split_ifs at h hg
      · simp at h
      · exact ih _ _ _ _ h hg
      · simp only [Outcome.ret.injEq] at h; exact h.1.symm
    · simp only [h8, Outcome.ret.injEq] at h
      exact h.1.symm
theorem decodeObject_loop_keyGuard_panic {σ : Type} (S : ObjectStore σ) (data : List Nat)
    (any : Decoder σ → Outcome σ) (p : Nat) :
    ∀ (n : Nat) (j : Decoder σ) (v : Value) (e : Err) (j' : Decoder σ),
      decodeObject.loop S data any p n j = .ret v (some e) j' →
      decodeObject.loop S data (keyGuard any) p n j = .panic → v = .string [] := by
  intro n
  induction n with
  | zero => intro j v e j' h; simp [decodeObject.loop] at h
  | succ n ih =>
    intro j v e j' h hg
    rw [decodeObject.loop] at h hg
    cases h1 : skipWhitespace data j with
    | none => simp [h1] at h
    | some j1 =>
    simp only [h1] at h hg
    cases h2 : data[j1.idx]? with
    | none => simp [h2] at h
    | some c =>
    simp only [h2] at h hg
    split_ifs at h hg
    cases h3 : any { j1 with lastTypeId := JT_INVALID } with
    | panic => simp [h3] at h
    | outOfFuel => simp [h3] at h
    | ret v1 e1 j2 =>
    simp only [h3] at h
    cases e1 with
    | some err =>
      simp only [Outcome.ret.injEq] at h
      exact h.1.symm
    | none =>
    rw [keyGuard_ok h3] at hg
    simp only at h hg
    by_cases hu : j2.lastTypeId = JT_UTF8
    swap
    · simp [hu] at hg
    simp only [hu, ne_eq, not_true_eq_false, if_false] at h hg
    cases h4 : skipWhitespace data j2 with
    | none => simp [h4] at h
    | some j3 =>
    have e3 := (skipWhitespace_bound h4).1
    simp only [h4] at h hg
    cases h5 : data[j3.idx]? with
    | none => simp [h5] at h
    | some c5 =>
    simp only [h5] at h hg
    by_cases hc5 : c5 = 58
    swap
    · simp [hc5] at hg
    simp only [hc5, ne_eq, not_true_eq_false, if_false] at h hg
    cases h6 : skipWhitespace data { j3 with idx := j3.idx + 1 } with
    | none => simp [h6] at h
    | some j4 =>
    have e4 := (skipWhitespace_bound h6).1
    have hl4 : j4.lastTypeId ≠ JT_INVALID := by
      rw [e4]
      simp only
      rw [e3]
      simp only
      rw [hu]
      decide
    simp only [h6] at h hg
    cases h7 : any j4 with
    | panic => simp [h7] at h
    | outOfFuel => simp [h7] at h
    | ret v2 e2 j5 =>
    simp only [h7] at h
    cases e2 with
    | some err =>
      rw [keyGuard_value h7 hl4] at hg
      simp at hg
    | none =>
    rw [keyGuard_ok h7] at hg
    simp only at h hg
    rcases h8 : objectAddKey S p v1 v2 j5 with ⟨_ | err, j6⟩
    · simp only [h8] at h hg
      cases h9 : skipWhitespace data j6 with
      | none => simp [h9] at h
      | some j7 =>
      simp only [h9] at h hg
      cases h10 : data[j7.idx]? with
      | none => simp [h10] at h
      | some c10 =>
      simp only [h10] at h hg
      by_cases hc125 : c10 = 125
      · simp [hc125] at hg
      by_cases hc44 : c10 = 44
      · simp only [hc125, hc44, if_false, if_true] at h hg
        simp only [Nat.reduceEqDiff, if_false] at h hg
        exact ih _ _ _ _ h hg
      · simp [hc125, hc44] at hg
    · simp only [h8] at hg
      simp at hg

/-- C11, counterexample: an error raised inside the root-level string literal
`"a` LF `"` is returned with the empty Go string as root value, which is not
nil. -/
theorem Decode_error_with_value :
    Decode logStore [34, 97, 10, 34] (NewDecoder [] (poolOf 1))
        = .ret (.string []) (some (.unexpectedCharacterInString 10))
            ⟨[], ⟨0, 1, [0], [⟨true, []⟩]⟩, [], 3, JT_INVALID⟩ ∧
      Value.string [] ≠ Value.nil := by
  decide

/-- C11, amended: the root value that `Decode` returns with an error, for a
document that starts (after whitespace) with the byte `c`. A root-level array
returns nil with every error. A root-level object returns nil with every error,
whichever of its entries and whichever step of the entry it comes from (the
type of a key, the colon, the value, `ObjectAddKey`, the separator), unless the
error is the one returned by the call of `decodeAny` for one of its own keys:
the hypothesis says that the run with those failures marked does not stop. A
root that is neither a string literal nor an object returns nil with an error
that no store operation made. A root-level string literal returns the empty
string with such an error, the zero value of the `string` that `decodeString`
returns. The second part is the statement for the loop of `decodeObject` at any
depth, in any state. -/
theorem Decode_error_value {σ : Type} (S : ObjectStore σ) :
    (∀ (data : List Nat) (j : Decoder σ) (v : Value) (e : Err) (j' : Decoder σ)
        (ws : List Nat) (c : Nat) (rest : List Nat),
      Decode S data j = .ret v (some e) j' → data = ws ++ c :: rest →
      (∀ w ∈ ws, isWhitespace w = true) → isWhitespace c = false →
      (c = 91 → v = .nil) ∧
      (c = 123 →
        decodeObject S data (keyGuard (decodeAny S data (rest.length + 1))) (rest.length + 1)
          j.pool.Checkout.1
          { store := j.store, pool := j.pool.Checkout.2,
            checked := j.checked ++ [j.pool.Checkout.1], idx := ws.length,
            lastTypeId := JT_INVALID } ≠ .panic →
        v = .nil) ∧
      ((∀ msg, e ≠ .store msg) → c ≠ 34 → c ≠ 123 → v = .nil) ∧
      ((∀ msg, e ≠ .store msg) → c = 34 → v = .string [])) ∧
    (∀ (data : List Nat) (any : Decoder σ → Outcome σ) (p n : Nat) (j : Decoder σ)
        (v : Value) (e : Err) (j' : Decoder σ),
      decodeObject.loop S data any p n j = .ret v (some e) j' →
      decodeObject.loop S data (keyGuard any) p n j ≠ .panic → v = .nil) := by
  refine ⟨?_, fun data any p n j v e j' h hg =>
    decodeObject_loop_error_nil S data any p n j v e j' h hg⟩
  intro data j v e j' ws c rest h hd hws hc
  subst hd
  rw [Decode_skip S ws _ hws, List.length_cons] at h
  refine ⟨?_, ?_, ?_, ?_⟩
  · intro h91
    subst h91
    rw [decodeAny] at h
    simp only at h
    rw [getElem?_append_length ws 91 rest] at h
    simp only [Nat.reduceEqDiff, if_false, Nat.reduceLeDiff, decide_True, decide_False,
      Bool.and_false, Bool.or_false, Bool.false_eq_true, if_true] at h
    exact decodeArray_error_value h
  · intro h123 hg
    subst h123
    rw [decodeAny_brace S _ _ _ (getElem?_append_length ws 123 rest)] at h
    unfold decodeObject at h hg
    exact decodeObject_loop_error_nil S _ _ _ _ _ _ _ _ h hg
  · intro hs h34 h123
    rw [decodeAny] at h
    simp only at h
    rw [getElem?_append_length ws c rest] at h
    simp only [h34, h123, hc, if_false, Bool.false_eq_true] at h
    split_ifs at h
    · obtain ⟨msg, hm⟩ := decodeNumeric_error_value h
      exact absurd hm (hs msg)
    · exact decodeArray_error_value h
    · exact decodeTrue_error_value h hs
    · exact decodeFalse_error_value h hs
    · exact decodeNull_error_value h hs
    · simp only [Outcome.ret.injEq] at h; exact h.1.symm
  · intro hs h34
    subst h34
    rw [decodeAny] at h
    simp only at h
    rw [getElem?_append_length ws 34 rest] at h
    simp only [if_true] at h
    exact decodeString_error_value h hs
/-- C11, witness: the root-level object `{"a":tx}`, whose key decodes and whose
value is a misspelled literal, returns nil with the error of the value; the run
with the key failures marked does not stop there, while on `{t:1}`, where the
key itself fails to decode, it does. -/
theorem Decode_error_value_witness :
    Decode logStore ([] ++ 123 :: [34, 97, 34, 58, 116, 120, 125]) (NewDecoder [] (poolOf 1))
        = .ret .nil (some (.invalidLiteral .true))
            ⟨[.NewString [97]], ⟨0, 1, [], [⟨true, []⟩]⟩, [0], 6, JT_UTF8⟩ ∧
      decodeObject logStore [123, 34, 97, 34, 58, 116, 120, 125]
          (keyGuard (decodeAny logStore [123, 34, 97, 34, 58, 116, 120, 125] 8)) 8 0
          ⟨[], ⟨0, 1, [], [⟨true, []⟩]⟩, [0], 0, JT_INVALID⟩ ≠ .panic ∧
      decodeObject logStore [123, 116, 58, 49, 125]
          (keyGuard (decodeAny logStore [123, 116, 58, 49, 125] 5)) 5 0
          ⟨[], ⟨0, 1, [], [⟨true, []⟩]⟩, [0], 0, JT_INVALID⟩ = .panic ∧
      Value.nil = Value.nil :=
  (fun h => ⟨h, by decide, by decide,
    ((Decode_error_value logStore).1 ([] ++ 123 :: [34, 97, 34, 58, 116, 120, 125])
      (NewDecoder [] (poolOf 1)) .nil (.invalidLiteral .true)
      ⟨[.NewString [97]], ⟨0, 1, [], [⟨true, []⟩]⟩, [0], 6, JT_UTF8⟩ [] 123
      [34, 97, 34, 58, 116, 120, 125] h rfl (by decide) (by decide)).2.1 rfl (by decide)⟩)
    (by decide)

/-! ## Arrays -/

theorem decodeArray_loop_bracket {σ : Type} (S : ObjectStore σ) (data : List Nat)
    (any : Decoder σ → Outcome σ) (newObj : Value) (n len : Nat) (j : Decoder σ)
    (ws rest : List Nat) (hws : ∀ w ∈ ws, isWhitespace w = true)
    (h : data.drop j.idx = ws ++ 93 :: rest) :
    decodeArray.loop S data any newObj (n + 1) len j
      = if len = 0 then .ret newObj none { j with idx := j.idx + ws.length + 1 }
        else .ret .nil (some (.unexpectedCharacterInArray len))
          { j with idx := j.idx + ws.length } := by
  rw [decodeArray.loop, skipWhitespace_eq data j ws hws 93 (by decide) rest h]
  simp only
  rw [getElem?_of_drop_eq h]
  simp only [if_true]

theorem decodeNumeric_loop_eq (num : List Nat) (hnum : ∀ d ∈ num, isNumericChar d = true)
    (x : Nat) (hx : isNumericChar x = false) (rest : List Nat) (i : Nat) :
    decodeNumeric.loop (num ++ x :: rest) i = some (i + num.length) := by
  induction num generalizing i with
  | nil => simp [decodeNumeric.loop, hx]
  | cons d ds ih =>
    rw [List.cons_append, decodeNumeric.loop, if_pos (hnum d (by simp)),
      ih (fun y hy => hnum y (by simp [hy]))]
    simp only [List.length_cons]
    congr 1
    omega

theorem decodeNumeric_literal {σ : Type} (S : ObjectStore σ) (data : List Nat) (j : Decoder σ)
    (num : List Nat) (hnum : ∀ d ∈ num, isNumericChar d = true) (x : Nat)
    (hx : isNumericChar x = false) (rest : List Nat)
    (h : data.drop j.idx = num ++ x :: rest) :
    decodeNumeric S data j
      = .ret (S.NewNumeric j.store num).1 (storeErr (S.NewNumeric j.store num).2.1)
          { j with idx := j.idx + num.length, lastTypeId := JT_NUMERIC,
                   store := (S.NewNumeric j.store num).2.2 } := by
  unfold decodeNumeric
  simp only
  rw [h, decodeNumeric_loop_eq num hnum x hx rest]
  simp only
  rw [slice_of_drop_eq h]

theorem decodeAny_bracket {σ : Type} (S : ObjectStore σ) (data : List Nat) (fuel : Nat)
    (j : Decoder σ) (h : data[j.idx]? = some 91) :
    decodeAny S data (fuel + 1) j = decodeArray S data (decodeAny S data fuel) fuel j := by
  rw [decodeAny, h]
  simp

theorem isWhitespace_not_numeric {w : Nat} (h : isWhitespace w = true) :
    isNumericChar w = false := by
  have := isWhitespace_cases h
  rcases this with h | h | h | h <;> subst h <;> decide

theorem head_after_number (ws2 : List Nat) (hws : ∀ w ∈ ws2, isWhitespace w = true)
    (tail : List Nat) :
    ∃ x t, ws2 ++ 44 :: tail = x :: t ∧ isNumericChar x = false := by
  cases ws2 with
  | nil => exact ⟨44, tail, rfl, by decide⟩
  | cons w ws => exact ⟨w, ws ++ 44 :: tail, rfl, isWhitespace_not_numeric (hws w (by simp))⟩

theorem decodeArray_loop_trailing_comma {σ : Type} (S : ObjectStore σ) (data : List Nat)
    (fuel n len : Nat) (newObj : Value) (j : Decoder σ) (ws1 ds ws2 ws3 rest : List Nat)
    (c : Nat) (h1 : ∀ w ∈ ws1, isWhitespace w = true) (hc : (48 ≤ c ∧ c ≤ 57) ∨ c = 45)
    (hds : ∀ d ∈ ds, isNumericChar d = true) (h2 : ∀ w ∈ ws2, isWhitespace w = true)
    (h3 : ∀ w ∈ ws3, isWhitespace w = true)
    (hN : (S.NewNumeric j.store (c :: ds)).2.1 = none)
    (hI : (S.ArrayAddItem (S.NewNumeric j.store (c :: ds)).2.2 newObj
      (S.NewNumeric j.store (c :: ds)).1).1 = none)
    (h : data.drop j.idx = ws1 ++ c :: (ds ++ (ws2 ++ 44 :: (ws3 ++ 93 :: rest)))) :
    decodeArray.loop S data (decodeAny S data (fuel + 1)) newObj (n + 2) len j
      = .ret .nil (some (.unexpectedCharacterInArray (len + 1)))
          { j with
            store := (S.ArrayAddItem (S.NewNumeric j.store (c :: ds)).2.2 newObj
              (S.NewNumeric j.store (c :: ds)).1).2,
            idx := j.idx + ws1.length + (ds.length + 1) + ws2.length + 1 + ws3.length,
            lastTypeId := JT_NUMERIC } := by
  have hcw : isWhitespace c = false := by
    simp only [isWhitespace, Bool.or_eq_false_iff, decide_eq_false_iff_not]
    omega
  have hcn : isNumericChar c = true := by
    simp only [isNumericChar, Bool.or_eq_true, Bool.and_eq_true, decide_eq_true_eq]
    omega
  have hnum : ∀ d ∈ c :: ds, isNumericChar d = true := by
    intro d hd
    rcases List.mem_cons.1 hd with rfl | hd
    · exact hcn
    · exact hds d hd
  have hd1 := drop_add_of_drop_eq h
  have hd2 : data.drop (j.idx + ws1.length + (ds.length + 1))
      = ws2 ++ 44 :: (ws3 ++ 93 :: rest) := by
    have e : c :: (ds ++ (ws2 ++ 44 :: (ws3 ++ 93 :: rest)))
        = (c :: ds) ++ (ws2 ++ 44 :: (ws3 ++ 93 :: rest)) := by simp
    rw [e] at hd1
    have := drop_add_of_drop_eq hd1
    simpa using this
  have hd3 : data.drop (j.idx + ws1.length + (ds.length + 1) + ws2.length + 1)
      = ws3 ++ 93 :: rest := by
    have e : ws2 ++ 44 :: (ws3 ++ 93 :: rest) = (ws2 ++ [44]) ++ (ws3 ++ 93 :: rest) := by simp
    rw [e] at hd2
    have := drop_add_of_drop_eq hd2
    simp only [List.length_append, List.length_cons, List.length_nil] at this
    rw [← this]
    congr 1
  obtain ⟨x, t, hxt, hx⟩ := head_after_number ws2 h2 (ws3 ++ 93 :: rest)
  have hd1' : data.drop (j.idx + ws1.length) = (c :: ds) ++ x :: t := by
    rw [hd1, ← hxt]
    simp
  have hc93 : c ≠ 93 := by omega
  rw [decodeArray.loop, skipWhitespace_eq data j ws1 h1 c hcw _ h]
  simp only
  rw [(drop_cons_getElem? hd1).1]
  simp only [hc93, if_false]
  rw [decodeAny_digit S data fuel _ c hc (by simpa using (drop_cons_getElem? hd1).1),
    decodeNumeric_literal S data _ (c :: ds) hnum x hx t (by simpa using hd1')]
  simp only [hN, storeErr, Option.map_none', hI]
  rw [skipWhitespace_eq data _ ws2 h2 44 (by decide) (ws3 ++ 93 :: rest)
    (by simpa using hd2)]
  simp only
  rw [getElem?_of_drop_eq (by simpa using hd2)]
  simp only [Nat.reduceEqDiff, if_false, if_true]
  rw [decodeArray_loop_bracket S data _ newObj n (len + 1) _ ws3 rest h3
    (by simpa using hd3)]
  simp only [Nat.add_one_ne_zero, if_false, List.length_cons]

theorem decodeArray_loop_trailing_comma_of_le {σ : Type} (S : ObjectStore σ)
    (data : List Nat) (f m len : Nat) (newObj : Value) (j : Decoder σ)
    (ws1 ds ws2 ws3 rest : List Nat) (c : Nat) (hf : 1 ≤ f) (hm : 2 ≤ m)
    (h1 : ∀ w ∈ ws1, isWhitespace w = true) (hc : (48 ≤ c ∧ c ≤ 57) ∨ c = 45)
    (hds : ∀ d ∈ ds, isNumericChar d = true) (h2 : ∀ w ∈ ws2, isWhitespace w = true)
    (h3 : ∀ w ∈ ws3, isWhitespace w = true)
    (hN : (S.NewNumeric j.store (c :: ds)).2.1 = none)
    (hI : (S.ArrayAddItem (S.NewNumeric j.store (c :: ds)).2.2 newObj
      (S.NewNumeric j.store (c :: ds)).1).1 = none)
    (h : data.drop j.idx = ws1 ++ c :: (ds ++ (ws2 ++ 44 :: (ws3 ++ 93 :: rest)))) :
    decodeArray.loop S data (decodeAny S data f) newObj m len j
      = .ret .nil (some (.unexpectedCharacterInArray (len + 1)))
          { j with
            store := (S.ArrayAddItem (S.NewNumeric j.store (c :: ds)).2.2 newObj
              (S.NewNumeric j.store (c :: ds)).1).2,
            idx := j.idx + ws1.length + (ds.length + 1) + ws2.length + 1 + ws3.length,
            lastTypeId := JT_NUMERIC } := by
  obtain ⟨fuel, rfl⟩ : ∃ fuel, f = fuel + 1 := ⟨f - 1, by omega⟩
  obtain ⟨n, rfl⟩ : ∃ n, m = n + 2 := ⟨m - 2, by omega⟩
  exact decodeArray_loop_trailing_comma S data fuel n len newObj j ws1 ds ws2 ws3 rest c
    h1 hc hds h2 h3 hN hI h

/-! ## What the string scanner accepts -/

theorem decodeString_loop_hexLast_of_le {c : Nat} (cs : List Nat) (i esc : Nat)
    (h : isHexDigit c = true) (h4 : 4 ≤ esc) :
    decodeString.loop (c :: cs) i SS_ESC esc = decodeString.loop cs (i + 1) SS_NORMAL 0 := by
  rw [decodeString.loop]
  have h0 : 0 < esc := by omega
  have h5 : 4 < esc + 1 := by omega
  simp [h, h0, h5, SS_ESC, SS_NORMAL]

theorem StrBody.append {a b : List Nat} (ha : StrBody a) (hb : StrBody b) : StrBody (a ++ b) := by
  induction ha with
  | nil => exact hb
  | plain c tl h1 h2 h3 _ ih => exact .plain c _ h1 h2 h3 ih
  | escape c tl h1 _ ih => exact .escape c _ h1 ih
  | unicode a b c d tl h1 h2 h3 h4 _ ih => exact .unicode a b c d _ h1 h2 h3 h4 ih

theorem decodeString_loop_closed_body :
    ∀ (n : Nat) (l : List Nat) (i k : Nat), l.length ≤ n →
      decodeString.loop l i SS_NORMAL 0 = .closed k →
      ∃ body rest, l = body ++ 34 :: rest ∧ StrBody body ∧ k = i + body.length + 1 := by
  intro n
  induction n using Nat.strong_induction_on with
  | _ n ih =>
  intro l i k hn h
  cases l with
  | nil => simp [decodeString.loop] at h
  | cons c cs =>
  simp only [List.length_cons] at hn
  by_cases hq : c = 34
  · subst hq
    rw [decodeString_loop_quote] at h
    simp only [StringScan.closed.injEq] at h
    exact ⟨[], cs, rfl, .nil, by simp; omega⟩
  by_cases hb : c = 92
  · subst hb
    rw [decodeString_loop_backslash] at h
    cases cs with
    | nil => simp [decodeString.loop] at h
    | cons x cs1 =>
    simp only [List.length_cons] at hn
    by_cases hx : isSimpleEscape x = true
    · rw [decodeString_loop_escape _ _ hx] at h
      obtain ⟨body, rest, hl, hbody, hk⟩ := ih (n - 1) (by omega) cs1 _ k (by omega) h
      refine ⟨92 :: x :: body, rest, by simp [hl], .escape x body hx hbody, ?_⟩
      simp only [List.length_cons]
      omega
    by_cases hu : x = 117
    · subst hu
      rw [decodeString_loop_u] at h
      cases cs1 with
      | nil => simp [decodeString.loop] at h
      | cons a cs2 =>
      by_cases ha : isHexDigit a = true
      swap
      · rw [decodeString_loop_badHex _ _ _ (by simpa using ha) (by omega)] at h
        cases h
      rw [decodeString_loop_hex _ _ _ ha (by omega) (by omega)] at h
      cases cs2 with
      | nil => simp [decodeString.loop] at h
      | cons b cs3 =>
      by_cases hb' : isHexDigit b = true
      swap
      · rw [decodeString_loop_badHex _ _ _ (by simpa using hb') (by omega)] at h
        cases h
      rw [decodeString_loop_hex _ _ _ hb' (by omega) (by omega)] at h
      cases cs3 with
      | nil => simp [decodeString.loop] at h
      | cons c' cs4 =>
      by_cases hc' : isHexDigit c' = true
      swap
      · rw [decodeString_loop_badHex _ _ _ (by simpa using hc') (by omega)] at h
        cases h
      rw [decodeString_loop_hex _ _ _ hc' (by omega) (by omega)] at h
      cases cs4 with
      | nil => simp [decodeString.loop] at h
      | cons d cs5 =>
      by_cases hd : isHexDigit d = true
      swap
      · rw [decodeString_loop_badHex _ _ _ (by simpa using hd) (by omega)] at h
        cases h
      rw [decodeString_loop_hexLast_of_le _ _ _ hd (by omega)] at h
      simp only [List.length_cons] at hn
      obtain ⟨body, rest, hl, hbody, hk⟩ := ih (n - 1) (by omega) cs5 _ k (by omega) h
      refine ⟨92 :: 117 :: a :: b :: c' :: d :: body, rest, by simp [hl],
        .unicode a b c' d body ha hb' hc' hd hbody, ?_⟩
      simp only [List.length_cons]
      omega
    · rw [decodeString_loop_badEscape _ _ (by simpa using hx) hu] at h
      cases h
  by_cases hp : 32 ≤ c
  · rw [decodeString_loop_plain _ _ _ hp hq hb] at h
    obtain ⟨body, rest, hl, hbody, hk⟩ := ih (n - 1) (by omega) cs _ k (by omega) h
    refine ⟨c :: body, rest, by simp [hl], .plain c body hp hq hb hbody, ?_⟩
    simp only [List.length_cons]
    omega
  · rw [decodeString_loop_control _ _ _ (by omega)] at h
    cases h

theorem decodeString_loop_failed_kind :
    ∀ (l : List Nat) (i s k : Nat) (e : Err) (i' : Nat),
      decodeString.loop l i s k = .failed e i' → ∀ m : String, e ≠ .store m := by
  intro l
  induction l with
  | nil =>
    intro i s k e i' h
    simp [decodeString.loop] at h
  | cons c cs ih =>
    intro i s k e i' h
    rw [decodeString.loop] at h
    split_ifs at h <;>
      first
      | exact ih _ _ _ _ _ h
      | (simp only [StringScan.failed.injEq] at h
         obtain ⟨rfl, _⟩ := h
         intro m hm
         cases hm)

theorem drop_eq_cons_of_getElem? {l : List Nat} {i c : Nat} (h : l[i]? = some c) :
    l.drop i = c :: l.drop (i + 1) := by
  have hlt := getElem?_lt h
  rw [List.drop_eq_getElem_cons hlt]
  rw [List.getElem?_eq_getElem hlt] at h
  simp only [Option.some.injEq] at h
  rw [h]

theorem decodeString_accepted {σ : Type} (S : ObjectStore σ) (data : List Nat) (j : Decoder σ)
    (v : Value) (e : Option Err) (j' : Decoder σ)
    (h : decodeString S data j = .ret v e j')
    (hacc : e = none ∨ ∃ m, e = some (.store m)) :
    ∃ body, StrBody body ∧
      data.drop (j.idx + 1) = body ++ 34 :: data.drop j'.idx ∧
      slice data (j.idx + 1) (j'.idx - 1) = body ∧
      v = .string (S.NewString j.store body).1 ∧
      e = storeErr (S.NewString j.store body).2.1 ∧
      j' = { j with lastTypeId := JT_UTF8, idx := j.idx + body.length + 2,
                    store := (S.NewString j.store body).2.2 } := by
  unfold decodeString at h
  simp only at h
  cases hl : decodeString.loop (data.drop (j.idx + 1)) (j.idx + 1) SS_NORMAL 0 with
  | panic =>
    rw [hl] at h
    cases h
  | failed err i =>
    rw [hl] at h
    simp only [Outcome.ret.injEq] at h
    obtain ⟨_, he, _⟩ := h
    subst he
    rcases hacc with h0 | ⟨m, hm⟩
    · cases h0
    · simp only [Option.some.injEq] at hm
      exact absurd hm (decodeString_loop_failed_kind _ _ _ _ _ _ hl m)
  | closed k =>
    rw [hl] at h
    simp only [Outcome.ret.injEq] at h
    obtain ⟨hv, he, hj⟩ := h
    obtain ⟨body, rest, hd, hb, hk⟩ := decodeString_loop_closed_body _ _ _ _ (Nat.le_refl _) hl
    have hs : slice data (j.idx + 1) (k - 1) = body := by
      have h1 : k - 1 = j.idx + 1 + body.length := by omega
      rw [h1]
      exact slice_of_drop_eq hd
    have hrest : data.drop k = rest := by
      have h1 := (drop_cons_getElem? (drop_add_of_drop_eq hd)).2
      have h2 : k = j.idx + 1 + body.length + 1 := by omega
      rw [h2]
      exact h1
    rw [hs] at hv he hj
    have hk2 : k = j.idx + body.length + 2 := by omega
    subst hj
    refine ⟨body, hb, ?_, ?_, hv.symm, he.symm, ?_⟩
    · simp only
      rw [hrest]
      exact hd
    · simp only
      exact hs
    · rw [hk2]

/-- C17: a string literal the scanner accepts is handed to `NewString` as the
raw bytes between the quotes. If the scanner, entered on a quote at any scan
position, returns without a scanner error (no error, or the error of
`NewString`), then the bytes after the opening quote are a body of plain bytes
and complete escape sequences followed by the closing quote; `NewString` got
exactly that body, which is the slice between the two quotes, and the cursor is
one past the closing quote. Every such body is accepted, at any scan position
and through `Decode` for a root-level literal, and the escapes `\"`, `\\` and
`\uXXXX` are bodies as they stand, with their backslashes. -/
theorem decodeString_raw_body {σ : Type} (S : ObjectStore σ) :
    (∀ (data : List Nat) (fuel : Nat) (j : Decoder σ) (v : Value) (e : Option Err)
        (j' : Decoder σ), data[j.idx]? = some 34 →
      decodeAny S data fuel j = .ret v e j' → (e = none ∨ ∃ m, e = some (.store m)) →
      ∃ body, StrBody body ∧
        data.drop j.idx = 34 :: (body ++ 34 :: data.drop j'.idx) ∧
        slice data (j.idx + 1) (j'.idx - 1) = body ∧
        j'.idx = j.idx + body.length + 2 ∧
        v = .string (S.NewString j.store body).1 ∧
        e = storeErr (S.NewString j.store body).2.1 ∧
        j' = { j with lastTypeId := JT_UTF8, idx := j.idx + body.length + 2,
                      store := (S.NewString j.store body).2.2 }) ∧
    (∀ (body rest data : List Nat) (fuel : Nat) (j : Decoder σ), StrBody body →
      data.drop j.idx = 34 :: (body ++ 34 :: rest) →
      decodeAny S data (fuel + 1) j
        = .ret (.string (S.NewString j.store body).1) (storeErr (S.NewString j.store body).2.1)
            { j with lastTypeId := JT_UTF8, idx := j.idx + body.length + 2,
                     store := (S.NewString j.store body).2.2 }) ∧
    (∀ (body rest ws : List Nat) (j : Decoder σ), StrBody body →
      (∀ w ∈ ws, isWhitespace w = true) →
      Decode S (ws ++ 34 :: (body ++ 34 :: rest)) j
        = .ret (.string (S.NewString j.store body).1) (storeErr (S.NewString j.store body).2.1)
            { j with lastTypeId := JT_UTF8, idx := ws.length + body.length + 2,
                     store := (S.NewString j.store body).2.2 }) ∧
    (∀ pre post : List Nat, StrBody pre → StrBody post →
      StrBody (pre ++ 92 :: 34 :: post) ∧ StrBody (pre ++ 92 :: 92 :: post) ∧
      ∀ a b c d : Nat, isHexDigit a = true → isHexDigit b = true → isHexDigit c = true →
        isHexDigit d = true → StrBody (pre ++ 92 :: 117 :: a :: b :: c :: d :: post)) := by
  refine ⟨?_, ?_, ?_, ?_⟩
  · intro data fuel j v e j' hq h hacc
    cases fuel with
    | zero =>
      rw [decodeAny] at h
      cases h
    | succ fuel =>
      rw [decodeAny_quote S data fuel j hq] at h
      obtain ⟨body, hb, hd, hs, hv, he, hj⟩ := decodeString_accepted S data j v e j' h hacc
      refine ⟨body, hb, ?_, hs, ?_, hv, he, hj⟩
      · rw [drop_eq_cons_of_getElem? hq, hd]
      · rw [hj]
  · intro body rest data fuel j hb h
    rw [decodeAny_quote S data fuel j (drop_cons_getElem? h).1]
    exact decodeString_literal S data j body rest hb h
  · intro body rest ws j hb hws
    rw [Decode_skip S ws _ hws, List.length_cons,
      decodeAny_quote S _ _ _ (getElem?_append_length ws 34 _),
      decodeString_literal S _ _ body rest hb (by simp)]
  · intro pre post hpre hpost
    refine ⟨hpre.append (.escape 34 post (by decide) hpost),
      hpre.append (.escape 92 post (by decide) hpost), ?_⟩
    intro a b c d ha hb hc hd
    exact hpre.append (.unicode a b c d post ha hb hc hd hpost)

/-- C17, witness: the literal `"a\"\\\u00e9"` followed by `,1`, entered at
index 0: the eleven bytes between the quotes are handed to `NewString`
unchanged and the cursor is left at 13. -/
theorem decodeString_raw_body_witness :
    ([34, 97, 92, 34, 92, 92, 92, 117, 48, 48, 101, 57, 34, 44, 49] : List Nat)[
        (NewDecoder ([] : List StoreCall) (poolOf 1)).idx]? = some 34 ∧
      decodeAny logStore [34, 97, 92, 34, 92, 92, 92, 117, 48, 48, 101, 57, 34, 44, 49] 1
          (NewDecoder [] (poolOf 1))
        = .ret (.string [97, 92, 34, 92, 92, 92, 117, 48, 48, 101, 57]) none
            ⟨[.NewString [97, 92, 34, 92, 92, 92, 117, 48, 48, 101, 57]], poolOf 1, [], 13,
              JT_UTF8⟩ ∧
      ∃ body, StrBody body ∧
        ([34, 97, 92, 34, 92, 92, 92, 117, 48, 48, 101, 57, 34, 44, 49] : List Nat).drop
            (NewDecoder ([] : List StoreCall) (poolOf 1)).idx
          = 34 :: (body ++ 34 ::
              ([34, 97, 92, 34, 92, 92, 92, 117, 48, 48, 101, 57, 34, 44, 49] : List Nat).drop
                (⟨[.NewString [97, 92, 34, 92, 92, 92, 117, 48, 48, 101, 57]], poolOf 1, [], 13,
                  JT_UTF8⟩ : Decoder (List StoreCall)).idx) ∧
        slice [34, 97, 92, 34, 92, 92, 92, 117, 48, 48, 101, 57, 34, 44, 49]
            ((NewDecoder ([] : List StoreCall) (poolOf 1)).idx + 1)
            ((⟨[.NewString [97, 92, 34, 92, 92, 92, 117, 48, 48, 101, 57]], poolOf 1, [], 13,
                  JT_UTF8⟩ : Decoder (List StoreCall)).idx - 1) = body :=
  ⟨by decide, by decide,
    match (decodeString_raw_body logStore).1
      [34, 97, 92, 34, 92, 92, 92, 117, 48, 48, 101, 57, 34, 44, 49] 1
      (NewDecoder [] (poolOf 1)) (.string [97, 92, 34, 92, 92, 92, 117, 48, 48, 101, 57]) none
      ⟨[.NewString [97, 92, 34, 92, 92, 92, 117, 48, 48, 101, 57]], poolOf 1, [], 13, JT_UTF8⟩
      (by decide) (by decide) (Or.inl rfl) with
    | ⟨body, hb, hd, hs, _⟩ => ⟨body, hb, hd, hs⟩⟩

/-! ## Unicode escapes -/

theorem decodeString_loop_fewHex (x : Nat) (hx : isHexDigit x = false) (rest : List Nat) :
    ∀ (hs : List Nat), (∀ h ∈ hs, isHexDigit h = true) → ∀ (k i : Nat), 0 < k →
      k + hs.length ≤ 4 →
      decodeString.loop (hs ++ x :: rest) i SS_ESC k
        = .failed (.unexpectedCharacterInHexEscape x) (i + hs.length + 1) := by
  intro hs
  induction hs with
  | nil =>
    intro _ k i hk _
    rw [List.nil_append, decodeString_loop_badHex _ _ _ hx hk]
    rfl
  | cons h hs ih =>
    intro hh k i hk hlen
    simp only [List.length_cons] at hlen
    rw [List.cons_append, decodeString_loop_hex _ _ _ (hh h (by simp)) hk (by omega),
      ih (fun y hy => hh y (by simp [hy])) (k + 1) (i + 1) (by omega) (by omega)]
    simp only [List.length_cons]
    congr 1
    omega

theorem decodeString_loop_fourHex {a b c d : Nat} (ha : isHexDigit a = true)
    (hb : isHexDigit b = true) (hc : isHexDigit c = true) (hd : isHexDigit d = true)
    (cs : List Nat) (i : Nat) :
    decodeString.loop (92 :: 117 :: a :: b :: c :: d :: cs) i SS_NORMAL 0
      = decodeString.loop cs (i + 6) SS_NORMAL 0 := by
  have h := (StrBody.unicode a b c d [] ha hb hc hd .nil).loop_eq cs i
  simpa using h

theorem decodeString_fewHex {σ : Type} (S : ObjectStore σ) (data : List Nat)
    (j : Decoder σ) (pre hs rest : List Nat) (hb : StrBody pre)
    (hh : ∀ h ∈ hs, isHexDigit h = true) (hlen : hs.length < 4) (x : Nat)
    (hx : isHexDigit x = false)
    (h : data.drop j.idx = 34 :: (pre ++ 92 :: 117 :: (hs ++ x :: rest))) :
    decodeString S data j
      = .ret (.string []) (some (.unexpectedCharacterInHexEscape x))
          { j with lastTypeId := JT_INVALID, idx := j.idx + pre.length + hs.length + 4 } := by
  have h1 := (drop_cons_getElem? h).2
  unfold decodeString
  simp only
  rw [h1, hb.loop_eq, decodeString_loop_backslash, decodeString_loop_u,
    decodeString_loop_fewHex x hx rest hs hh 1 _ (by omega) (by omega)]
  simp only
  have h3 : j.idx + 1 + pre.length + 1 + 1 + hs.length + 1
      = j.idx + pre.length + hs.length + 4 := by omega
  rw [h3]

/-- C19: after `\u` the string scanner consumes exactly four hexadecimal digits
and is back in the Normal state for the byte after the fourth. In any scan the
six bytes `\uXXXX` read in the Normal state leave the loop in the Normal state
six bytes on; a literal whose body ends in `\uXXXX` before the closing quote is
accepted, at any scan position and through `Decode` at root level, with the
quote right after the fourth digit ending the string; and `\u` followed by fewer
than four hexadecimal digits and then a byte `x` that is none (the closing quote
included) is rejected with the hexadecimal-escape error for `x`. -/
theorem Decode_unicode_escape {σ : Type} (S : ObjectStore σ) :
    (∀ (a b c d : Nat) (cs : List Nat) (i : Nat), isHexDigit a = true → isHexDigit b = true →
      isHexDigit c = true → isHexDigit d = true →
      decodeString.loop (92 :: 117 :: a :: b :: c :: d :: cs) i SS_NORMAL 0
        = decodeString.loop cs (i + 6) SS_NORMAL 0) ∧
    (∀ (pre : List Nat) (a b c d : Nat) (rest data : List Nat) (fuel : Nat) (j : Decoder σ),
      StrBody pre → isHexDigit a = true → isHexDigit b = true → isHexDigit c = true →
      isHexDigit d = true →
      data.drop j.idx = 34 :: ((pre ++ [92, 117, a, b, c, d]) ++ 34 :: rest) →
      decodeAny S data (fuel + 1) j
        = .ret (.string (S.NewString j.store (pre ++ [92, 117, a, b, c, d])).1)
            (storeErr (S.NewString j.store (pre ++ [92, 117, a, b, c, d])).2.1)
            { j with lastTypeId := JT_UTF8, idx := j.idx + pre.length + 8,
                     store := (S.NewString j.store (pre ++ [92, 117, a, b, c, d])).2.2 }) ∧
    (∀ (pre : List Nat) (a b c d : Nat) (rest ws : List Nat) (j : Decoder σ),
      StrBody pre → isHexDigit a = true → isHexDigit b = true → isHexDigit c = true →
      isHexDigit d = true → (∀ w ∈ ws, isWhitespace w = true) →
      Decode S (ws ++ 34 :: ((pre ++ [92, 117, a, b, c, d]) ++ 34 :: rest)) j
        = .ret (.string (S.NewString j.store (pre ++ [92, 117, a, b, c, d])).1)
            (storeErr (S.NewString j.store (pre ++ [92, 117, a, b, c, d])).2.1)
            { j with lastTypeId := JT_UTF8, idx := ws.length + pre.length + 8,
                     store := (S.NewString j.store (pre ++ [92, 117, a, b, c, d])).2.2 }) ∧
    (∀ (pre hs : List Nat) (x : Nat) (rest data : List Nat) (fuel : Nat) (j : Decoder σ),
      StrBody pre → (∀ h ∈ hs, isHexDigit h = true) → hs.length < 4 → isHexDigit x = false →
      data.drop j.idx = 34 :: (pre ++ 92 :: 117 :: (hs ++ x :: rest)) →
      decodeAny S data (fuel + 1) j
        = .ret (.string []) (some (.unexpectedCharacterInHexEscape x))
            { j with lastTypeId := JT_INVALID, idx := j.idx + pre.length + hs.length + 4 }) ∧
    (∀ (pre hs : List Nat) (x : Nat) (rest ws : List Nat) (j : Decoder σ),
      StrBody pre → (∀ h ∈ hs, isHexDigit h = true) → hs.length < 4 → isHexDigit x = false →
      (∀ w ∈ ws, isWhitespace w = true) →
      Decode S (ws ++ 34 :: (pre ++ 92 :: 117 :: (hs ++ x :: rest))) j
        = .ret (.string []) (some (.unexpectedCharacterInHexEscape x))
            { j with lastTypeId := JT_INVALID,
                     idx := ws.length + pre.length + hs.length + 4 }) ∧
    isHexDigit 34 = false := by
  refine ⟨?_, ?_, ?_, ?_, ?_, by decide⟩
  · intro a b c d cs i ha hb hc hd
    exact decodeString_loop_fourHex ha hb hc hd cs i
  · intro pre a b c d rest data fuel j hpre ha hb hc hd h
    have hbody : StrBody (pre ++ [92, 117, a, b, c, d]) :=
      hpre.append (.unicode a b c d [] ha hb hc hd .nil)
    rw [decodeAny_quote S data fuel j (drop_cons_getElem? h).1,
      decodeString_literal S data j _ rest hbody h]
    have hl : j.idx + (pre ++ [92, 117, a, b, c, d]).length + 2 = j.idx + pre.length + 8 := by
      simp only [List.length_append, List.length_cons, List.length_nil]
      omega
    rw [hl]
  · intro pre a b c d rest ws j hpre ha hb hc hd hws
    have hbody : StrBody (pre ++ [92, 117, a, b, c, d]) :=
      hpre.append (.unicode a b c d [] ha hb hc hd .nil)
    rw [Decode_skip S ws _ hws, List.length_cons,
      decodeAny_quote S _ _ _ (getElem?_append_length ws 34 _),
      decodeString_literal S _ _ _ rest hbody (by simp)]
    have hl : ws.length + (pre ++ [92, 117, a, b, c, d]).length + 2
        = ws.length + pre.length + 8 := by
      simp only [List.length_append, List.length_cons, List.length_nil]
      omega
    simp only
    rw [hl]
  · intro pre hs x rest data fuel j hpre hh hlen hx h
    rw [decodeAny_quote S data fuel j (drop_cons_getElem? h).1]
    exact decodeString_fewHex S data j pre hs rest hpre hh hlen x hx h
  · intro pre hs x rest ws j hpre hh hlen hx hws
    rw [Decode_skip S ws _ hws, List.length_cons,
      decodeAny_quote S _ _ _ (getElem?_append_length ws 34 _),
      decodeString_fewHex S _ _ pre hs rest hpre hh hlen x hx (by simp)]

/-- C19, witness: the document `"\u00e9"` is accepted with the six raw bytes,
and the document `"\u00e"`, where the closing quote comes after three digits,
is rejected with the hexadecimal-escape error for the quote. -/
theorem Decode_unicode_escape_witness :
    (StrBody [] ∧ isHexDigit 48 = true ∧ isHexDigit 101 = true ∧ isHexDigit 57 = true ∧
      (∀ w ∈ ([] : List Nat), isWhitespace w = true) ∧
      Decode logStore ([] ++ 34 :: (([] ++ [92, 117, 48, 48, 101, 57]) ++ 34 :: []))
          (NewDecoder [] (poolOf 1))
        = .ret (.string [92, 117, 48, 48, 101, 57]) none
            ⟨[.NewString [92, 117, 48, 48, 101, 57]], poolOf 1, [], 8, JT_UTF8⟩) ∧
    ((∀ h ∈ ([48, 48, 101] : List Nat), isHexDigit h = true) ∧ [48, 48, 101].length < 4 ∧
      isHexDigit 34 = false ∧
      Decode logStore ([] ++ 34 :: ([] ++ 92 :: 117 :: ([48, 48, 101] ++ 34 :: [])))
          (NewDecoder [] (poolOf 1))
        = .ret (.string []) (some (.unexpectedCharacterInHexEscape 34))
            ⟨[], poolOf 1, [], 7, JT_INVALID⟩) :=
  ⟨⟨.nil, by decide, by decide, by decide, by decide,
    ((Decode_unicode_escape logStore).2.2.1 [] 48 48 101 57 [] [] (NewDecoder [] (poolOf 1))
      .nil (by decide) (by decide) (by decide) (by decide) (by decide)).trans (by decide)⟩,
   ⟨by decide, by decide, by decide,
    ((Decode_unicode_escape logStore).2.2.2.2.1 [] [48, 48, 101] 34 [] []
      (NewDecoder [] (poolOf 1)) .nil (by decide) (by decide) (by decide) (by decide)).trans
      (by decide)⟩⟩

/-! ## The cursor -/

theorem decodeNumeric_advance {σ : Type} {S : ObjectStore σ} {data : List Nat}
    {j j' : Decoder σ} {v : Value} {e : Option Err} {c : Nat}
    (hc : data[j.idx]? = some c) (hn : isNumericChar c = true)
    (h : decodeNumeric S data j = .ret v e j') : j.idx < j'.idx := by
  unfold decodeNumeric at h
  simp only at h
  rw [drop_eq_cons_of_getElem? hc, decodeNumeric.loop, if_pos hn] at h
  cases hl : decodeNumeric.loop (List.drop (j.idx + 1) data) (j.idx + 1) with
  | none => simp [hl] at h
  | some k =>
    have hb := decodeNumeric_loop_bound hl
    simp only [hl, Outcome.ret.injEq] at h
    obtain ⟨-, -, rfl⟩ := h
    simp only
    omega

theorem decodeObject_bound {σ : Type} (S : ObjectStore σ) (data : List Nat) (f n p : Nat)
    (j : Decoder σ) (v : Value) (e : Option Err) (j' : Decoder σ)
    (h : decodeObject S data (decodeAny S data f) n p j = .ret v e j') :
    j.idx < j'.idx ∧ j'.idx ≤ data.length := by
  unfold decodeObject at h
  have := decodeObject_loop_bound S data _ p (decodeAny_bound S data f) n _ _ _ _ h
  simp only at this
  omega

theorem decodeArray_bound {σ : Type} (S : ObjectStore σ) (data : List Nat) (f n : Nat)
    (j : Decoder σ) (v : Value) (e : Option Err) (j' : Decoder σ) (hj : j.idx ≤ data.length)
    (h : decodeArray S data (decodeAny S data f) n j = .ret v e j') :
    j.idx ≤ j'.idx ∧ j'.idx ≤ data.length ∧ (e = none → j.idx < j'.idx) := by
  unfold decodeArray at h
  simp only at h
  cases h3 : (S.NewArray j.store).2.1 with
  | some err =>
    simp only [h3, Outcome.ret.injEq] at h
    obtain ⟨-, he, rfl⟩ := h
    refine ⟨Nat.le_refl _, hj, ?_⟩
    intro h0
    rw [h0] at he
    cases he
  | none =>
    simp only [h3] at h
    have := decodeArray_loop_bound S data _ _ (decodeAny_bound S data f) n _ _ _ _ _ h
    simp only at this
    exact ⟨by omega, by omega, fun _ => by omega⟩

theorem decodeAny_advance {σ : Type} (S : ObjectStore σ) (data : List Nat) (n : Nat)
    (j : Decoder σ) (v : Value) (j' : Decoder σ)
    (h : decodeAny S data n j = .ret v none j') : j.idx < j'.idx := by
  cases n with
  | zero => simp [decodeAny] at h
  | succ n =>
    rw [decodeAny] at h
    cases h2 : data[j.idx]? with
    | none => simp [h2] at h
    | some c =>
    have b2 := getElem?_lt h2
    simp only [h2] at h
    split_ifs at h with g1 g2
    · exact (decodeString_bound h).1
    · refine decodeNumeric_advance h2 ?_ h
      simp only [isNumericChar, Bool.or_eq_true, Bool.and_eq_true, decide_eq_true_eq] at g2 ⊢
      omega
    · exact (decodeArray_bound S data n n j v none j' (by omega) h).2.2 rfl
    · have := decodeObject_bound S data n n _ _ _ _ _ h
      simp only at this
      exact this.1
    · exact (decodeTrue_bound h).1
    · exact (decodeFalse_bound h).1
    · exact (decodeNull_bound h).1
    · have := decodeAny_bound S data n _ _ _ _ h
      simp only at this
      omega
    · simp at h

/-- C20: the cursor of a `Decode` call stays in the buffer, never moves back,
and the descent ends. `Decode` on any buffer from any decoder returns or stops
with the panic (the model never runs out of fuel); what it returns has
`idx ≤ len(data)`, and when the error is nil `0 < idx`. Every call of `decodeAny`
from any decoder state that returns leaves `idx` no smaller than it was and at
most `len(data)`, and larger than it was when the error is nil; the same holds
for the object and array scanners, the string and literal scanners advance on
every return, the number scanner entered on a byte of a number advances, and
`skipWhitespace` never moves the cursor back and leaves it inside the buffer. -/
theorem Decode_cursor {σ : Type} (S : ObjectStore σ) (data : List Nat) :
    (∀ j : Decoder σ, Decode S data j = .panic ∨ ∃ v e j', Decode S data j = .ret v e j') ∧
    (∀ (j : Decoder σ) (v : Value) (e : Option Err) (j' : Decoder σ),
      Decode S data j = .ret v e j' → j'.idx ≤ data.length ∧ (e = none → 0 < j'.idx)) ∧
    (∀ (fuel : Nat) (j : Decoder σ), j.idx ≤ data.length → data.length < j.idx + fuel →
      decodeAny S data fuel j ≠ .outOfFuel) ∧
    (∀ (fuel : Nat) (j : Decoder σ) (v : Value) (e : Option Err) (j' : Decoder σ),
      decodeAny S data fuel j = .ret v e j' →
      j.idx ≤ j'.idx ∧ j'.idx ≤ data.length ∧ (e = none → j.idx < j'.idx)) ∧
    (∀ (f n p : Nat) (j : Decoder σ) (v : Value) (e : Option Err) (j' : Decoder σ),
      decodeObject S data (decodeAny S data f) n p j = .ret v e j' →
      j.idx < j'.idx ∧ j'.idx ≤ data.length) ∧
    (∀ (f n : Nat) (j : Decoder σ) (v : Value) (e : Option Err) (j' : Decoder σ),
      j.idx ≤ data.length →
      decodeArray S data (decodeAny S data f) n j = .ret v e j' →
      j.idx ≤ j'.idx ∧ j'.idx ≤ data.length ∧ (e = none → j.idx < j'.idx)) ∧
    (∀ (j : Decoder σ) (v : Value) (e : Option Err) (j' : Decoder σ),
      (decodeString S data j = .ret v e j' ∨ decodeTrue S data j = .ret v e j' ∨
        decodeFalse S data j = .ret v e j' ∨ decodeNull S data j = .ret v e j') →
      j.idx < j'.idx ∧ j'.idx ≤ data.length) ∧
    (∀ (j : Decoder σ) (v : Value) (e : Option Err) (j' : Decoder σ),
      decodeNumeric S data j = .ret v e j' →
      j.idx ≤ j'.idx ∧ j'.idx < data.length ∧
        (∀ c, data[j.idx]? = some c → isNumericChar c = true → j.idx < j'.idx)) ∧
    (∀ j j' : Decoder σ, skipWhitespace data j = some j' →
      j.idx ≤ j'.idx ∧ j'.idx < data.length) := by
  refine ⟨?_, ?_, ?_, ?_, ?_, ?_, ?_, ?_, ?_⟩
  · intro j
    cases h : Decode S data j with
    | panic => exact Or.inl rfl
    | outOfFuel => exact absurd h (Decode_fuel S data j)
    | ret v e j' => exact Or.inr ⟨v, e, j', rfl⟩
  · intro j v e j' h
    unfold Decode at h
    refine ⟨(decodeAny_bound S data _ _ _ _ _ h).2, ?_⟩
    intro he
    subst he
    have := decodeAny_advance S data _ _ _ _ h
    omega
  · intro fuel j hle hn
    exact decodeAny_fuel S data fuel j hle hn
  · intro fuel j v e j' h
    have hb := decodeAny_bound S data _ _ _ _ _ h
    refine ⟨hb.1, hb.2, ?_⟩
    intro he
    subst he
    exact decodeAny_advance S data _ _ _ _ h
  · intro f n p j v e j' h
    exact decodeObject_bound S data f n p j v e j' h
  · intro f n j v e j' hj h
    exact decodeArray_bound S data f n j v e j' hj h
  · intro j v e j' h
    rcases h with h | h | h | h
    · exact decodeString_bound h
    · exact decodeTrue_bound h
    · exact decodeFalse_bound h
    · exact decodeNull_bound h
  · intro j v e j' h
    have hb := decodeNumeric_bound h
    exact ⟨hb.1, hb.2, fun c hc hn => decodeNumeric_advance hc hn h⟩
  · intro j j' h
    exact (skipWhitespace_bound h).2

/-- C20, witness: `Decode` on the thirteen bytes of `[1, {"a":2}] ` returns
with a nil error and the cursor at 12, within the buffer and past its start. -/
theorem Decode_cursor_witness :
    Decode logStore [91, 49, 44, 32, 123, 34, 97, 34, 58, 50, 125, 93, 32]
        (NewDecoder [] (poolOf 1))
      = .ret (.iface 0) none
          ⟨[.NewArray, .NewNumeric [49], .ArrayAddItem (.iface 0) (.iface 1), .NewString [97],
              .NewNumeric [50], .ObjectAddKey (.string [97]) (.iface 4),
              .ArrayAddItem (.iface 0) (.map 0)],
            ⟨0, 1, [], [⟨true, [([97], .iface 4)]⟩]⟩, [0], 12, JT_NUMERIC⟩ ∧
      (12 ≤ ([91, 49, 44, 32, 123, 34, 97, 34, 58, 50, 125, 93, 32] : List Nat).length ∧
        ((none : Option Err) = none → 0 < 12)) :=
  (fun h => ⟨h, (Decode_cursor logStore
      [91, 49, 44, 32, 123, 34, 97, 34, 58, 50, 125, 93, 32]).2.1 (NewDecoder [] (poolOf 1))
      _ _ _ h⟩) (by decide)

/-! ## Trailing commas in arrays -/

theorem decodeArray_loop_turn {σ : Type} (S : ObjectStore σ) (data : List Nat)
    (any : Decoder σ → Outcome σ) (a : Value) (j j2 : Decoder σ)
    (h : ArrayTurn S data any a j j2) (n len : Nat) :
    decodeArray.loop S data any a (n + 1) len j
      = decodeArray.loop S data any a n (len + 1) j2 := by
  obtain ⟨j1, c, v, jv, j3, h1, h2, hc, h3, h4, h5, h6, rfl⟩ := h
  rw [decodeArray.loop]
  simp only [h1, h2, hc, if_false, h3, h4, h5, h6]
  simp only [Nat.reduceEqDiff, if_false, if_true]

theorem decodeArray_loop_turns {σ : Type} (S : ObjectStore σ) (data : List Nat)
    (any : Decoder σ → Outcome σ) (a : Value) (k : Nat) (j j2 : Decoder σ)
    (h : ArrayTurns S data any a k j j2) :
    ∀ (n len : Nat), decodeArray.loop S data any a (n + k) len j
      = decodeArray.loop S data any a n (len + k) j2 := by
  induction h with
  | zero j => intro n len; rfl
  | succ k j j1 j2 ht _ ih =>
    intro n len
    have e1 : n + (k + 1) = (n + k) + 1 := by omega
    have e2 : len + (k + 1) = (len + 1) + k := by omega
    rw [e1, e2, decodeArray_loop_turn S data any a j j1 ht, ih]

theorem ArrayTurn.idx_lt {σ : Type} {S : ObjectStore σ} {data : List Nat}
    {any : Decoder σ → Outcome σ} {a : Value} {j j2 : Decoder σ}
    (hany : ∀ j v e j', any j = .ret v e j' → j.idx ≤ j'.idx ∧ j'.idx ≤ data.length)
    (h : ArrayTurn S data any a j j2) : j.idx < j2.idx ∧ j2.idx ≤ data.length := by
  obtain ⟨j1, c, v, jv, j3, h1, h2, hc, h3, h4, h5, h6, rfl⟩ := h
  have b1 := (skipWhitespace_bound h1).2
  have b3 := (hany _ _ _ _ h3).1
  have b5 := (skipWhitespace_bound h5).2
  simp only at b5 ⊢
  omega

theorem ArrayTurns.idx_le {σ : Type} {S : ObjectStore σ} {data : List Nat}
    {any : Decoder σ → Outcome σ} {a : Value} {k : Nat} {j j2 : Decoder σ}
    (hany : ∀ j v e j', any j = .ret v e j' → j.idx ≤ j'.idx ∧ j'.idx ≤ data.length)
    (h : ArrayTurns S data any a k j j2) : j.idx + k ≤ j2.idx := by
  induction h with
  | zero j => simp
  | succ k j j1 j2 ht _ ih =>
    have := (ht.idx_lt hany).1
    omega

theorem decodeArray_loop_after_turns {σ : Type} (S : ObjectStore σ) (data : List Nat)
    (any : Decoder σ → Outcome σ) (a : Value) (k : Nat) (j jh : Decoder σ)
    (h : ArrayTurns S data any a k j jh) (ws rest : List Nat)
    (hws : ∀ w ∈ ws, isWhitespace w = true) (hd : data.drop jh.idx = ws ++ 93 :: rest)
    (n len : Nat) :
    decodeArray.loop S data any a (n + 1 + k) len j
      = if len + k = 0 then .ret a none { jh with idx := jh.idx + ws.length + 1 }
        else .ret .nil (some (.unexpectedCharacterInArray (len + k)))
          { jh with idx := jh.idx + ws.length } := by
  rw [decodeArray_loop_turns S data any a k j jh h (n + 1) len,
    decodeArray_loop_bracket S data any a n (len + k) jh ws rest hws hd]

theorem decodeArray_loop_after_turns_of_le {σ : Type} (S : ObjectStore σ) (data : List Nat)
    (any : Decoder σ → Outcome σ) (a : Value) (k : Nat) (j jh : Decoder σ)
    (h : ArrayTurns S data any a k j jh) (ws rest : List Nat)
    (hws : ∀ w ∈ ws, isWhitespace w = true) (hd : data.drop jh.idx = ws ++ 93 :: rest)
    (f len : Nat) (hf : k + 1 ≤ f) :
    decodeArray.loop S data any a f len j
      = if len + k = 0 then .ret a none { jh with idx := jh.idx + ws.length + 1 }
        else .ret .nil (some (.unexpectedCharacterInArray (len + k)))
          { jh with idx := jh.idx + ws.length } := by
  obtain ⟨n, rfl⟩ : ∃ n, f = n + 1 + k := ⟨f - 1 - k, by omega⟩
  exact decodeArray_loop_after_turns S data any a k j jh h ws rest hws hd n len

/-! ## No trailing comma in a decoded text -/

theorem trailingComma_append (s : Lex) (ac : Bool) (l1 l2 : List Nat) :
    trailingComma s ac (l1 ++ l2)
      = (trailingComma s ac l1 || trailingComma (Lex.run s l1) (afterComma s ac l1) l2) := by
  induction l1 generalizing s ac with
  | nil => simp [trailingComma, afterComma, Lex.run]
  | cons c cs ih =>
    rw [List.cons_append, trailingComma, trailingComma, afterComma, Lex.run]
    split_ifs
    · simp
    · exact ih _ _

theorem afterComma_append (s : Lex) (ac : Bool) (l1 l2 : List Nat) :
    afterComma s ac (l1 ++ l2) = afterComma (Lex.run s l1) (afterComma s ac l1) l2 := by
  induction l1 generalizing s ac with
  | nil => simp [afterComma, Lex.run]
  | cons c cs ih =>
    rw [List.cons_append, afterComma, afterComma, Lex.run]
    exact ih _ _

theorem NoTC.extend {data : List Nat} {i : Nat} {ac : Bool} (h : NoTC data i ac) (k : Nat)
    (ac' : Bool) (h1 : i ≤ k) (h2 : k ≤ data.length)
    (h3 : Lex.run .out (slice data i k) = .out)
    (h4 : trailingComma .out ac (slice data i k) = false)
    (h5 : afterComma .out ac (slice data i k) = ac') : NoTC data k ac' := by
  obtain ⟨_, hr, ht, ha⟩ := h
  have hs := slice_split data 0 i k (Nat.zero_le _) h1 h2
  refine ⟨h2, ?_, ?_, ?_⟩
  · rw [hs, Lex.run_append, hr, h3]
  · rw [hs, trailingComma_append, ht, hr, ha, h4]
    rfl
  · rw [hs, afterComma_append, hr, ha, h5]

theorem comma_ws_window (w : List Nat) (h : ∀ c ∈ w, isWhitespace c = true) (ac : Bool) :
    Lex.run .out w = .out ∧ trailingComma .out ac w = false ∧ afterComma .out ac w = ac := by
  induction w with
  | nil => exact ⟨rfl, rfl, rfl⟩
  | cons c cs ih =>
    have hc := h c (by simp)
    have hc' := isWhitespace_cases hc
    have ih' := ih (fun x hx => h x (by simp [hx]))
    have hs : Lex.step .out c = .out := by
      have : c ≠ 34 := by omega
      simp [Lex.step, this]
    have hk : commaStep .out ac c = ac := by
      have : c ≠ 44 := by omega
      cases ac <;> simp [commaStep, this, hc]
    have h93 : ¬ ((Lex.out = Lex.out) ∧ ac = true ∧ c = 93) := by
      intro hx
      omega
    rw [Lex.run, trailingComma, afterComma, if_neg h93, hs, hk]
    exact ih'

theorem comma_plain_window (w : List Nat)
    (h : ∀ c ∈ w, c ≠ 34 ∧ c ≠ 44 ∧ c ≠ 93 ∧ isWhitespace c = false) (hne : w ≠ [])
    (ac : Bool) :
    Lex.run .out w = .out ∧ trailingComma .out ac w = false ∧
      afterComma .out ac w = false := by
  induction w generalizing ac with
  | nil => exact absurd rfl hne
  | cons c cs ih =>
    have hc := h c (by simp)
    have hs : Lex.step .out c = .out := by simp [Lex.step, hc.1]
    have hk : commaStep .out ac c = false := by
      simp [commaStep, hc.2.1, hc.2.2.2]
    have h93 : ¬ ((Lex.out = Lex.out) ∧ ac = true ∧ c = 93) := by
      intro hx
      exact hc.2.2.1 hx.2.2
    rw [Lex.run, trailingComma, afterComma, if_neg h93, hs, hk]
    cases cs with
    | nil => exact ⟨rfl, rfl, rfl⟩
    | cons d ds => exact ih (fun x hx => h x (by simp [hx])) (by simp) false

theorem NoTC.ws {data : List Nat} {i : Nat} {ac : Bool} (h : NoTC data i ac) (k : Nat)
    (h1 : i ≤ k) (h2 : k ≤ data.length)
    (h3 : ∀ c ∈ slice data i k, isWhitespace c = true) : NoTC data k ac :=
  h.extend k ac h1 h2 (comma_ws_window _ h3 ac).1 (comma_ws_window _ h3 ac).2.1
    (comma_ws_window _ h3 ac).2.2

theorem NoTC.plain {data : List Nat} {i : Nat} {ac : Bool} (h : NoTC data i ac) (k : Nat)
    (h1 : i < k) (h2 : k ≤ data.length)
    (h3 : ∀ c ∈ slice data i k, c ≠ 34 ∧ c ≠ 44 ∧ c ≠ 93 ∧ isWhitespace c = false) :
    NoTC data k false := by
  have hne : slice data i k ≠ [] := by
    intro hx
    have hl := congrArg List.length hx
    rw [slice_eq_take_drop] at hl
    simp only [List.length_take, List.length_drop, List.length_nil] at hl
    omega
  exact h.extend k false (by omega) h2 (comma_plain_window _ h3 hne ac).1
    (comma_plain_window _ h3 hne ac).2.1 (comma_plain_window _ h3 hne ac).2.2

theorem NoTC.byte {data : List Nat} {i : Nat} {ac : Bool} (h : NoTC data i ac) (c : Nat)
    (hc : data[i]? = some c) (h1 : c ≠ 34) (h2 : c ≠ 44) (h3 : c ≠ 93)
    (h4 : isWhitespace c = false) : NoTC data (i + 1) false := by
  have hlt := getElem?_lt hc
  refine h.plain (i + 1) (by omega) (by omega) ?_
  rw [slice_single data i c hc]
  intro x hx
  simp only [List.mem_singleton] at hx
  subst hx
  exact ⟨h1, h2, h3, h4⟩

theorem NoTC.step_ws {data : List Nat} {i : Nat} {ac : Bool} (h : NoTC data i ac) (c : Nat)
    (hc : data[i]? = some c) (h1 : isWhitespace c = true) : NoTC data (i + 1) ac := by
  have hlt := getElem?_lt hc
  refine h.ws (i + 1) (by omega) (by omega) ?_
  rw [slice_single data i c hc]
  intro x hx
  simp only [List.mem_singleton] at hx
  subst hx
  exact h1

theorem NoTC.comma {data : List Nat} {i : Nat} {ac : Bool} (h : NoTC data i ac)
    (hc : data[i]? = some 44) : NoTC data (i + 1) true := by
  have hlt := getElem?_lt hc
  refine h.extend (i + 1) true (by omega) (by omega) ?_ ?_ ?_
  · rw [slice_single data i 44 hc]
    rfl
  · rw [slice_single data i 44 hc]
    cases ac <;> rfl
  · rw [slice_single data i 44 hc]
    cases ac <;> rfl

theorem NoTC.bracket {data : List Nat} {i : Nat} (h : NoTC data i false)
    (hc : data[i]? = some 93) : NoTC data (i + 1) false := by
  have hlt := getElem?_lt hc
  refine h.extend (i + 1) false (by omega) (by omega) ?_ ?_ ?_
  · rw [slice_single data i 93 hc]
    rfl
  · rw [slice_single data i 93 hc]
    rfl
  · rw [slice_single data i 93 hc]
    rfl

theorem comma_cons_window {s : Lex} {c : Nat} {cs : List Nat} {i k : Nat} (hk : i + 1 ≤ k)
    (hs : s ≠ .out) (b : Bool)
    (hrec : trailingComma (s.step c) false (cs.take (k - (i + 1))) = false ∧
      afterComma (s.step c) false (cs.take (k - (i + 1))) = false) :
    trailingComma s b ((c :: cs).take (k - i)) = false ∧
      afterComma s b ((c :: cs).take (k - i)) = false := by
  have e : k - i = (k - (i + 1)) + 1 := by omega
  have hk' : commaStep s b c = false := by simp [commaStep, hs]
  have hn : ¬ (s = .out ∧ b = true ∧ c = 93) := fun hx => hs hx.1
  rw [e, List.take_succ_cons, trailingComma, afterComma, if_neg hn, hk']
  exact hrec

theorem decodeString_loop_comma {l : List Nat} {i st esc k : Nat} {s : Lex}
    (h : decodeString.loop l i st esc = .closed k) (hr : LexRel st esc s) (b : Bool) :
    trailingComma s b (l.take (k - i)) = false ∧ afterComma s b (l.take (k - i)) = false := by
  induction l generalizing i st esc s b with
  | nil => simp [decodeString.loop] at h
  | cons c cs ih =>
    have hb := decodeString_loop_closed_bound h
    rw [decodeString.loop] at h
    rcases hr with ⟨hst, hesc, hs⟩ | ⟨hst, hesc, hs⟩ | ⟨hst, hesc, hs⟩
    · subst hst hesc hs
      simp only [if_true] at h
      split_ifs at h with h1 h2 h3
      · simp only [StringScan.closed.injEq] at h
        subst h
        subst h1
        have e : i + 1 - i = 1 := by omega
        rw [e]
        simp [trailingComma, afterComma, commaStep]
      · subst h2
        refine comma_cons_window (by omega) (by simp) b ?_
        exact ih h (Or.inr (Or.inl ⟨rfl, rfl, by simp [Lex.step]⟩)) false
      · refine comma_cons_window (by omega) (by simp) b ?_
        exact ih h (Or.inl ⟨rfl, rfl, by simp [Lex.step, h1, h2]⟩) false
    · subst hst hesc hs
      have e1 : ¬ (SS_ESC = SS_NORMAL) := by decide
      simp only [e1, if_false, if_true, gt_iff_lt, Nat.lt_irrefl] at h
      split_ifs at h with h1 h2
      · refine comma_cons_window (by omega) (by simp) b ?_
        exact ih h (Or.inl ⟨rfl, rfl, by simp [Lex.step]⟩) false
      · refine comma_cons_window (by omega) (by simp) b ?_
        exact ih h (Or.inr (Or.inr ⟨rfl, by omega, by simp [Lex.step]⟩)) false
    · subst hst hs
      have e1 : ¬ (SS_ESC = SS_NORMAL) := by decide
      simp only [e1, if_false, if_true, gt_iff_lt, hesc] at h
      split_ifs at h with h1 h2
      · have hx := isHexDigit_inert h1
        refine comma_cons_window (by omega) (by simp) b ?_
        exact ih h (Or.inl ⟨rfl, rfl, by simp [Lex.step, hx.1, hx.2]⟩) false
      · have hx := isHexDigit_inert h1
        refine comma_cons_window (by omega) (by simp) b ?_
        exact ih h (Or.inr (Or.inr ⟨rfl, by omega, by simp [Lex.step, hx.1, hx.2]⟩)) false

theorem skipWhitespace_noTC {σ : Type} {data : List Nat} {ac : Bool} {j j' : Decoder σ}
    (ht : NoTC data j.idx ac) (h : skipWhitespace data j = some j') :
    NoTC data j'.idx ac := by
  have hb := skipWhitespace_bound h
  unfold skipWhitespace at h
  cases hl : skipWhitespace.loop (List.drop j.idx data) j.idx with
  | none => simp [hl] at h
  | some k =>
    simp only [hl, Option.some.injEq] at h
    subst h
    simp only at hb ⊢
    refine ht.ws k hb.2.1 (by omega) ?_
    rw [slice_eq_take_drop]
    intro c hc
    exact skipWhitespace_loop_window hl c hc

theorem isNumericChar_plain {c : Nat} (h : isNumericChar c = true) :
    c ≠ 34 ∧ c ≠ 44 ∧ c ≠ 93 ∧ isWhitespace c = false := by
  simp only [isNumericChar, Bool.or_eq_true, Bool.and_eq_true, decide_eq_true_eq] at h
  refine ⟨by omega, by omega, by omega, ?_⟩
  simp only [isWhitespace, Bool.or_eq_false_iff, decide_eq_false_iff_not]
  omega

theorem decodeNumeric_noTC {σ : Type} {S : ObjectStore σ} {data : List Nat} {ac : Bool}
    {j j' : Decoder σ} {v : Value} {e : Option Err} {c : Nat}
    (ht : NoTC data j.idx ac) (hc : data[j.idx]? = some c) (hn : isNumericChar c = true)
    (h : decodeNumeric S data j = .ret v e j') : NoTC data j'.idx false := by
  have hb := decodeNumeric_bound h
  have ha := decodeNumeric_advance hc hn h
  unfold decodeNumeric at h
  simp only at h
  cases hl : decodeNumeric.loop (List.drop j.idx data) j.idx with
  | none => simp [hl] at h
  | some k =>
    simp only [hl, Outcome.ret.injEq] at h
    obtain ⟨-, -, rfl⟩ := h
    simp only at hb ha ⊢
    refine ht.plain k ha (by omega) ?_
    rw [slice_eq_take_drop]
    intro x hx
    exact isNumericChar_plain (decodeNumeric_loop_window hl x hx)

theorem decodeString_noTC {σ : Type} {S : ObjectStore σ} {data : List Nat} {ac : Bool}
    {j j' : Decoder σ} {v : Value}
    (ht : NoTC data j.idx ac) (hq : data[j.idx]? = some 34)
    (h : decodeString S data j = .ret v none j') : NoTC data j'.idx false := by
  have hb := decodeString_bound h
  unfold decodeString at h
  simp only at h
  cases hl : decodeString.loop (List.drop (j.idx + 1) data) (j.idx + 1) SS_NORMAL 0 with
  | panic => simp [hl] at h
  | failed e1 k => simp [hl] at h
  | closed k =>
    simp only [hl, Outcome.ret.injEq] at h
    obtain ⟨-, -, rfl⟩ := h
    simp only at hb ⊢
    have hw := decodeString_loop_window hl (Or.inl ⟨rfl, rfl, rfl⟩)
    have hcw := decodeString_loop_comma hl (Or.inl ⟨rfl, rfl, rfl⟩)
    have hlt := getElem?_lt hq
    have hs : slice data j.idx k
        = 34 :: (List.drop (j.idx + 1) data).take (k - (j.idx + 1)) := by
      rw [slice_split data j.idx (j.idx + 1) k (by omega) (by omega) hb.2,
        slice_single data j.idx 34 hq, slice_eq_take_drop]
      rfl
    have e : Lex.step .out 34 = .str := rfl
    have hn : ¬ ((Lex.out = Lex.out) ∧ ac = true ∧ (34 : Nat) = 93) := by
      intro hx
      exact absurd hx.2.2 (by decide)
    refine ht.extend k false (by omega) hb.2 ?_ ?_ ?_
    · rw [hs, Lex.run, e]
      exact hw.1
    · rw [hs, trailingComma, if_neg hn, e]
      exact (hcw _).1
    · rw [hs, afterComma, e]
      exact (hcw _).2

theorem decodeTrue_noTC {σ : Type} {S : ObjectStore σ} {data : List Nat} {ac : Bool}
    {j j' : Decoder σ} {v : Value}
    (ht : NoTC data j.idx ac) (hq : data[j.idx]? = some 116)
    (h : decodeTrue S data j = .ret v none j') : NoTC data j'.idx false := by
  unfold decodeTrue at h
  simp only at h
  cases h1 : data[j.idx + 1]? with
  | none => simp [h1] at h
  | some c1 =>
  simp only [h1] at h
  split_ifs at h with g1
  · simp at h
  cases h2 : data[j.idx + 1 + 1]? with
  | none => simp [h2] at h
  | some c2 =>
  simp only [h2] at h
  split_ifs at h with g2
  · simp at h
  cases h3 : data[j.idx + 1 + 1 + 1]? with
  | none => simp [h3] at h
  | some c3 =>
  simp only [h3] at h
  split_ifs at h with g3
  · simp at h
  simp only [Outcome.ret.injEq] at h
  obtain ⟨-, -, rfl⟩ := h
  simp only [ne_eq, not_not] at g1 g2 g3
  subst g1 g2 g3
  exact (((ht.byte 116 hq (by decide) (by decide) (by decide) (by decide)).byte 114 h1
    (by decide) (by decide) (by decide) (by decide)).byte 117 h2 (by decide) (by decide)
    (by decide) (by decide)).byte 101 h3 (by decide) (by decide) (by decide) (by decide)

theorem decodeFalse_noTC {σ : Type} {S : ObjectStore σ} {data : List Nat} {ac : Bool}
    {j j' : Decoder σ} {v : Value}
    (ht : NoTC data j.idx ac) (hq : data[j.idx]? = some 102)
    (h : decodeFalse S data j = .ret v none j') : NoTC data j'.idx false := by
  unfold decodeFalse at h
  simp only at h
  cases h1 : data[j.idx + 1]? with
  | none => simp [h1] at h
  | some c1 =>
  simp only [h1] at h
  split_ifs at h with g1
  · simp at h
  cases h2 : data[j.idx + 1 + 1]? with
  | none => simp [h2] at h
  | some c2 =>
  simp only [h2] at h
  split_ifs at h with g2
  · simp at h
  cases h3 : data[j.idx + 1 + 1 + 1]? with
  | none => simp [h3] at h
  | some c3 =>
  simp only [h3] at h
  split_ifs at h with g3
  · simp at h
  cases h4 : data[j.idx + 1 + 1 + 1 + 1]? with
  | none => simp [h4] at h
  | some c4 =>
  simp only [h4] at h
  split_ifs at h with g4
  · simp at h
  simp only [Outcome.ret.injEq] at h
  obtain ⟨-, -, rfl⟩ := h
  simp only [ne_eq, not_not] at g1 g2 g3 g4
  subst g1 g2 g3 g4
  exact ((((ht.byte 102 hq (by decide) (by decide) (by decide) (by decide)).byte 97 h1
    (by decide) (by decide) (by decide) (by decide)).byte 108 h2 (by decide) (by decide)
    (by decide) (by decide)).byte 115 h3 (by decide) (by decide) (by decide) (by decide)).byte
    101 h4 (by decide) (by decide) (by decide) (by decide)

theorem decodeNull_noTC {σ : Type} {S : ObjectStore σ} {data : List Nat} {ac : Bool}
    {j j' : Decoder σ} {v : Value}
    (ht : NoTC data j.idx ac) (hq : data[j.idx]? = some 110)
    (h : decodeNull S data j = .ret v none j') : NoTC data j'.idx false := by
  unfold decodeNull at h
  simp only at h
  cases h1 : data[j.idx + 1]? with
  | none => simp [h1] at h
  | some c1 =>
  simp only [h1] at h
  split_ifs at h with g1
  · simp at h
  cases h2 : data[j.idx + 1 + 1]? with
  | none => simp [h2] at h
  | some c2 =>
  simp only [h2] at h
  split_ifs at h with g2
  · simp at h
  cases h3 : data[j.idx + 1 + 1 + 1]? with
  | none => simp [h3] at h
  | some c3 =>
  simp only [h3] at h
  split_ifs at h with g3
  · simp at h
  simp only [Outcome.ret.injEq] at h
  obtain ⟨-, -, rfl⟩ := h
  simp only [ne_eq, not_not] at g1 g2 g3
  subst g1 g2 g3
  exact (((ht.byte 110 hq (by decide) (by decide) (by decide) (by decide)).byte 117 h1
    (by decide) (by decide) (by decide) (by decide)).byte 108 h2 (by decide) (by decide)
    (by decide) (by decide)).byte 108 h3 (by decide) (by decide) (by decide) (by decide)

theorem decodeObject_loop_noTC {σ : Type} (S : ObjectStore σ) (data : List Nat)
    (any : Decoder σ → Outcome σ) (p : Nat)
    (hany : ∀ (ac : Bool) j v j', NoTC data j.idx ac → any j = .ret v none j' →
      NoTC data j'.idx false) :
    ∀ (n : Nat) (ac : Bool) (j : Decoder σ) (v : Value) (j' : Decoder σ),
      NoTC data j.idx ac →
      decodeObject.loop S data any p n j = .ret v none j' → NoTC data j'.idx false := by
  intro n
  induction n with
  | zero => intro ac j v j' _ h; simp [decodeObject.loop] at h
  | succ n ih =>
    intro ac j v j' ht h
    rw [decodeObject.loop] at h
    cases h1 : skipWhitespace data j with
    | none => simp [h1] at h
    | some j1 =>
    have t1 := skipWhitespace_noTC ht h1
    simp only [h1] at h
    cases h2 : data[j1.idx]? with
    | none => simp [h2] at h
    | some c =>
    simp only [h2] at h
    split_ifs at h with g0
    · simp only [Outcome.ret.injEq] at h
      obtain ⟨-, -, rfl⟩ := h
      subst g0
      exact t1.byte 125 h2 (by decide) (by decide) (by decide) (by decide)
    cases h3 : any { j1 with lastTypeId := JT_INVALID } with
    | panic => simp [h3] at h
    | outOfFuel => simp [h3] at h
    | ret v1 e1 j2 =>
    simp only [h3] at h
    cases e1 with
    | some err => simp at h
    | none =>
    have t3 := hany ac { j1 with lastTypeId := JT_INVALID } _ _ t1 h3
    simp only at h
    split_ifs at h with g1
    · simp at h
    cases h4 : skipWhitespace data j2 with
    | none => simp [h4] at h
    | some j3 =>
    have t4 := skipWhitespace_noTC t3 h4
    simp only [h4] at h
    cases h5 : data[j3.idx]? with
    | none => simp [h5] at h
    | some c5 =>
    simp only [h5] at h
    split_ifs at h with g2
    · simp at h
    simp only [ne_eq, not_not] at g2
    subst g2
    have t5 := t4.byte 58 h5 (by decide) (by decide) (by decide) (by decide)
    cases h6 : skipWhitespace data { j3 with idx := j3.idx + 1 } with
    | none => simp [h6] at h
    | some j4 =>
    have t6 := skipWhitespace_noTC (j := { j3 with idx := j3.idx + 1 }) t5 h6
    simp only [h6] at h
    cases h7 : any j4 with
    | panic => simp [h7] at h
    | outOfFuel => simp [h7] at h
    | ret v2 e2 j5 =>
    simp only [h7] at h
    cases e2 with
    | some err => simp at h
    | none =>
    have t7 := hany _ _ _ _ t6 h7
    simp only at h
    have b8 := objectAddKey_idx S p v1 v2 j5
    rcases h8 : objectAddKey S p v1 v2 j5 with ⟨_ | err, j6⟩
    · rw [h8] at b8
      simp only at b8
      have t8 : NoTC data j6.idx false := by
        rw [b8]
        exact t7
      simp only [h8] at h
      cases h9 : skipWhitespace data j6 with
      | none => simp [h9] at h
      | some j7 =>
      have t9 := skipWhitespace_noTC t8 h9
      simp only [h9] at h
      cases h10 : data[j7.idx]? with
      | none => simp [h10] at h
      | some c10 =>
      simp only [h10] at h
      split_ifs at h with g3 g4
      · simp only [Outcome.ret.injEq] at h
        obtain ⟨-, -, rfl⟩ := h
        subst g3
        exact t9.byte 125 h10 (by decide) (by decide) (by decide) (by decide)
      · subst g4
        exact ih _ _ _ _ (t9.comma h10) h
      · simp at h
    · simp [h8] at h

theorem decodeArray_loop_noTC {σ : Type} (S : ObjectStore σ) (data : List Nat)
    (any : Decoder σ → Outcome σ) (arr : Value)
    (hany : ∀ (ac : Bool) j v j', NoTC data j.idx ac → any j = .ret v none j' →
      NoTC data j'.idx false) :
    ∀ (n len : Nat) (ac : Bool) (j : Decoder σ) (v : Value) (j' : Decoder σ),
      NoTC data j.idx ac → (len = 0 → ac = false) →
      decodeArray.loop S data any arr n len j = .ret v none j' → NoTC data j'.idx false := by
  intro n
  induction n with
  | zero => intro len ac j v j' _ _ h; simp [decodeArray.loop] at h
  | succ n ih =>
    intro len ac j v j' ht hlen h
    rw [decodeArray.loop] at h
    cases h1 : skipWhitespace data j with
    | none => simp [h1] at h
    | some j1 =>
    have t1 := skipWhitespace_noTC ht h1
    simp only [h1] at h
    cases h2 : data[j1.idx]? with
    | none => simp [h2] at h
    | some c =>
    simp only [h2] at h
    split_ifs at h with g0 g1
    · simp only [Outcome.ret.injEq] at h
      obtain ⟨-, -, rfl⟩ := h
      subst g0
      have hac := hlen g1
      subst hac
      exact t1.bracket h2
    · simp at h
    cases h3 : any j1 with
    | panic => simp [h3] at h
    | outOfFuel => simp [h3] at h
    | ret v1 e1 j2 =>
    simp only [h3] at h
    cases e1 with
    | some err => simp at h
    | none =>
    have t3 := hany _ _ _ _ t1 h3
    simp only at h
    cases h4 : (S.ArrayAddItem j2.store arr v1).1 with
    | some err => simp [h4] at h
    | none =>
    simp only [h4] at h
    cases h5 : skipWhitespace data { j2 with store := (S.ArrayAddItem j2.store arr v1).2 } with
    | none => simp [h5] at h
    | some j3 =>
    have t5 := skipWhitespace_noTC
      (j := { j2 with store := (S.ArrayAddItem j2.store arr v1).2 }) t3 h5
    simp only [h5] at h
    cases h6 : data[j3.idx]? with
    | none => simp [h6] at h
    | some c6 =>
    simp only [h6] at h
    split_ifs at h with g3 g4
    · simp only [Outcome.ret.injEq] at h
      obtain ⟨-, -, rfl⟩ := h
      subst g3
      exact t5.bracket h6
    · subst g4
      exact ih _ _ _ _ _ (t5.comma h6) (by omega) h
    · simp at h

theorem decodeAny_noTC {σ : Type} (S : ObjectStore σ) (data : List Nat) :
    ∀ (n : Nat) (ac : Bool) (j : Decoder σ) (v : Value) (j' : Decoder σ),
      NoTC data j.idx ac → decodeAny S data n j = .ret v none j' →
      NoTC data j'.idx false := by
  intro n
  induction n with
  | zero => intro ac j v j' _ h; simp [decodeAny] at h
  | succ n ih =>
    intro ac j v j' ht h
    rw [decodeAny] at h
    cases h2 : data[j.idx]? with
    | none => simp [h2] at h
    | some c =>
    simp only [h2] at h
    split_ifs at h with g1 g2 g3 g4 g5 g6 g7 g8
    · subst g1
      exact decodeString_noTC ht h2 h
    · refine decodeNumeric_noTC ht h2 ?_ h
      simp only [isNumericChar, Bool.or_eq_true, Bool.and_eq_true, decide_eq_true_eq] at g2 ⊢
      omega
    · subst g3
      unfold decodeArray at h
      simp only at h
      cases h3 : (S.NewArray j.store).2.1 with
      | some err => simp [h3] at h
      | none =>
        simp only [h3] at h
        exact decodeArray_loop_noTC S data _ _ (fun ac => ih ac) n 0 false _ _ _
          (ht.byte 91 h2 (by decide) (by decide) (by decide) (by decide)) (fun _ => rfl) h
    · subst g4
      unfold decodeObject at h
      exact decodeObject_loop_noTC S data _ _ (fun ac => ih ac) n false _ _ _
        (ht.byte 123 h2 (by decide) (by decide) (by decide) (by decide)) h
    · subst g5
      exact decodeTrue_noTC ht h2 h
    · subst g6
      exact decodeFalse_noTC ht h2 h
    · subst g7
      exact decodeNull_noTC ht h2 h
    · exact ih _ _ _ _ (ht.step_ws c h2 g8) h
    · simp at h

theorem Decode_noTC {σ : Type} (S : ObjectStore σ) (data : List Nat) (j : Decoder σ)
    (v : Value) (j' : Decoder σ) (h : Decode S data j = .ret v none j') :
    trailingComma .out false (data.take j'.idx) = false := by
  unfold Decode at h
  have t0 : NoTC data 0 false := by
    refine ⟨Nat.zero_le _, ?_, ?_, ?_⟩ <;> rw [slice_self] <;> rfl
  have t := decodeAny_noTC S data _ false { j with idx := 0, lastTypeId := JT_INVALID } v j' t0 h
  have e : slice data 0 j'.idx = data.take j'.idx := by simp [slice]
  rw [← e]
  exact t.2.2.1

/-- C16: trailing commas in arrays are rejected.
First part: a closing bracket at the head of the loop of `decodeArray` (after
optional whitespace) is accepted only with `len = 0`, and then the array is
returned as `NewArray` made it; with `len ≠ 0` the scanner returns the
UnexpectedCharacterInArray error, in any decoder state.
Second part: a turn of the loop that ends with a comma, whatever the element
is, goes on to the next turn with `len + 1`; so `len` counts the elements
appended so far.
Third part: after `k` such turns from a loop entered with `len`, a closing
bracket at the head of the loop is accepted only when `len + k = 0`, that is in
an array with no element appended, and gives the error with `len + k`
otherwise: a comma followed by the closing bracket is rejected after elements
of any kind, in every array at every depth.
Fourth part: the same through `Decode` for a root-level array with `k ≥ 1`
elements of any kind, each followed by a comma, and then the closing bracket.
Fifth part: for every input, when `Decode` returns a nil error the text it
consumed holds no comma that is followed, after whitespace only, by a right
bracket outside the string literals.
Sixth and seventh part: the text `c ds , ]` with a number element and optional
whitespace, in every array, and through `Decode` for a root-level array such as
`[1,]`. -/
theorem Decode_array_trailing_comma {σ : Type} (S : ObjectStore σ) :
    (∀ (data : List Nat) (any : Decoder σ → Outcome σ) (newObj : Value) (n len : Nat)
      (j : Decoder σ) (ws3 rest : List Nat), (∀ w ∈ ws3, isWhitespace w = true) →
      data.drop j.idx = ws3 ++ 93 :: rest →
      decodeArray.loop S data any newObj (n + 1) len j
        = if len = 0 then .ret newObj none { j with idx := j.idx + ws3.length + 1 }
          else .ret .nil (some (.unexpectedCharacterInArray len))
            { j with idx := j.idx + ws3.length }) ∧
    (∀ (data : List Nat) (any : Decoder σ → Outcome σ) (a : Value) (j j2 : Decoder σ)
      (n len : Nat), ArrayTurn S data any a j j2 →
      decodeArray.loop S data any a (n + 1) len j
        = decodeArray.loop S data any a n (len + 1) j2) ∧
    (∀ (data : List Nat) (any : Decoder σ → Outcome σ) (a : Value) (k : Nat)
      (j jh : Decoder σ) (ws rest : List Nat) (f len : Nat),
      ArrayTurns S data any a k j jh → (∀ w ∈ ws, isWhitespace w = true) →
      data.drop jh.idx = ws ++ 93 :: rest → k + 1 ≤ f →
      decodeArray.loop S data any a f len j
        = if len + k = 0 then .ret a none { jh with idx := jh.idx + ws.length + 1 }
          else .ret .nil (some (.unexpectedCharacterInArray (len + k)))
            { jh with idx := jh.idx + ws.length }) ∧
    (∀ (ws0 rest0 : List Nat) (j : Decoder σ) (k : Nat) (jh : Decoder σ) (ws rest : List Nat),
      (∀ w ∈ ws0, isWhitespace w = true) → (S.NewArray j.store).2.1 = none →
      ArrayTurns S (ws0 ++ 91 :: rest0) (decodeAny S (ws0 ++ 91 :: rest0) (rest0.length + 1))
        (S.NewArray j.store).1 k
        { store := (S.NewArray j.store).2.2, pool := j.pool, checked := j.checked,
          idx := ws0.length + 1, lastTypeId := JT_INVALID } jh →
      0 < k → (∀ w ∈ ws, isWhitespace w = true) →
      (ws0 ++ 91 :: rest0).drop jh.idx = ws ++ 93 :: rest →
      Decode S (ws0 ++ 91 :: rest0) j
        = .ret .nil (some (.unexpectedCharacterInArray k))
            { jh with idx := jh.idx + ws.length }) ∧
    (∀ (data : List Nat) (j : Decoder σ) (v : Value) (j' : Decoder σ),
      Decode S data j = .ret v none j' →
      trailingComma .out false (data.take j'.idx) = false) ∧
    (∀ (ws1 ds ws2 ws3 rest : List Nat) (c : Nat) (data : List Nat) (fuel n len : Nat)
      (newObj : Value) (j : Decoder σ),
      (∀ w ∈ ws1, isWhitespace w = true) → ((48 ≤ c ∧ c ≤ 57) ∨ c = 45) →
      (∀ d ∈ ds, isNumericChar d = true) → (∀ w ∈ ws2, isWhitespace w = true) →
      (∀ w ∈ ws3, isWhitespace w = true) →
      (S.NewNumeric j.store (c :: ds)).2.1 = none →
      (S.ArrayAddItem (S.NewNumeric j.store (c :: ds)).2.2 newObj
        (S.NewNumeric j.store (c :: ds)).1).1 = none →
      data.drop j.idx = ws1 ++ c :: (ds ++ (ws2 ++ 44 :: (ws3 ++ 93 :: rest))) →
      decodeArray.loop S data (decodeAny S data (fuel + 1)) newObj (n + 2) len j
        = .ret .nil (some (.unexpectedCharacterInArray (len + 1)))
            { j with
              store := (S.ArrayAddItem (S.NewNumeric j.store (c :: ds)).2.2 newObj
                (S.NewNumeric j.store (c :: ds)).1).2,
              idx := j.idx + ws1.length + (ds.length + 1) + ws2.length + 1 + ws3.length,
              lastTypeId := JT_NUMERIC }) ∧
    (∀ (ws1 ds ws2 ws3 rest : List Nat) (c : Nat) (ws0 : List Nat) (j : Decoder σ),
      (∀ w ∈ ws1, isWhitespace w = true) → ((48 ≤ c ∧ c ≤ 57) ∨ c = 45) →
      (∀ d ∈ ds, isNumericChar d = true) → (∀ w ∈ ws2, isWhitespace w = true) →
      (∀ w ∈ ws3, isWhitespace w = true) → (∀ w ∈ ws0, isWhitespace w = true) →
      (S.NewArray j.store).2.1 = none →
      (S.NewNumeric (S.NewArray j.store).2.2 (c :: ds)).2.1 = none →
      (S.ArrayAddItem (S.NewNumeric (S.NewArray j.store).2.2 (c :: ds)).2.2
        (S.NewArray j.store).1 (S.NewNumeric (S.NewArray j.store).2.2 (c :: ds)).1).1 = none →
      Decode S (ws0 ++ 91 :: (ws1 ++ c :: (ds ++ (ws2 ++ 44 :: (ws3 ++ 93 :: rest))))) j
        = .ret .nil (some (.unexpectedCharacterInArray 1))
            { j with
              store := (S.ArrayAddItem (S.NewNumeric (S.NewArray j.store).2.2 (c :: ds)).2.2
                (S.NewArray j.store).1
                (S.NewNumeric (S.NewArray j.store).2.2 (c :: ds)).1).2,
              idx := ws0.length + 1 + ws1.length + (ds.length + 1) + ws2.length + 1
                + ws3.length,
              lastTypeId := JT_NUMERIC }) := by
  refine ⟨?_, ?_, ?_, ?_, ?_, ?_, ?_⟩
  · intro data any newObj n len j ws3 rest h3 h
    exact decodeArray_loop_bracket S data any newObj n len j ws3 rest h3 h
  · intro data any a j j2 n len h
    exact decodeArray_loop_turn S data any a j j2 h n len
  · intro data any a k j jh ws rest f len h hws hd hf
    exact decodeArray_loop_after_turns_of_le S data any a k j jh h ws rest hws hd f len hf
  · intro ws0 rest0 j k jh ws rest h0 hA ht hk hws hd
    rw [Decode_skip S ws0 _ h0]
    have hlen : (91 :: rest0).length + 1 = (rest0.length + 1) + 1 := by
      simp only [List.length_cons]
    rw [hlen, decodeAny_bracket S _ _ _ (getElem?_append_length ws0 91 _)]
    unfold decodeArray
    simp only [hA]
    have hle := ArrayTurns.idx_le (decodeAny_bound S _ _) ht
    simp only at hle
    have hdl := congrArg List.length hd
    simp only [List.length_drop, List.length_append, List.length_cons] at hdl
    have key := decodeArray_loop_after_turns_of_le S (ws0 ++ 91 :: rest0)
      (decodeAny S (ws0 ++ 91 :: rest0) (rest0.length + 1)) (S.NewArray j.store).1 k
      { store := (S.NewArray j.store).2.2, pool := j.pool, checked := j.checked,
        idx := ws0.length + 1, lastTypeId := JT_INVALID } jh ht ws rest hws hd
      (rest0.length + 1) 0 (by omega)
    have hk0 : ¬ (0 + k = 0) := by omega
    rw [if_neg hk0, Nat.zero_add] at key
    rw [← key]
  · intro data j v j' h
    exact Decode_noTC S data j v j' h
  · intro ws1 ds ws2 ws3 rest c data fuel n len newObj j h1 hc hds h2 h3 hN hI h
    exact decodeArray_loop_trailing_comma S data fuel n len newObj j ws1 ds ws2 ws3 rest c
      h1 hc hds h2 h3 hN hI h
  · intro ws1 ds ws2 ws3 rest c ws0 j h1 hc hds h2 h3 h0 hA hN hI
    rw [Decode_skip S ws0 _ h0]
    have hlen : (91 :: (ws1 ++ c :: (ds ++ (ws2 ++ 44 :: (ws3 ++ 93 :: rest))))).length + 1
        = (ws1.length + ds.length + ws2.length + ws3.length + rest.length + 1 + 2 + 1) + 1 := by
      simp only [List.length_cons, List.length_append]
      omega
    rw [hlen, decodeAny_bracket S _ _ _ (getElem?_append_length ws0 91 _)]
    unfold decodeArray
    simp only [hA]
    have hdrop : List.drop (ws0.length + 1)
        (ws0 ++ 91 :: (ws1 ++ c :: (ds ++ (ws2 ++ 44 :: (ws3 ++ 93 :: rest)))))
        = ws1 ++ c :: (ds ++ (ws2 ++ 44 :: (ws3 ++ 93 :: rest))) := by
      have e : ws0 ++ 91 :: (ws1 ++ c :: (ds ++ (ws2 ++ 44 :: (ws3 ++ 93 :: rest))))
          = (ws0 ++ [91]) ++ (ws1 ++ c :: (ds ++ (ws2 ++ 44 :: (ws3 ++ 93 :: rest)))) := by
        simp
      rw [e]
      have e2 : ws0.length + 1 = (ws0 ++ [91]).length := by simp
      rw [e2, List.drop_left]
    have key := decodeArray_loop_trailing_comma_of_le S
      (ws0 ++ 91 :: (ws1 ++ c :: (ds ++ (ws2 ++ 44 :: (ws3 ++ 93 :: rest)))))
      (ws1.length + ds.length + ws2.length + ws3.length + rest.length + 1 + 2 + 1)
      (ws1.length + ds.length + ws2.length + ws3.length + rest.length + 1 + 2 + 1) 0
      (S.NewArray j.store).1
      { store := (S.NewArray j.store).2.2, pool := j.pool, checked := j.checked,
        idx := ws0.length + 1, lastTypeId := JT_INVALID }
      ws1 ds ws2 ws3 rest c (by omega) (by omega) h1 hc hds h2 h3 hN hI hdrop
    rw [key]

/-- C16, witness: `["a",]`. The turn of the string element `"a"` and its comma
leads from the head of the loop at index 1 to the head at index 5, where the
closing bracket stands: `Decode` returns the UnexpectedCharacterInArray error
with `len = 1`. The reader for trailing commas finds the comma of `["a",]` and
none in the text of `["a"]`, which `Decode` accepts. -/
theorem Decode_array_trailing_comma_witness :
    ArrayTurns logStore ([] ++ 91 :: [34, 97, 34, 44, 93])
        (decodeAny logStore ([] ++ 91 :: [34, 97, 34, 44, 93]) ([34, 97, 34, 44, 93].length + 1))
        (logStore.NewArray (NewDecoder [] (poolOf 1)).store).1 1
        ⟨[.NewArray], poolOf 1, [], 1, JT_INVALID⟩
        ⟨[.NewArray, .NewString [97], .ArrayAddItem (.iface 0) (.string [97])], poolOf 1, [],
          5, JT_UTF8⟩ ∧
      Decode logStore ([] ++ 91 :: [34, 97, 34, 44, 93]) (NewDecoder [] (poolOf 1))
        = .ret .nil (some (.unexpectedCharacterInArray 1))
            ⟨[.NewArray, .NewString [97], .ArrayAddItem (.iface 0) (.string [97])], poolOf 1,
              [], 5 + ([] : List Nat).length, JT_UTF8⟩ ∧
      trailingComma .out false [91, 34, 97, 34, 44, 93] = true ∧
      Decode logStore [91, 34, 97, 34, 93] (NewDecoder [] (poolOf 1))
        = .ret (.iface 0) none
            ⟨[.NewArray, .NewString [97], .ArrayAddItem (.iface 0) (.string [97])], poolOf 1,
              [], 5, JT_UTF8⟩ ∧
      trailingComma .out false
        (([91, 34, 97, 34, 93] : List Nat).take
          (⟨[.NewArray, .NewString [97], .ArrayAddItem (.iface 0) (.string [97])], poolOf 1,
              [], 5, JT_UTF8⟩ : Decoder (List StoreCall)).idx) = false :=
  (fun (ht : ArrayTurns logStore ([] ++ 91 :: [34, 97, 34, 44, 93])
        (decodeAny logStore ([] ++ 91 :: [34, 97, 34, 44, 93]) ([34, 97, 34, 44, 93].length + 1))
        (logStore.NewArray (NewDecoder [] (poolOf 1)).store).1 1
        ⟨[.NewArray], poolOf 1, [], 1, JT_INVALID⟩
        ⟨[.NewArray, .NewString [97], .ArrayAddItem (.iface 0) (.string [97])], poolOf 1, [],
          5, JT_UTF8⟩)
      (hd : Decode logStore [91, 34, 97, 34, 93] (NewDecoder [] (poolOf 1))
        = .ret (.iface 0) none
            ⟨[.NewArray, .NewString [97], .ArrayAddItem (.iface 0) (.string [97])], poolOf 1,
              [], 5, JT_UTF8⟩) =>
    ⟨ht,
      (Decode_array_trailing_comma logStore).2.2.2.1 [] [34, 97, 34, 44, 93]
        (NewDecoder [] (poolOf 1)) 1
        ⟨[.NewArray, .NewString [97], .ArrayAddItem (.iface 0) (.string [97])], poolOf 1, [],
          5, JT_UTF8⟩ [] [] (by decide) (by decide) ht (by decide) (by decide) (by decide),
      by decide, hd,
      (Decode_array_trailing_comma logStore).2.2.2.2.1 [91, 34, 97, 34, 93]
        (NewDecoder [] (poolOf 1)) _ _ hd⟩)
    (.succ 0 _ _ _
      ⟨⟨[.NewArray], poolOf 1, [], 1, JT_INVALID⟩, 34, .string [97],
        ⟨[.NewArray, .NewString [97]], poolOf 1, [], 4, JT_UTF8⟩,
        ⟨[.NewArray, .NewString [97], .ArrayAddItem (.iface 0) (.string [97])], poolOf 1, [],
          4, JT_UTF8⟩,
        by decide, by decide, by decide, by decide, by decide, by decide, by decide, by decide⟩
      (.zero _))
    (by decide)

end Ujson
